import Mathlib

/-!
# Verification of the `esi` package (ESI parser and processor)

This file gives a shallow embedding, in Lean, of the core of the `esi` Go
package: the `esixml` tokenizer (`Reader`), the grammar parser (`Parser`)
and the `esiproc` processing engine (`Processor`), together with theorems
settling the behavioural claims about them.

Modelling conventions:
* Go byte slices are `List Nat` (each element < 256 in practice);
  Go strings are byte sequences, hence also `List Nat`.
* Machine integers are `Nat` (all the arithmetic involved is on
  non-negative offsets and lengths and cannot overflow in practice).
* Fallible operations return `Except`/`Option`.
* The two collaborator interfaces (`Env`, `IncludeFunc`) are oracles:
  pure functions passed as parameters.
* I/O plumbing (`bufio.Reader`, `io.Writer`) is erased: the scanner works
  on the remaining input list, the processor returns the written bytes.
-/

namespace Esixml

/-- Bytes of an ASCII string literal (Go source literals used below are all ASCII). -/
def bytesOf (s : String) : List Nat := s.data.map Char.toNat

/-! ## UTF-8 decoding (Go `unicode/utf8.DecodeRune`) -/

/-- `utf8.RuneError` -/
def runeError : Nat := 0xFFFD

/-- Model of Go `utf8.DecodeRune`: returns the decoded rune and its size in
bytes; invalid or truncated encodings give `(runeError, 1)` (and `(runeError, 0)`
on empty input). -/
def utf8DecodeRune : List Nat → Nat × Nat
  | [] => (runeError, 0)
  | b0 :: rest =>
    if b0 < 0x80 then (b0, 1)
    else if b0 < 0xC2 then (runeError, 1)
    else if b0 ≤ 0xDF then
      match rest with
      | b1 :: _ =>
        if 0x80 ≤ b1 ∧ b1 ≤ 0xBF then ((b0 % 0x20) * 0x40 + b1 % 0x40, 2)
        else (runeError, 1)
      | [] => (runeError, 1)
    else if b0 ≤ 0xEF then
      match rest with
      | b1 :: b2 :: _ =>
        let lo1 : Nat := if b0 = 0xE0 then 0xA0 else 0x80
        let hi1 : Nat := if b0 = 0xED then 0x9F else 0xBF
        if lo1 ≤ b1 ∧ b1 ≤ hi1 ∧ 0x80 ≤ b2 ∧ b2 ≤ 0xBF then
          ((b0 % 0x10) * 0x1000 + (b1 % 0x40) * 0x40 + b2 % 0x40, 3)
        else (runeError, 1)
      | _ => (runeError, 1)
    else if b0 ≤ 0xF4 then
      match rest with
      | b1 :: b2 :: b3 :: _ =>
        let lo1 : Nat := if b0 = 0xF0 then 0x90 else 0x80
        let hi1 : Nat := if b0 = 0xF4 then 0x8F else 0xBF
        if lo1 ≤ b1 ∧ b1 ≤ hi1 ∧ 0x80 ≤ b2 ∧ b2 ≤ 0xBF ∧ 0x80 ≤ b3 ∧ b3 ≤ 0xBF then
          ((b0 % 0x8) * 0x40000 + (b1 % 0x40) * 0x1000 + (b2 % 0x40) * 0x40 + b3 % 0x40, 4)
        else (runeError, 1)
      | _ => (runeError, 1)
    else (runeError, 1)

/-- Every decode of a non-empty input consumes at least one byte. -/
theorem utf8DecodeRune_pos (l : List Nat) (h : l ≠ []) : 1 ≤ (utf8DecodeRune l).2 := by
  rcases l with _ | ⟨b0, rest⟩
  · exact absurd rfl h
  · rcases rest with _ | ⟨b1, rest⟩
    · simp only [utf8DecodeRune]; repeat' split
      all_goals norm_num
    · rcases rest with _ | ⟨b2, rest⟩
      · simp only [utf8DecodeRune]; repeat' split
        all_goals norm_num
      · rcases rest with _ | ⟨b3, rest⟩
        · simp only [utf8DecodeRune]; repeat' split
          all_goals norm_num
        · simp only [utf8DecodeRune]; repeat' split
          all_goals norm_num

/-- UTF-8 encoding of a rune, as Go `string(rune(c))` produces it (surrogates
and out-of-range values encode the replacement character). -/
def utf8Encode (c : Nat) : List Nat :=
  if c < 0x80 then [c]
  else if c < 0x800 then [0xC0 + c / 0x40, 0x80 + c % 0x40]
  else if 0xD800 ≤ c ∧ c ≤ 0xDFFF then [0xEF, 0xBF, 0xBD]
  else if c < 0x10000 then [0xE0 + c / 0x1000, 0x80 + (c / 0x40) % 0x40, 0x80 + c % 0x40]
  else if c ≤ 0x10FFFF then
    [0xF0 + c / 0x40000, 0x80 + (c / 0x1000) % 0x40, 0x80 + (c / 0x40) % 0x40, 0x80 + c % 0x40]
  else [0xEF, 0xBF, 0xBD]

/-! ## XML name character classes (transcribed from the Go source's copies of
`encoding/xml`'s `first` and `second` range tables) -/

def firstTable : List (Nat × Nat × Nat) := [
  (0x3a, 0x3a, 1), (0x41, 0x5a, 1), (0x5f, 0x5f, 1), (0x61, 0x7a, 1),
  (0xc0, 0xd6, 1), (0xd8, 0xf6, 1), (0xf8, 0xff, 1), (0x100, 0x131, 1),
  (0x134, 0x13e, 1), (0x141, 0x148, 1), (0x14a, 0x17e, 1), (0x180, 0x1c3, 1),
  (0x1cd, 0x1f0, 1), (0x1f4, 0x1f5, 1), (0x1fa, 0x217, 1), (0x250, 0x2a8, 1),
  (0x2bb, 0x2c1, 1), (0x386, 0x386, 1), (0x388, 0x38a, 1), (0x38c, 0x38c, 1),
  (0x38e, 0x3a1, 1), (0x3a3, 0x3ce, 1), (0x3d0, 0x3d6, 1), (0x3da, 0x3e0, 2),
  (0x3e2, 0x3f3, 1), (0x401, 0x40c, 1), (0x40e, 0x44f, 1), (0x451, 0x45c, 1),
  (0x45e, 0x481, 1), (0x490, 0x4c4, 1), (0x4c7, 0x4c8, 1), (0x4cb, 0x4cc, 1),
  (0x4d0, 0x4eb, 1), (0x4ee, 0x4f5, 1), (0x4f8, 0x4f9, 1), (0x531, 0x556, 1),
  (0x559, 0x559, 1), (0x561, 0x586, 1), (0x5d0, 0x5ea, 1), (0x5f0, 0x5f2, 1),
  (0x621, 0x63a, 1), (0x641, 0x64a, 1), (0x671, 0x6b7, 1), (0x6ba, 0x6be, 1),
  (0x6c0, 0x6ce, 1), (0x6d0, 0x6d3, 1), (0x6d5, 0x6d5, 1), (0x6e5, 0x6e6, 1),
  (0x905, 0x939, 1), (0x93d, 0x93d, 1), (0x958, 0x961, 1), (0x985, 0x98c, 1),
  (0x98f, 0x990, 1), (0x993, 0x9a8, 1), (0x9aa, 0x9b0, 1), (0x9b2, 0x9b2, 1),
  (0x9b6, 0x9b9, 1), (0x9dc, 0x9dd, 1), (0x9df, 0x9e1, 1), (0x9f0, 0x9f1, 1),
  (0xa05, 0xa0a, 1), (0xa0f, 0xa10, 1), (0xa13, 0xa28, 1), (0xa2a, 0xa30, 1),
  (0xa32, 0xa33, 1), (0xa35, 0xa36, 1), (0xa38, 0xa39, 1), (0xa59, 0xa5c, 1),
  (0xa5e, 0xa5e, 1), (0xa72, 0xa74, 1), (0xa85, 0xa8b, 1), (0xa8d, 0xa8d, 1),
  (0xa8f, 0xa91, 1), (0xa93, 0xaa8, 1), (0xaaa, 0xab0, 1), (0xab2, 0xab3, 1),
  (0xab5, 0xab9, 1), (0xabd, 0xae0, 0x23), (0xb05, 0xb0c, 1), (0xb0f, 0xb10, 1),
  (0xb13, 0xb28, 1), (0xb2a, 0xb30, 1), (0xb32, 0xb33, 1), (0xb36, 0xb39, 1),
  (0xb3d, 0xb3d, 1), (0xb5c, 0xb5d, 1), (0xb5f, 0xb61, 1), (0xb85, 0xb8a, 1),
  (0xb8e, 0xb90, 1), (0xb92, 0xb95, 1), (0xb99, 0xb9a, 1), (0xb9c, 0xb9c, 1),
  (0xb9e, 0xb9f, 1), (0xba3, 0xba4, 1), (0xba8, 0xbaa, 1), (0xbae, 0xbb5, 1),
  (0xbb7, 0xbb9, 1), (0xc05, 0xc0c, 1), (0xc0e, 0xc10, 1), (0xc12, 0xc28, 1),
  (0xc2a, 0xc33, 1), (0xc35, 0xc39, 1), (0xc60, 0xc61, 1), (0xc85, 0xc8c, 1),
  (0xc8e, 0xc90, 1), (0xc92, 0xca8, 1), (0xcaa, 0xcb3, 1), (0xcb5, 0xcb9, 1),
  (0xcde, 0xcde, 1), (0xce0, 0xce1, 1), (0xd05, 0xd0c, 1), (0xd0e, 0xd10, 1),
  (0xd12, 0xd28, 1), (0xd2a, 0xd39, 1), (0xd60, 0xd61, 1), (0xe01, 0xe2e, 1),
  (0xe30, 0xe30, 1), (0xe32, 0xe33, 1), (0xe40, 0xe45, 1), (0xe81, 0xe82, 1),
  (0xe84, 0xe84, 1), (0xe87, 0xe88, 1), (0xe8a, 0xe8d, 3), (0xe94, 0xe97, 1),
  (0xe99, 0xe9f, 1), (0xea1, 0xea3, 1), (0xea5, 0xea7, 2), (0xeaa, 0xeab, 1),
  (0xead, 0xeae, 1), (0xeb0, 0xeb0, 1), (0xeb2, 0xeb3, 1), (0xebd, 0xebd, 1),
  (0xec0, 0xec4, 1), (0xf40, 0xf47, 1), (0xf49, 0xf69, 1), (0x10a0, 0x10c5, 1),
  (0x10d0, 0x10f6, 1), (0x1100, 0x1100, 1), (0x1102, 0x1103, 1), (0x1105, 0x1107, 1),
  (0x1109, 0x1109, 1), (0x110b, 0x110c, 1), (0x110e, 0x1112, 1), (0x113c, 0x1140, 2),
  (0x114c, 0x1150, 2), (0x1154, 0x1155, 1), (0x1159, 0x1159, 1), (0x115f, 0x1161, 1),
  (0x1163, 0x1169, 2), (0x116d, 0x116e, 1), (0x1172, 0x1173, 1), (0x1175, 0x119e, 0x29),
  (0x11a8, 0x11ab, 0x3), (0x11ae, 0x11af, 1), (0x11b7, 0x11b8, 1), (0x11ba, 0x11ba, 1),
  (0x11bc, 0x11c2, 1), (0x11eb, 0x11f0, 0x5), (0x11f9, 0x11f9, 1), (0x1e00, 0x1e9b, 1),
  (0x1ea0, 0x1ef9, 1), (0x1f00, 0x1f15, 1), (0x1f18, 0x1f1d, 1), (0x1f20, 0x1f45, 1),
  (0x1f48, 0x1f4d, 1), (0x1f50, 0x1f57, 1), (0x1f59, 0x1f5b, 0x2), (0x1f5d, 0x1f5d, 1),
  (0x1f5f, 0x1f7d, 1), (0x1f80, 0x1fb4, 1), (0x1fb6, 0x1fbc, 1), (0x1fbe, 0x1fbe, 1),
  (0x1fc2, 0x1fc4, 1), (0x1fc6, 0x1fcc, 1), (0x1fd0, 0x1fd3, 1), (0x1fd6, 0x1fdb, 1),
  (0x1fe0, 0x1fec, 1), (0x1ff2, 0x1ff4, 1), (0x1ff6, 0x1ffc, 1), (0x2126, 0x2126, 1),
  (0x212a, 0x212b, 1), (0x212e, 0x212e, 1), (0x2180, 0x2182, 1), (0x3007, 0x3007, 1),
  (0x3021, 0x3029, 1), (0x3041, 0x3094, 1), (0x30a1, 0x30fa, 1), (0x3105, 0x312c, 1),
  (0x4e00, 0x9fa5, 1), (0xac00, 0xd7a3, 1)
]

def secondTable : List (Nat × Nat × Nat) := [
  (0x2d, 0x2e, 1), (0x30, 0x39, 1), (0xb7, 0xb7, 1), (0x2d0, 0x2d1, 1),
  (0x300, 0x345, 1), (0x360, 0x361, 1), (0x387, 0x387, 1), (0x483, 0x486, 1),
  (0x591, 0x5a1, 1), (0x5a3, 0x5b9, 1), (0x5bb, 0x5bd, 1), (0x5bf, 0x5bf, 1),
  (0x5c1, 0x5c2, 1), (0x5c4, 0x640, 0x7c), (0x64b, 0x652, 1), (0x660, 0x669, 1),
  (0x670, 0x670, 1), (0x6d6, 0x6dc, 1), (0x6dd, 0x6df, 1), (0x6e0, 0x6e4, 1),
  (0x6e7, 0x6e8, 1), (0x6ea, 0x6ed, 1), (0x6f0, 0x6f9, 1), (0x901, 0x903, 1),
  (0x93c, 0x93c, 1), (0x93e, 0x94c, 1), (0x94d, 0x94d, 1), (0x951, 0x954, 1),
  (0x962, 0x963, 1), (0x966, 0x96f, 1), (0x981, 0x983, 1), (0x9bc, 0x9bc, 1),
  (0x9be, 0x9bf, 1), (0x9c0, 0x9c4, 1), (0x9c7, 0x9c8, 1), (0x9cb, 0x9cd, 1),
  (0x9d7, 0x9d7, 1), (0x9e2, 0x9e3, 1), (0x9e6, 0x9ef, 1), (0xa02, 0xa3c, 0x3a),
  (0xa3e, 0xa3f, 1), (0xa40, 0xa42, 1), (0xa47, 0xa48, 1), (0xa4b, 0xa4d, 1),
  (0xa66, 0xa6f, 1), (0xa70, 0xa71, 1), (0xa81, 0xa83, 1), (0xabc, 0xabc, 1),
  (0xabe, 0xac5, 1), (0xac7, 0xac9, 1), (0xacb, 0xacd, 1), (0xae6, 0xaef, 1),
  (0xb01, 0xb03, 1), (0xb3c, 0xb3c, 1), (0xb3e, 0xb43, 1), (0xb47, 0xb48, 1),
  (0xb4b, 0xb4d, 1), (0xb56, 0xb57, 1), (0xb66, 0xb6f, 1), (0xb82, 0xb83, 1),
  (0xbbe, 0xbc2, 1), (0xbc6, 0xbc8, 1), (0xbca, 0xbcd, 1), (0xbd7, 0xbd7, 1),
  (0xbe7, 0xbef, 1), (0xc01, 0xc03, 1), (0xc3e, 0xc44, 1), (0xc46, 0xc48, 1),
  (0xc4a, 0xc4d, 1), (0xc55, 0xc56, 1), (0xc66, 0xc6f, 1), (0xc82, 0xc83, 1),
  (0xcbe, 0xcc4, 1), (0xcc6, 0xcc8, 1), (0xcca, 0xccd, 1), (0xcd5, 0xcd6, 1),
  (0xce6, 0xcef, 1), (0xd02, 0xd03, 1), (0xd3e, 0xd43, 1), (0xd46, 0xd48, 1),
  (0xd4a, 0xd4d, 1), (0xd57, 0xd57, 1), (0xd66, 0xd6f, 1), (0xe31, 0xe31, 1),
  (0xe34, 0xe3a, 1), (0xe46, 0xe46, 1), (0xe47, 0xe4e, 1), (0xe50, 0xe59, 1),
  (0xeb1, 0xeb1, 1), (0xeb4, 0xeb9, 1), (0xebb, 0xebc, 1), (0xec6, 0xec6, 1),
  (0xec8, 0xecd, 1), (0xed0, 0xed9, 1), (0xf18, 0xf19, 1), (0xf20, 0xf29, 1),
  (0xf35, 0xf39, 2), (0xf3e, 0xf3f, 1), (0xf71, 0xf84, 1), (0xf86, 0xf8b, 1),
  (0xf90, 0xf95, 1), (0xf97, 0xf97, 1), (0xf99, 0xfad, 1), (0xfb1, 0xfb7, 1),
  (0xfb9, 0xfb9, 1), (0x20d0, 0x20dc, 1), (0x20e1, 0x3005, 0xf24), (0x302a, 0x302f, 1),
  (0x3031, 0x3035, 1), (0x3099, 0x309a, 1), (0x309d, 0x309e, 1), (0x30fc, 0x30fe, 1)
]

/-- `unicode.Is` on one of the tables above: a rune is in the table when some
range `(lo, hi, stride)` has `lo ≤ r ≤ hi` and `(r - lo) % stride = 0`. -/
def inRangeTable (t : List (Nat × Nat × Nat)) (r : Nat) : Bool :=
  t.any fun e => decide (e.1 ≤ r) && decide (r ≤ e.2.1) && ((r - e.1) % e.2.2 == 0)

/-- Go `isNameByte`: quick ASCII test used while accumulating a name. -/
def isNameByte (c : Nat) : Bool :=
  (0x41 ≤ c && c ≤ 0x5A) || (0x61 ≤ c && c ≤ 0x7A) || (0x30 ≤ c && c ≤ 0x39) ||
    c == 0x5F || c == 0x3A || c == 0x2E || c == 0x2D

/-- Loop of Go `isName`, checking all runes after the first.  The recursion is
bounded by `fuel`; the initial call passes the byte length, which always
suffices because, by `utf8DecodeRune_pos`, every iteration advances by at
least one byte (the `fuel = 0` branch is dead code). -/
def isNameLoop (fuel : Nat) (s : List Nat) (n : Nat) : Bool :=
  match fuel with
  | 0 => true
  | fuel + 1 =>
    if n < s.length then
      let s' := s.drop n
      let d := utf8DecodeRune s'
      if d.1 == runeError && d.2 == 1 then false
      else if !inRangeTable firstTable d.1 && !inRangeTable secondTable d.1 then false
      else isNameLoop fuel s' d.2
    else true

/-- Go `isName`: validates a whole byte sequence against the XML name grammar. -/
def isName (s : List Nat) : Bool :=
  match s with
  | [] => false
  | _ :: _ =>
    let d := utf8DecodeRune s
    if d.1 == runeError && d.2 == 1 then false
    else if !inRangeTable firstTable d.1 then false
    else isNameLoop s.length s d.2

/-! ## Token and error types -/

/-- `esixml.Name`: `{Space, Local}` split of a (byte-string) name at its first colon. -/
structure Name where
  space : List Nat
  localName : List Nat
deriving DecidableEq, Repr

/-- Go `bytesToName`: split at the first `':'` byte (0x3A); no colon means no namespace. -/
def bytesToName (b : List Nat) : Name :=
  if b.contains 0x3A then
    ⟨b.takeWhile (fun c => c != 0x3A), (b.dropWhile (fun c => c != 0x3A)).tail⟩
  else ⟨[], b⟩

/-- `esixml.Position`: half-open byte range `[start, stop)` in the input. -/
structure Position where
  start : Nat
  stop : Nat
deriving DecidableEq, Repr

/-- `esixml.Attr`. -/
structure Attr where
  pos : Position
  name : Name
  value : List Nat
deriving DecidableEq, Repr

/-- `esixml.TokenType`. -/
inductive TokenType where
  | invalid
  | startElement
  | endElement
  | data
deriving DecidableEq, Repr

/-- `esixml.Token`. -/
structure Token where
  pos : Position := ⟨0, 0⟩
  type : TokenType := .invalid
  name : Name := ⟨[], []⟩
  attr : List Attr := []
  data : List Nat := []
  closed : Bool := false
deriving DecidableEq, Repr

/-- The scanner's error values (each Go error type becomes one constructor;
`eof` is `io.EOF`).  `deadCode` marks branches that are unreachable in the
source (fuel exhaustion of loops bounded by the input length). -/
inductive RErr where
  | eof
  | unexpectedEndOfInput (off : Nat) (expected : Nat)
  | unexpectedCharacter (off : Nat) (got : Nat) (expected : Nat)
  | invalidName (off : Nat)
  | duplicateAttribute (off : Nat) (name : List Nat)
  | syntaxError (off : Nat) (msg : String)
  | unsupportedEntity (off : Nat)
  | deadCode
deriving DecidableEq, Repr

/-! ## Reader primitives

Each primitive takes the current byte offset and the remaining input, and
returns the advanced offset and remaining input. -/

/-- Go `Reader.consume`: consume `b` if it is the next byte. -/
def consume (b : Nat) (off : Nat) : List Nat → Option (Nat × List Nat)
  | c :: rest => if c == b then some (off + 1, rest) else none
  | [] => none

/-- Go `Reader.consumeOrError`. -/
def consumeOrError (b : Nat) (off : Nat) : List Nat → Except RErr (Nat × List Nat)
  | c :: rest =>
    if c == b then .ok (off + 1, rest)
    else .error (.unexpectedCharacter off c b)
  | [] => .error (.unexpectedEndOfInput off b)

def isSpaceByte (b : Nat) : Bool := b == 0x20 || b == 0x0D || b == 0x0A || b == 0x09

/-- Go `Reader.discardSpaces`. -/
def discardSpaces (off : Nat) (rest : List Nat) : Nat × List Nat :=
  let sp := rest.takeWhile isSpaceByte
  (off + sp.length, rest.drop sp.length)

/-- Go `Reader.readName`: read a name starting at `off`; `isLocal` additionally
rejects names containing a colon. -/
def readName (isLocal : Bool) (off : Nat) (rest : List Nat) :
    Except RErr (Name × Nat × List Nat) :=
  match rest with
  | [] => .error (.unexpectedEndOfInput off 0)
  | b :: rest1 =>
    if b < 0x80 && !isNameByte b then .error (.invalidName off)
    else
      let more := rest1.takeWhile fun c => !(c < 0x80 && !isNameByte c)
      let name := b :: more
      if !isName name then .error (.invalidName off)
      else if isLocal && name.contains 0x3A then
        .error (.syntaxError off "name without namespace expected")
      else .ok (bytesToName name, off + name.length, rest1.drop more.length)

/-- The five standard entities (Go `entity` map), as rune values. -/
def entityLookup (name : List Nat) : Option Nat :=
  if name = bytesOf "lt" then some 0x3C
  else if name = bytesOf "gt" then some 0x3E
  else if name = bytesOf "amp" then some 0x26
  else if name = bytesOf "apos" then some 0x27
  else if name = bytesOf "quot" then some 0x22
  else none

def isDigitBase (base : Nat) (b : Nat) : Bool :=
  (0x30 ≤ b && b ≤ 0x39) ||
    (base == 16 && 0x61 ≤ b && b ≤ 0x66) ||
    (base == 16 && 0x41 ≤ b && b ≤ 0x46)

def digitValue (b : Nat) : Nat :=
  if 0x30 ≤ b && b ≤ 0x39 then b - 0x30
  else if 0x61 ≤ b && b ≤ 0x66 then b - 0x61 + 10
  else if 0x41 ≤ b && b ≤ 0x46 then b - 0x41 + 10
  else 0

def natOfDigits (base : Nat) (ds : List Nat) : Nat :=
  ds.foldl (fun acc b => acc * base + digitValue b) 0

/-- The digit-accumulation part of the numeric character reference branch of
Go `readQuotedAttrValue` (after `&#` and an optional `x` were consumed). -/
def readNumericDigits (base : Nat) (off : Nat) (rest : List Nat) :
    Except RErr (Nat × Nat × List Nat) :=
  let ds := rest.takeWhile (isDigitBase base)
  let off' := off + ds.length
  let rest' := rest.drop ds.length
  match rest' with
  | [] => .error (.unexpectedEndOfInput off' 0)
  | c :: _ =>
    if ds.isEmpty then .error (.unexpectedCharacter off' c 0)
    else
      match consumeOrError 0x3B off' rest' with
      | .error e => .error e
      | .ok (off2, rest2) =>
        let n := natOfDigits base ds
        if n > 0x10FFFF then
          .error (.syntaxError (off2 - ds.length) "invalid number in escape sequence")
        else .ok (n, off2, rest2)

/-- Numeric character reference: Go code after consuming `&#`. -/
def readNumericEscape (off : Nat) (rest : List Nat) : Except RErr (Nat × Nat × List Nat) :=
  match rest with
  | [] => .error (.unexpectedEndOfInput off 0)
  | b :: rest1 =>
    if b == 0x78 then readNumericDigits 16 (off + 1) rest1
    else readNumericDigits 10 off (b :: rest1)

/-- Go `Reader.readQuotedAttrValue`'s main loop; `q` is the quote byte, `buf`
the value accumulated so far.  `fuel` bounds the recursion (callers pass the
remaining input length plus one, which always suffices since every iteration
consumes at least one byte). -/
def readQuoted (fuel : Nat) (q : Nat) (buf : List Nat) (off : Nat) (rest : List Nat) :
    Except RErr (List Nat × Nat × List Nat) :=
  match fuel with
  | 0 => .error .deadCode
  | fuel + 1 =>
    match rest with
    | [] => .error (.unexpectedEndOfInput off 0)
    | b :: rest1 =>
      let off1 := off + 1
      if b == q then .ok (buf, off1, rest1)
      else if b == 0x3C then .error (.syntaxError (off1 - 1) "unescaped < inside quoted string")
      else if b == 0x0D then
        match consume 0x0A off1 rest1 with
        | some (off2, rest2) => readQuoted fuel q (buf ++ [0x0A]) off2 rest2
        | none => readQuoted fuel q (buf ++ [0x0A]) off1 rest1
      else if b == 0x26 then
        match consume 0x23 off1 rest1 with
        | some (off2, rest2) =>
          match readNumericEscape off2 rest2 with
          | .error e => .error e
          | .ok (ch, off3, rest3) => readQuoted fuel q (buf ++ utf8Encode ch) off3 rest3
        | none =>
          let eoff := off1
          match readName true off1 rest1 with
          | .error e => .error e
          | .ok (nm, off2, rest2) =>
            match consumeOrError 0x3B off2 rest2 with
            | .error e => .error e
            | .ok (off3, rest3) =>
              match entityLookup nm.localName with
              | some ch => readQuoted fuel q (buf ++ utf8Encode ch) off3 rest3
              | none => .error (.unsupportedEntity eoff)
      else readQuoted fuel q (buf ++ [b]) off1 rest1

def unquotedValueByte (b : Nat) : Bool :=
  (0x61 ≤ b && b ≤ 0x7A) || (0x41 ≤ b && b ≤ 0x5A) || (0x30 ≤ b && b ≤ 0x39) ||
    b == 0x5F || b == 0x3A || b == 0x2D

/-- Go `Reader.readAttrValue`: quoted values are handled by `readQuoted`;
unquoted values accumulate the HTML-compatible byte set and stop at the first
other byte (reaching the end of input instead is an error). -/
def readAttrValue (off : Nat) (rest : List Nat) : Except RErr (List Nat × Nat × List Nat) :=
  match rest with
  | b :: rest1 =>
    if b == 0x22 || b == 0x27 then
      readQuoted (rest1.length + 1) b [] (off + 1) rest1
    else
      let v := rest.takeWhile unquotedValueByte
      if v.length == rest.length then .error (.unexpectedEndOfInput (off + v.length) 0)
      else .ok (v, off + v.length, rest.drop v.length)
  | [] => .error (.unexpectedEndOfInput off 0)

/-- The attribute loop of Go `Reader.parseStartElement`.  Returns the `closed`
flag, the attributes, and the position after the closing `>`. -/
def attrLoop (fuel : Nat) (off : Nat) (rest : List Nat) (attrs : List Attr) :
    Except RErr (Bool × List Attr × Nat × List Nat) :=
  match fuel with
  | 0 => .error .deadCode
  | fuel + 1 =>
    let (off1, rest1) := discardSpaces off rest
    match consume 0x2F off1 rest1 with
    | some (off2, rest2) =>
      match consumeOrError 0x3E off2 rest2 with
      | .error e => .error e
      | .ok (off3, rest3) => .ok (true, attrs, off3, rest3)
    | none =>
      match consume 0x3E off1 rest1 with
      | some (off2, rest2) => .ok (false, attrs, off2, rest2)
      | none =>
        let aOff := off1
        match readName false off1 rest1 with
        | .error e => .error e
        | .ok (an, off2, rest2) =>
          let (off3, rest3) := discardSpaces off2 rest2
          match consumeOrError 0x3D off3 rest3 with
          | .error e => .error e
          | .ok (off4, rest4) =>
            match readAttrValue off4 rest4 with
            | .error e => .error e
            | .ok (av, off5, rest5) =>
              if attrs.any (fun a => a.name == an) then
                .error (.duplicateAttribute aOff an.localName)
              else
                attrLoop fuel off5 rest5 (attrs ++ [⟨⟨aOff, off5⟩, an, av⟩])

/-! ## The Reader state machine -/

/-- The three state functions of the `Reader` (`stateFn`). -/
inductive RFn where
  | elementOrData
  | startElement
  | endElement
deriving DecidableEq, Repr

/-- `esixml.Reader`'s observable state: current offset, remaining input,
sticky error, and pending state function. -/
structure RState where
  offset : Nat
  rest : List Nat
  err : Option RErr
  state : RFn
deriving DecidableEq, Repr

/-- Go `Reader.Reset` on a fresh input. -/
def Reader.reset (input : List Nat) : RState :=
  ⟨0, input, none, .elementOrData⟩

def hasEsiPrefix : List Nat → Bool
  | 0x65 :: 0x73 :: 0x69 :: 0x3A :: _ => true
  | _ => false

def hasSlashEsiPrefix : List Nat → Bool
  | 0x2F :: 0x65 :: 0x73 :: 0x69 :: 0x3A :: _ => true
  | _ => false

/-- The scan loop of Go `Reader.parseElementOrData`: accumulate data until a
`<` is found whose following bytes match `esi:` (start tag) or `/esi:` (end
tag).  Returns the accumulated data (including the final `<` when a tag was
found) and, when a tag was found, whether it is a start tag plus the input
after the `<`. -/
def findTag : List Nat → List Nat × Option (Bool × List Nat)
  | [] => ([], none)
  | b :: rest =>
    if b == 0x3C then
      if hasEsiPrefix rest then ([b], some (true, rest))
      else if hasSlashEsiPrefix rest then ([b], some (false, rest))
      else
        let r := findTag rest
        (b :: r.1, r.2)
    else
      let r := findTag rest
      (b :: r.1, r.2)

/-- One invocation result of a state function: produced token (if any),
produced error (if any), new offset, remaining input, next state function. -/
abbrev StepResult := Option Token × Option RErr × Nat × List Nat × RFn

/-- Go `Reader.parseElementOrData` (I/O erased). -/
def parseElementOrData (off : Nat) (rest : List Nat) : StepResult :=
  let r := findTag rest
  let data := r.1
  match r.2 with
  | none =>
    let off' := off + data.length
    if data.isEmpty then (none, some .eof, off', [], .elementOrData)
    else
      (some { type := .data, pos := ⟨off' - data.length, off'⟩, data := data },
        some .eof, off', [], .elementOrData)
  | some (isStart, rest') =>
    let off' := off + data.length
    let st := if isStart then RFn.startElement else RFn.endElement
    if data.length ≤ 1 then (none, none, off', rest', st)
    else
      (some { type := .data, pos := ⟨off' - data.length, off' - 1⟩, data := data.dropLast },
        none, off', rest', st)

/-- Go `Reader.parseStartElement` (entered with the `<` already consumed). -/
def parseStartElement (off0 : Nat) (rest0 : List Nat) : StepResult :=
  match readName false off0 rest0 with
  | .error e => (none, some e, off0, rest0, .startElement)
  | .ok (nm, off1, rest1) =>
    match attrLoop (rest1.length + 1) off1 rest1 [] with
    | .error e => (none, some e, off0, rest0, .startElement)
    | .ok (closed, attrs, off2, rest2) =>
      (some { type := .startElement, pos := ⟨off0 - 1, off2⟩, name := nm,
              attr := attrs, closed := closed },
        none, off2, rest2, .elementOrData)

/-- Go `Reader.parseEndElement` (entered with the `<` already consumed). -/
def parseEndElement (off0 : Nat) (rest0 : List Nat) : StepResult :=
  match consumeOrError 0x2F off0 rest0 with
  | .error e => (none, some e, off0, rest0, .endElement)
  | .ok (off1, rest1) =>
    match readName false off1 rest1 with
    | .error e => (none, some e, off0, rest0, .endElement)
    | .ok (nm, off2, rest2) =>
      let (off3, rest3) := discardSpaces off2 rest2
      match consumeOrError 0x3E off3 rest3 with
      | .error e => (none, some e, off0, rest0, .endElement)
      | .ok (off4, rest4) =>
        (some { type := .endElement, pos := ⟨off0 - 1, off4⟩, name := nm },
          none, off4, rest4, .elementOrData)

/-- Dispatch one state function. -/
def runStateFn : RFn → Nat → List Nat → StepResult
  | .elementOrData => parseElementOrData
  | .startElement => parseStartElement
  | .endElement => parseEndElement

/-- Go `Reader.Next`.  The loop runs state functions until a token or an error
is produced.  A tokenless, errorless invocation only happens in
`parseElementOrData` when a tag follows immediately, and the tag state
functions always produce, so the loop runs at most twice; the final fallback
is dead code. -/
def Reader.next (s : RState) : Except RErr Token × RState :=
  match s.err with
  | some e => (.error e, s)
  | none =>
    match runStateFn s.state s.offset s.rest with
    | (some t, e?, off, rest, fn) => (.ok t, ⟨off, rest, e?, fn⟩)
    | (none, some e, off, rest, fn) => (.error e, ⟨off, rest, some e, fn⟩)
    | (none, none, off, rest, fn) =>
      match runStateFn fn off rest with
      | (some t, e?, off2, rest2, fn2) => (.ok t, ⟨off2, rest2, e?, fn2⟩)
      | (_, some e, off2, rest2, fn2) => (.error e, ⟨off2, rest2, some e, fn2⟩)
      | (_, none, off2, rest2, fn2) => (.error .deadCode, ⟨off2, rest2, some .deadCode, fn2⟩)

/-- Collect tokens by repeatedly calling `Reader.next`, stopping at the first
error (which is also returned).  `fuel` bounds the loop; every produced token
consumes input, so `input.length + 1` calls always reach the sticky error. -/
def scanAll (fuel : Nat) (s : RState) : List Token × Option RErr :=
  match fuel with
  | 0 => ([], none)
  | fuel + 1 =>
    match Reader.next s with
    | (.error e, _) => ([], some e)
    | (.ok t, s') =>
      let r := scanAll fuel s'
      (t :: r.1, r.2)

end Esixml

namespace Esi

open Esixml

/-! ## Node tree (`esi` package node types)

Each Go node type becomes a constructor.  `TryElement.Attempt`/`Except` are
nilable pointers in Go (they are only filled in when the closing tag is
reached), hence `Option` here. -/

mutual
inductive ENode where
  | rawData (pos : Position) (bytes : List Nat)
  | includeEl (pos : Position) (attr : List Attr) (alt : List Nat) (onError : List Nat)
      (source : List Nat)
  | inlineEl (pos : Position) (attr : List Attr) (fragmentName : List Nat) (fetchable : Bool)
      (nodes : List ENode)
  | commentEl (pos : Position) (attr : List Attr) (text : List Nat)
  | removeEl (pos : Position) (attr : List Attr) (nodes : List ENode)
  | varsEl (pos : Position) (attr : List Attr) (nodes : List ENode)
  | chooseEl (pos : Position) (attr : List Attr) (whens : List WhenEl)
      (otherwise : Option OtherwiseEl)
  | tryEl (pos : Position) (attr : List Attr) (attempt : Option AttemptEl)
      (exceptBranch : Option ExceptEl)
  | attemptEl (e : AttemptEl)
  | exceptEl (e : ExceptEl)
  | whenEl (e : WhenEl)
  | otherwiseEl (e : OtherwiseEl)

inductive WhenEl where
  | mk (pos : Position) (attr : List Attr) (test : List Nat) (nodes : List ENode)

inductive OtherwiseEl where
  | mk (pos : Position) (attr : List Attr) (nodes : List ENode)

inductive AttemptEl where
  | mk (pos : Position) (attr : List Attr) (nodes : List ENode)

inductive ExceptEl where
  | mk (pos : Position) (attr : List Attr) (nodes : List ENode)
end

def WhenEl.pos : WhenEl → Position
  | .mk p _ _ _ => p

def WhenEl.attr : WhenEl → List Attr
  | .mk _ a _ _ => a

def WhenEl.test : WhenEl → List Nat
  | .mk _ _ t _ => t

def WhenEl.nodes : WhenEl → List ENode
  | .mk _ _ _ ns => ns

def OtherwiseEl.pos : OtherwiseEl → Position
  | .mk p _ _ => p

def OtherwiseEl.nodes : OtherwiseEl → List ENode
  | .mk _ _ ns => ns

def AttemptEl.pos : AttemptEl → Position
  | .mk p _ _ => p

def AttemptEl.nodes : AttemptEl → List ENode
  | .mk _ _ ns => ns

def ExceptEl.pos : ExceptEl → Position
  | .mk p _ _ => p

def ExceptEl.nodes : ExceptEl → List ENode
  | .mk _ _ ns => ns

def esiName (l : String) : Name := ⟨bytesOf "esi", bytesOf l⟩

/-- `Node.Pos` of each node kind. -/
def ENode.nodePos : ENode → Position
  | .rawData p _ => p
  | .includeEl p _ _ _ _ => p
  | .inlineEl p _ _ _ _ => p
  | .commentEl p _ _ => p
  | .removeEl p _ _ => p
  | .varsEl p _ _ => p
  | .chooseEl p _ _ _ => p
  | .tryEl p _ _ _ => p
  | .attemptEl e => e.pos
  | .exceptEl e => e.pos
  | .whenEl e => e.pos
  | .otherwiseEl e => e.pos

/-- `Element.Name` of each element kind (`rawData` is not an `Element`; the
value returned for it is never used). -/
def ENode.elName : ENode → Name
  | .rawData _ _ => ⟨[], []⟩
  | .includeEl _ _ _ _ _ => esiName "include"
  | .inlineEl _ _ _ _ _ => esiName "inline"
  | .commentEl _ _ _ => esiName "comment"
  | .removeEl _ _ _ => esiName "remove"
  | .varsEl _ _ _ => esiName "vars"
  | .chooseEl _ _ _ _ => esiName "choose"
  | .tryEl _ _ _ _ => esiName "try"
  | .attemptEl _ => esiName "attempt"
  | .exceptEl _ => esiName "except"
  | .whenEl _ => esiName "when"
  | .otherwiseEl _ => esiName "otherwise"

/-! ## Parser errors (`esi` package error types) -/

inductive PErr where
  | readerErr (e : RErr)
  | unexpectedEOF
  | duplicateElement (pos : Position) (name : Name)
  | emptyElement (pos : Position) (name : Name)
  | invalidAttributeValue (pos : Position) (element : Name) (name : Name) (value : List Nat)
      (allowed : List (List Nat))
  | invalidElement (pos : Position) (name : Name)
  | missingAttribute (pos : Position) (element : Name) (attrName : Name)
  | missingElement (pos : Position) (name : Name)
  | unclosedElement (pos : Position) (name : Name)
  | unexpectedElement (pos : Position) (name : Name)
  | unexpectedEndElement (pos : Position) (name : Name) (expected : Option Name)
  | unexpectedToken (pos : Position) (type : TokenType) (expected : List TokenType)
  | deadCode
deriving DecidableEq, Repr

/-! ## Parser stack helpers

The Go parser keeps a `[]Node` stack in which `nil` entries mark the start of
a scope (`pushScope` pushes the scope's element followed by `nil`). -/

/-- Go `Parser.current`: the top stack entry (if any). -/
def current (st : List (Option ENode)) : Option ENode :=
  match st.getLast? with
  | some e => e
  | none => none

def currentScopeRev : List (Option ENode) → Option ENode
  | [] => none
  | none :: rest =>
    match rest with
    | [] => none
    | x :: _ => x
  | some _ :: rest => currentScopeRev rest

/-- Go `Parser.currentScope`: the element owning the innermost open scope. -/
def currentScope (st : List (Option ENode)) : Option ENode :=
  currentScopeRev st.reverse

def exitScopeAux (acc : List ENode) : List (Option ENode) → Option (List ENode × List (Option ENode))
  | [] => none
  | none :: below => some (acc, below.reverse)
  | some n :: rest => exitScopeAux (n :: acc) rest

/-- Go `Parser.exitScope`: removes the topmost scope marker and everything
above it, returning those children (in document order) and the remaining
stack, whose top entry is the scope's element.  `none` corresponds to the
`panic("no open scope")`, which is dead code during parsing. -/
def exitScope (st : List (Option ENode)) : Option (List ENode × List (Option ENode)) :=
  exitScopeAux [] st.reverse

/-- Go `takeAttr`: removes and returns the first attribute with an empty
namespace and the given local name; otherwise returns the zero `Attr` and
`false`, leaving the list unchanged. -/
def takeAttr (attrs : List Attr) (name : List Nat) : (Attr × Bool) × List Attr :=
  match attrs with
  | [] => ((⟨⟨0, 0⟩, ⟨[], []⟩, []⟩, false), [])
  | a :: rest =>
    if a.name.space = [] ∧ a.name.localName = name then ((a, true), rest)
    else
      let r := takeAttr rest name
      (r.1, a :: r.2)

/-! ## The parser state machine -/

/-- The parser's `stateFn` values, one per `parse*` method. -/
inductive PFn where
  | dataOrElement
  | data
  | element
  | endElement
  | attemptStart
  | attemptEnd
  | chooseStart
  | chooseEnd
  | commentStart
  | exceptStart
  | exceptEnd
  | includeStart
  | inlineStart
  | inlineEnd
  | otherwiseStart
  | otherwiseEnd
  | removeStart
  | removeEnd
  | tryStart
  | tryEnd
  | varsStart
  | varsEnd
  | whenStart
  | whenEnd
deriving DecidableEq, Repr

/-- `esi.Parser`'s observable state. -/
structure PState where
  rdr : RState
  unread : Option Token
  stack : List (Option ENode)
  err : Option PErr
  state : PFn

/-- Go `Parser.Reset` on fresh input. -/
def Parser.reset (input : List Nat) : PState :=
  ⟨Reader.reset input, none, [], none, .dataOrElement⟩

/-- Go `Parser.nextToken`: the unread token if any, else the next reader token. -/
def nextToken (p : PState) : Except PErr Token × PState :=
  match p.unread with
  | some t => (.ok t, { p with unread := none })
  | none =>
    let r := Reader.next p.rdr
    match r.1 with
    | .ok t => (.ok t, { p with rdr := r.2 })
    | .error e => (.error (.readerErr e), { p with rdr := r.2 })

/-- Go `Parser.mustNextToken`: like `nextToken` but turning `io.EOF` into
`io.ErrUnexpectedEOF`. -/
def mustNextToken (p : PState) : Except PErr Token × PState :=
  match nextToken p with
  | (.error (.readerErr .eof), p') => (.error .unexpectedEOF, p')
  | (.error e, p') => (.error e, p')
  | (.ok t, p') => (.ok t, p')

/-- Go `Parser.mustNextTyped`. -/
def mustNextTyped (typ : TokenType) (p : PState) : Except PErr Token × PState :=
  match mustNextToken p with
  | (.error e, p') => (.error e, p')
  | (.ok t, p') =>
    if t.type ≠ typ then
      (.error (.unexpectedToken t.pos t.type [typ]), p')
    else (.ok t, p')

/-- Go `Parser.mustNextEndElement`. -/
def mustNextEndElement (localName : List Nat) (p : PState) : Except PErr Token × PState :=
  match mustNextTyped .endElement p with
  | (.error e, p') => (.error e, p')
  | (.ok t, p') =>
    if t.name.localName ≠ localName then
      (.error (.unexpectedEndElement t.pos t.name none), p')
    else (.ok t, p')

/-- Go `Parser.mustNextStartElement`. -/
def mustNextStartElement (localName : List Nat) (p : PState) : Except PErr Token × PState :=
  match mustNextTyped .startElement p with
  | (.error e, p') => (.error e, p')
  | (.ok t, p') =>
    if t.name.localName ≠ localName then
      (.error (.unexpectedElement t.pos t.name), p')
    else (.ok t, p')

/-- Result of one parser state function: produced node (if any), error (if
any), new state. -/
abbrev PStepResult := Option ENode × Option PErr × PState

/-- Go `Parser.pushNestedOrReturn`. -/
def pushNestedOrReturn (p : PState) (n : ENode) : Option ENode × PState :=
  if p.stack.isEmpty then (some n, p)
  else (none, { p with stack := p.stack ++ [some n] })

/-- Go `Parser.pushScope`. -/
def pushScope (p : PState) (n : ENode) : PState :=
  { p with stack := p.stack ++ [some n, none] }

/-- Go `Parser.popIfRoot`. -/
def popIfRoot (p : PState) : Option ENode × PState :=
  if p.stack.length = 1 then
    (current p.stack, { p with stack := [] })
  else (none, p)

/-- The child-collection loop of Go `Parser.parseChooseElementEnd`: `when`
children are appended, at most one `otherwise` is kept (a second one is a
duplicate-element error), all other children are discarded. -/
def chooseFold (whens : List WhenEl) (oth : Option OtherwiseEl) :
    List ENode → Except PErr (List WhenEl × Option OtherwiseEl)
  | [] => .ok (whens, oth)
  | n :: rest =>
    match n with
    | .whenEl w => chooseFold (whens ++ [w]) oth rest
    | .otherwiseEl o =>
      match oth with
      | some _ => .error (.duplicateElement o.pos (esiName "otherwise"))
      | none => chooseFold whens (some o) rest
    | _ => chooseFold whens oth rest

/-- Child collection and validation of Go `Parser.parseChooseElementEnd`:
after folding the children, at least one `when` is required (the
missing-element error is reported at the end tag's position). -/
def chooseFinish (endPos : Position) (children : List ENode) :
    Except PErr (List WhenEl × Option OtherwiseEl) :=
  match chooseFold [] none children with
  | .error e => .error e
  | .ok (whens, oth) =>
    if whens.isEmpty then .error (.missingElement endPos (esiName "when"))
    else .ok (whens, oth)

/-- The child-collection loop of Go `Parser.parseTryElementEnd`. -/
def tryFold (att : Option AttemptEl) (exc : Option ExceptEl) :
    List ENode → Except PErr (Option AttemptEl × Option ExceptEl)
  | [] => .ok (att, exc)
  | n :: rest =>
    match n with
    | .attemptEl a =>
      match att with
      | some _ => .error (.duplicateElement a.pos (esiName "attempt"))
      | none => tryFold (some a) exc rest
    | .exceptEl e =>
      match exc with
      | some _ => .error (.duplicateElement e.pos (esiName "except"))
      | none => tryFold att (some e) rest
    | _ => tryFold att exc rest

/-- Child collection and validation of Go `Parser.parseTryElementEnd`:
exactly one `attempt` and one `except` are required. -/
def tryFinish (endPos : Position) (children : List ENode) :
    Except PErr (AttemptEl × ExceptEl) :=
  match tryFold none none children with
  | .error e => .error e
  | .ok (att, exc) =>
    match att with
    | none => .error (.missingElement endPos (esiName "attempt"))
    | some a =>
      match exc with
      | none => .error (.missingElement endPos (esiName "except"))
      | some e => .ok (a, e)

end Esi

namespace Esi

open Esixml

/-! ## Parser state functions (one per Go `parse*` method) -/

/-- Go `Parser.parseDataOrElement`. -/
def parseDataOrElementFn (p : PState) : PStepResult :=
  match nextToken p with
  | (.error e, p') => (none, some e, p')
  | (.ok tok, p') =>
    let st :=
      match tok.type with
      | .invalid => p'.state
      | .startElement => PFn.element
      | .endElement => PFn.endElement
      | .data => PFn.data
    (none, none, { p' with unread := some tok, state := st })

/-- Go `Parser.parseData`. -/
def parseDataFn (p : PState) : PStepResult :=
  match mustNextTyped .data p with
  | (.error e, p') => (none, some e, p')
  | (.ok tok, p') =>
    let p'' := { p' with state := .dataOrElement }
    let r := pushNestedOrReturn p'' (.rawData tok.pos tok.data)
    (r.1, none, r.2)

/-- Go `Parser.parseElement`: dispatch on the start element's local name. -/
def parseElementFn (p : PState) : PStepResult :=
  match mustNextTyped .startElement p with
  | (.error e, p') => (none, some e, p')
  | (.ok tok, p') =>
    let st? : Option PFn :=
      if tok.name.localName = bytesOf "attempt" then some .attemptStart
      else if tok.name.localName = bytesOf "choose" then some .chooseStart
      else if tok.name.localName = bytesOf "comment" then some .commentStart
      else if tok.name.localName = bytesOf "except" then some .exceptStart
      else if tok.name.localName = bytesOf "include" then some .includeStart
      else if tok.name.localName = bytesOf "inline" then some .inlineStart
      else if tok.name.localName = bytesOf "otherwise" then some .otherwiseStart
      else if tok.name.localName = bytesOf "remove" then some .removeStart
      else if tok.name.localName = bytesOf "try" then some .tryStart
      else if tok.name.localName = bytesOf "vars" then some .varsStart
      else if tok.name.localName = bytesOf "when" then some .whenStart
      else none
    match st? with
    | none => (none, some (.invalidElement tok.pos tok.name), p')
    | some st => (none, none, { p' with unread := some tok, state := st })

/-- Go `Parser.parseEndElement`: check the end tag against the open scope and
dispatch to the scope's end handler. -/
def parseEndElementFn (p : PState) : PStepResult :=
  match mustNextTyped .endElement p with
  | (.error e, p') => (none, some e, p')
  | (.ok tok, p') =>
    match currentScope p'.stack with
    | none => (none, some (.unexpectedEndElement tok.pos tok.name none), p')
    | some parent =>
      if parent.elName ≠ tok.name then
        (none, some (.unexpectedEndElement tok.pos tok.name (some parent.elName)), p')
      else
        let st? : Option PFn :=
          if tok.name.localName = bytesOf "attempt" then some .attemptEnd
          else if tok.name.localName = bytesOf "choose" then some .chooseEnd
          else if tok.name.localName = bytesOf "except" then some .exceptEnd
          else if tok.name.localName = bytesOf "inline" then some .inlineEnd
          else if tok.name.localName = bytesOf "otherwise" then some .otherwiseEnd
          else if tok.name.localName = bytesOf "remove" then some .removeEnd
          else if tok.name.localName = bytesOf "try" then some .tryEnd
          else if tok.name.localName = bytesOf "vars" then some .varsEnd
          else if tok.name.localName = bytesOf "when" then some .whenEnd
          else none
        match st? with
        | none => (none, some (.invalidElement tok.pos tok.name), p')
        | some st => (none, none, { p' with unread := some tok, state := st })

/-- Go `Parser.parseAttemptElement`. -/
def parseAttemptElementFn (p : PState) : PStepResult :=
  match mustNextStartElement (bytesOf "attempt") p with
  | (.error e, p') => (none, some e, p')
  | (.ok tok, p') =>
    match currentScope p'.stack with
    | some (.tryEl _ _ _ _) =>
      let p'' := pushScope p' (.attemptEl (.mk tok.pos tok.attr []))
      (none, none, { p'' with state := .dataOrElement })
    | _ => (none, some (.unexpectedElement tok.pos tok.name), p')

/-- Go `Parser.parseExceptElement`. -/
def parseExceptElementFn (p : PState) : PStepResult :=
  match mustNextStartElement (bytesOf "except") p with
  | (.error e, p') => (none, some e, p')
  | (.ok tok, p') =>
    match currentScope p'.stack with
    | some (.tryEl _ _ _ _) =>
      let p'' := pushScope p' (.exceptEl (.mk tok.pos tok.attr []))
      (none, none, { p'' with state := .dataOrElement })
    | _ => (none, some (.unexpectedElement tok.pos tok.name), p')

/-- Go `Parser.parseWhenElement`. -/
def parseWhenElementFn (p : PState) : PStepResult :=
  match mustNextStartElement (bytesOf "when") p with
  | (.error e, p') => (none, some e, p')
  | (.ok tok, p') =>
    match currentScope p'.stack with
    | some (.chooseEl _ _ _ _) =>
      let r := takeAttr tok.attr (bytesOf "test")
      if !r.1.2 then
        (none, some (.missingAttribute tok.pos tok.name ⟨[], bytesOf "test"⟩), p')
      else
        let p'' := pushScope p' (.whenEl (.mk tok.pos r.2 r.1.1.value []))
        (none, none, { p'' with state := .dataOrElement })
    | _ => (none, some (.unexpectedElement tok.pos tok.name), p')

/-- Go `Parser.parseOtherwiseElement`. -/
def parseOtherwiseElementFn (p : PState) : PStepResult :=
  match mustNextStartElement (bytesOf "otherwise") p with
  | (.error e, p') => (none, some e, p')
  | (.ok tok, p') =>
    match currentScope p'.stack with
    | some (.chooseEl _ _ _ _) =>
      let p'' := pushScope p' (.otherwiseEl (.mk tok.pos tok.attr []))
      (none, none, { p'' with state := .dataOrElement })
    | _ => (none, some (.unexpectedElement tok.pos tok.name), p')

/-- Go `Parser.parseChooseElement`. -/
def parseChooseElementFn (p : PState) : PStepResult :=
  match mustNextStartElement (bytesOf "choose") p with
  | (.error e, p') => (none, some e, p')
  | (.ok tok, p') =>
    if tok.closed then (none, some (.emptyElement tok.pos tok.name), p')
    else
      let p'' := pushScope p' (.chooseEl tok.pos tok.attr [] none)
      (none, none, { p'' with state := .dataOrElement })

/-- Go `Parser.parseTryElement`. -/
def parseTryElementFn (p : PState) : PStepResult :=
  match mustNextStartElement (bytesOf "try") p with
  | (.error e, p') => (none, some e, p')
  | (.ok tok, p') =>
    if tok.closed then (none, some (.emptyElement tok.pos tok.name), p')
    else
      let p'' := pushScope p' (.tryEl tok.pos tok.attr none none)
      (none, none, { p'' with state := .dataOrElement })

/-- Go `Parser.parseRemoveElement`. -/
def parseRemoveElementFn (p : PState) : PStepResult :=
  match mustNextStartElement (bytesOf "remove") p with
  | (.error e, p') => (none, some e, p')
  | (.ok tok, p') =>
    if tok.closed then (none, some (.emptyElement tok.pos tok.name), p')
    else
      let p'' := pushScope p' (.removeEl tok.pos tok.attr [])
      (none, none, { p'' with state := .dataOrElement })

/-- Go `Parser.parseVarsElement`. -/
def parseVarsElementFn (p : PState) : PStepResult :=
  match mustNextStartElement (bytesOf "vars") p with
  | (.error e, p') => (none, some e, p')
  | (.ok tok, p') =>
    if tok.closed then (none, some (.emptyElement tok.pos tok.name), p')
    else
      let p'' := pushScope p' (.varsEl tok.pos tok.attr [])
      (none, none, { p'' with state := .dataOrElement })

/-- Go `Parser.parseInlineElement`: attributes are validated before the
self-closing check. -/
def parseInlineElementFn (p : PState) : PStepResult :=
  match mustNextStartElement (bytesOf "inline") p with
  | (.error e, p') => (none, some e, p')
  | (.ok tok, p') =>
    let rn := takeAttr tok.attr (bytesOf "name")
    if !rn.1.2 then
      (none, some (.missingAttribute tok.pos tok.name ⟨[], bytesOf "name"⟩), p')
    else
      let rf := takeAttr rn.2 (bytesOf "fetchable")
      if !rf.1.2 then
        (none, some (.missingAttribute tok.pos tok.name ⟨[], bytesOf "fetchable"⟩), p')
      else if rf.1.1.value ≠ bytesOf "no" ∧ rf.1.1.value ≠ bytesOf "yes" then
        (none, some (.invalidAttributeValue tok.pos tok.name ⟨[], bytesOf "fetchable"⟩
          rf.1.1.value [bytesOf "no", bytesOf "yes"]), p')
      else if tok.closed then
        (none, some (.emptyElement tok.pos tok.name), p')
      else
        let p'' := pushScope p'
          (.inlineEl tok.pos rf.2 rn.1.1.value (rf.1.1.value = bytesOf "yes") [])
        (none, none, { p'' with state := .dataOrElement })

/-- Go `Parser.parseCommentElement`. -/
def parseCommentElementFn (p : PState) : PStepResult :=
  match mustNextStartElement (bytesOf "comment") p with
  | (.error e, p') => (none, some e, p')
  | (.ok tok, p') =>
    if !tok.closed then (none, some (.unclosedElement tok.pos tok.name), p')
    else
      let rt := takeAttr tok.attr (bytesOf "text")
      if !rt.1.2 then
        (none, some (.missingAttribute tok.pos tok.name ⟨[], bytesOf "text"⟩), p')
      else
        let p'' := { p' with state := .dataOrElement }
        let r := pushNestedOrReturn p'' (.commentEl tok.pos rt.2 rt.1.1.value)
        (r.1, none, r.2)

/-- The token-to-node part of Go `Parser.parseIncludeElement`: must
self-close; `alt` is optional, `onerror` must be `continue` when present,
`src` is required; consumed attributes are removed from the residual list. -/
def includeFromToken (tok : Token) : Except PErr ENode :=
  if !tok.closed then .error (.unclosedElement tok.pos tok.name)
  else
    let ra := takeAttr tok.attr (bytesOf "alt")
    let ro := takeAttr ra.2 (bytesOf "onerror")
    if ro.1.2 ∧ ro.1.1.value ≠ bytesOf "continue" then
      .error (.invalidAttributeValue ⟨ro.1.1.pos.start, ro.1.1.pos.stop⟩ tok.name
        ⟨[], bytesOf "onerror"⟩ ro.1.1.value [bytesOf "continue"])
    else
      let rs := takeAttr ro.2 (bytesOf "src")
      if !rs.1.2 then
        .error (.missingAttribute tok.pos tok.name ⟨[], bytesOf "src"⟩)
      else
        .ok (.includeEl tok.pos rs.2 ra.1.1.value ro.1.1.value rs.1.1.value)

/-- Go `Parser.parseIncludeElement`. -/
def parseIncludeElementFn (p : PState) : PStepResult :=
  match mustNextStartElement (bytesOf "include") p with
  | (.error e, p') => (none, some e, p')
  | (.ok tok, p') =>
    match includeFromToken tok with
    | .error e => (none, some e, p')
    | .ok node =>
      let p'' := { p' with state := .dataOrElement }
      let r := pushNestedOrReturn p'' node
      (r.1, none, r.2)

/-- Shared shape of the simple scope-closing handlers (`attempt`, `except`,
`when`, `otherwise`, `inline`, `remove`, `vars`): exit the scope and install
the children into the element left on the stack.  `update` rebuilds the
element from its children and the end tag's final offset. -/
def closeScope (p : PState) (tok : Token) (update : ENode → List ENode → Nat → Option ENode) :
    Except PErr PState :=
  match exitScope p.stack with
  | none => .error .deadCode
  | some (children, below) =>
    match current below with
    | none => .error .deadCode
    | some el =>
      match update el children tok.pos.stop with
      | none => .error .deadCode
      | some el' => .ok { p with stack := below.dropLast ++ [some el'], state := .dataOrElement }

/-- Go `Parser.parseAttemptElementEnd`. -/
def parseAttemptElementEndFn (p : PState) : PStepResult :=
  match mustNextEndElement (bytesOf "attempt") p with
  | (.error e, p') => (none, some e, p')
  | (.ok tok, p') =>
    match closeScope p' tok (fun el children stop =>
      match el with
      | .attemptEl (.mk pos attr _) => some (.attemptEl (.mk ⟨pos.start, stop⟩ attr children))
      | _ => none) with
    | .error e => (none, some e, p')
    | .ok p'' => (none, none, p'')

/-- Go `Parser.parseExceptElementEnd`. -/
def parseExceptElementEndFn (p : PState) : PStepResult :=
  match mustNextEndElement (bytesOf "except") p with
  | (.error e, p') => (none, some e, p')
  | (.ok tok, p') =>
    match closeScope p' tok (fun el children stop =>
      match el with
      | .exceptEl (.mk pos attr _) => some (.exceptEl (.mk ⟨pos.start, stop⟩ attr children))
      | _ => none) with
    | .error e => (none, some e, p')
    | .ok p'' => (none, none, p'')

/-- Go `Parser.parseWhenElementEnd`. -/
def parseWhenElementEndFn (p : PState) : PStepResult :=
  match mustNextEndElement (bytesOf "when") p with
  | (.error e, p') => (none, some e, p')
  | (.ok tok, p') =>
    match closeScope p' tok (fun el children stop =>
      match el with
      | .whenEl (.mk pos attr test _) => some (.whenEl (.mk ⟨pos.start, stop⟩ attr test children))
      | _ => none) with
    | .error e => (none, some e, p')
    | .ok p'' => (none, none, p'')

/-- Go `Parser.parseOtherwiseElementEnd`. -/
def parseOtherwiseElementEndFn (p : PState) : PStepResult :=
  match mustNextEndElement (bytesOf "otherwise") p with
  | (.error e, p') => (none, some e, p')
  | (.ok tok, p') =>
    match closeScope p' tok (fun el children stop =>
      match el with
      | .otherwiseEl (.mk pos attr _) => some (.otherwiseEl (.mk ⟨pos.start, stop⟩ attr children))
      | _ => none) with
    | .error e => (none, some e, p')
    | .ok p'' => (none, none, p'')

/-- Go `Parser.parseInlineElementEnd` (roots are emitted via `popIfRoot`). -/
def parseInlineElementEndFn (p : PState) : PStepResult :=
  match mustNextEndElement (bytesOf "inline") p with
  | (.error e, p') => (none, some e, p')
  | (.ok tok, p') =>
    match closeScope p' tok (fun el children stop =>
      match el with
      | .inlineEl pos attr nm f _ => some (.inlineEl ⟨pos.start, stop⟩ attr nm f children)
      | _ => none) with
    | .error e => (none, some e, p')
    | .ok p'' =>
      let r := popIfRoot p''
      (r.1, none, r.2)

/-- Go `Parser.parseRemoveElementEnd`. -/
def parseRemoveElementEndFn (p : PState) : PStepResult :=
  match mustNextEndElement (bytesOf "remove") p with
  | (.error e, p') => (none, some e, p')
  | (.ok tok, p') =>
    match closeScope p' tok (fun el children stop =>
      match el with
      | .removeEl pos attr _ => some (.removeEl ⟨pos.start, stop⟩ attr children)
      | _ => none) with
    | .error e => (none, some e, p')
    | .ok p'' =>
      let r := popIfRoot p''
      (r.1, none, r.2)

/-- Go `Parser.parseVarsElementEnd`. -/
def parseVarsElementEndFn (p : PState) : PStepResult :=
  match mustNextEndElement (bytesOf "vars") p with
  | (.error e, p') => (none, some e, p')
  | (.ok tok, p') =>
    match closeScope p' tok (fun el children stop =>
      match el with
      | .varsEl pos attr _ => some (.varsEl ⟨pos.start, stop⟩ attr children)
      | _ => none) with
    | .error e => (none, some e, p')
    | .ok p'' =>
      let r := popIfRoot p''
      (r.1, none, r.2)

/-- Go `Parser.parseChooseElementEnd`. -/
def parseChooseElementEndFn (p : PState) : PStepResult :=
  match mustNextEndElement (bytesOf "choose") p with
  | (.error e, p') => (none, some e, p')
  | (.ok tok, p') =>
    match exitScope p'.stack with
    | none => (none, some .deadCode, p')
    | some (children, below) =>
      match current below with
      | some (.chooseEl pos attr _ _) =>
        match chooseFinish tok.pos children with
        | .error e => (none, some e, p')
        | .ok (whens, oth) =>
          let el' := ENode.chooseEl ⟨pos.start, tok.pos.stop⟩ attr whens oth
          let p'' := { p' with stack := below.dropLast ++ [some el'], state := .dataOrElement }
          let r := popIfRoot p''
          (r.1, none, r.2)
      | _ => (none, some .deadCode, p')

/-- Go `Parser.parseTryElementEnd`. -/
def parseTryElementEndFn (p : PState) : PStepResult :=
  match mustNextEndElement (bytesOf "try") p with
  | (.error e, p') => (none, some e, p')
  | (.ok tok, p') =>
    match exitScope p'.stack with
    | none => (none, some .deadCode, p')
    | some (children, below) =>
      match current below with
      | some (.tryEl pos attr _ _) =>
        match tryFinish tok.pos children with
        | .error e => (none, some e, p')
        | .ok (att, exc) =>
          let el' := ENode.tryEl ⟨pos.start, tok.pos.stop⟩ attr (some att) (some exc)
          let p'' := { p' with stack := below.dropLast ++ [some el'], state := .dataOrElement }
          let r := popIfRoot p''
          (r.1, none, r.2)
      | _ => (none, some .deadCode, p')

/-- Dispatch one parser state function. -/
def runPFn : PFn → PState → PStepResult
  | .dataOrElement => parseDataOrElementFn
  | .data => parseDataFn
  | .element => parseElementFn
  | .endElement => parseEndElementFn
  | .attemptStart => parseAttemptElementFn
  | .attemptEnd => parseAttemptElementEndFn
  | .chooseStart => parseChooseElementFn
  | .chooseEnd => parseChooseElementEndFn
  | .commentStart => parseCommentElementFn
  | .exceptStart => parseExceptElementFn
  | .exceptEnd => parseExceptElementEndFn
  | .includeStart => parseIncludeElementFn
  | .inlineStart => parseInlineElementFn
  | .inlineEnd => parseInlineElementEndFn
  | .otherwiseStart => parseOtherwiseElementFn
  | .otherwiseEnd => parseOtherwiseElementEndFn
  | .removeStart => parseRemoveElementFn
  | .removeEnd => parseRemoveElementEndFn
  | .tryStart => parseTryElementFn
  | .tryEnd => parseTryElementEndFn
  | .varsStart => parseVarsElementFn
  | .varsEnd => parseVarsElementEndFn
  | .whenStart => parseWhenElementFn
  | .whenEnd => parseWhenElementEndFn

/-- The error finishing logic at the end of Go `Parser.Next`: a non-EOF error
is returned as-is; EOF with an open scope is an unclosed-element error; plain
EOF otherwise.  The stored error is left untouched, so later calls recompute
the same value. -/
def finishNext (e : PErr) (p : PState) : Except PErr ENode × PState :=
  if e = .readerErr .eof then
    match currentScope p.stack with
    | some el =>
      (.error (.unclosedElement ⟨el.nodePos.start, el.nodePos.stop⟩ el.elName), p)
    | none => (.error (.readerErr .eof), p)
  else (.error e, p)

/-- Go `Parser.Next`: run state functions until a node or an error is
produced.  `fuel` bounds the loop; it cannot run out because every third
iteration consumes input. -/
def Parser.next (fuel : Nat) (p : PState) : Except PErr ENode × PState :=
  match fuel with
  | 0 =>
    match p.err with
    | some e => finishNext e p
    | none => (.error .deadCode, { p with err := some .deadCode })
  | fuel + 1 =>
    match p.err with
    | some e => finishNext e p
    | none =>
      let r := runPFn p.state p
      let p' := { r.2.2 with err := r.2.1 }
      match r.1 with
      | some n => (.ok n, p')
      | none =>
        match r.2.1 with
        | some e => finishNext e p'
        | none => Parser.next fuel p'

/-- Go `Parser.All` (collecting into a list): yields nodes until EOF (not
reported) or an error (reported). -/
def parseAllAux (fuel : Nat) (p : PState) : List ENode × Option PErr :=
  match fuel with
  | 0 => ([], some .deadCode)
  | fuel + 1 =>
    let innerFuel := p.rdr.rest.length * 4 + 16
    match Parser.next innerFuel p with
    | (.error (.readerErr .eof), _) => ([], none)
    | (.error e, _) => ([], some e)
    | (.ok n, p') =>
      let r := parseAllAux fuel p'
      (n :: r.1, r.2)

/-- Parse a whole input: the node sequence, or the first error. -/
def esiParse (input : List Nat) : Except PErr (List ENode) :=
  let r := parseAllAux (input.length + 2) (Parser.reset input)
  match r.2 with
  | some e => .error e
  | none => .ok r.1

end Esi

namespace Esiproc

open Esixml Esi

/-! ## The processing engine (`esiproc` package)

The engine is modelled in two stages, mirroring the pipeline in
`Processor.Process`:

1. the producer goroutine (`processNodesIter`/`processNodes`/`processNode`)
   turns the node sequence into an ordered sequence of "chunks" sent over the
   `resC` channel: plain data, a pending include (whose eventual result is the
   pure function of the element and the fetch oracle computed by the include
   goroutine), or an error;
2. the writer loop awaits each chunk in order and writes its bytes, stopping
   at the first error.

Concurrency is modelled separately by a small transition system over the chunk
sequence (`TStep`), in which include fetches complete in an arbitrary order
and the writer can only consume a chunk once its own fetch has completed. -/

/-- A dynamically typed value returned by `Env.Eval` (`any` in Go): either a
boolean or some non-boolean value. -/
inductive GoVal where
  | boolV (b : Bool)
  | otherV (tag : Nat)
deriving DecidableEq, Repr

/-- Errors produced while processing.  `external` embeds error values returned
by the collaborators (`Env.Eval`, `Env.Interpolate`, `IncludeFunc`), which the
engine passes through unchanged; `nilDeref` marks the nil-pointer dereference
a hand-built `TryElement` without branches would cause in Go. -/
inductive ProcErr where
  | unexpectedElement (el : ENode)
  | unsupportedElement (el : ENode)
  | invalidExpressionResult (el : WhenEl) (expr : List Nat) (result : GoVal)
  | external (code : Nat)
  | iterErr (e : PErr)
  | nilDeref

/-- The `Env` collaborator interface as a pure oracle. -/
structure Env where
  eval : List Nat → Except Nat GoVal
  interpolate : List Nat → Except Nat (List Nat)

/-- The `IncludeFunc` collaborator: url and meta attributes to bytes. -/
abbrev IncludeFunc := List Nat → List (List Nat × List Nat) → Except Nat (List Nat)

/-- `esixml.Name.String`. -/
def nameString (n : Name) : List Nat :=
  if n.space = [] then n.localName else n.space ++ [0x3A] ++ n.localName

def mapInsert (m : List (List Nat × List Nat)) (k v : List Nat) : List (List Nat × List Nat) :=
  if m.any (fun p => p.1 = k) then m.map (fun p => if p.1 = k then (k, v) else p)
  else m ++ [(k, v)]

/-- Go `attrsToMap`: the element's residual attributes keyed by full name. -/
def attrsToMap (attrs : List Attr) : List (List Nat × List Nat) :=
  attrs.foldl (fun m a => mapInsert m (nameString a.name) a.value) []

/-- Go `Processor.includeURL`: interpolate the URL through the environment
when one is configured, then fetch. -/
def includeURL (env? : Option Env) (incFunc : IncludeFunc) (urlStr : List Nat)
    (meta : List (List Nat × List Nat)) : Except ProcErr (List Nat) :=
  match env? with
  | none =>
    match incFunc urlStr meta with
    | .ok d => .ok d
    | .error e => .error (.external e)
  | some env =>
    match env.interpolate urlStr with
    | .error e => .error (.external e)
    | .ok s =>
      match incFunc s meta with
      | .ok d => .ok d
      | .error e => .error (.external e)

/-- The body of the include goroutine in Go `Processor.include`: fetch `src`;
on failure retry `alt` when non-empty; a still-failing include with
`onerror="continue"` resolves to no output and no error. -/
def includeResult (env? : Option Env) (incFunc : IncludeFunc) (attr : List Attr)
    (alt onError source : List Nat) : Except ProcErr (List Nat) :=
  let meta := attrsToMap attr
  match includeURL env? incFunc source meta with
  | .ok d => .ok d
  | .error e1 =>
    let r2 := if alt ≠ [] then includeURL env? incFunc alt meta else .error e1
    match r2 with
    | .ok d => .ok d
    | .error e2 => if onError = bytesOf "continue" then .ok [] else .error e2

/-- One `processedNode` sent over `resC`: plain data, a pending include with
its (eventually available) result, or an error. -/
inductive Chunk where
  | out (data : List Nat)
  | inc (res : Except ProcErr (List Nat))
  | fail (e : ProcErr)

/-- Go `processedNode.wait`: the chunk's data or error once available. -/
def chunkRes : Chunk → Except ProcErr (List Nat)
  | .out d => .ok d
  | .inc r => r
  | .fail e => .error e

/-- The consumption loop of the `TryElement` case of `Processor.processNode`:
await every chunk of the attempt subtree in order, collecting the data; the
first failure aborts the collection. -/
def collectChunks : List Chunk → Except ProcErr (List (List Nat))
  | [] => .ok []
  | c :: cs =>
    match chunkRes c with
    | .error e => .error e
    | .ok d =>
      match collectChunks cs with
      | .error e => .error e
      | .ok ds => .ok (d :: ds)

mutual

/-- Go `Processor.processNode`: the chunks this node sends to `resC`. -/
def processNode (env? : Option Env) (incF? : Option IncludeFunc) : ENode → List Chunk
  | .attemptEl e => [.fail (.unexpectedElement (.attemptEl e))]
  | .commentEl _ _ _ => []
  | .chooseEl pos attr whens oth =>
    match env? with
    | none => [.fail (.unsupportedElement (.chooseEl pos attr whens oth))]
    | some env => processWhens env? incF? env oth whens
  | .exceptEl e => [.fail (.unexpectedElement (.exceptEl e))]
  | .includeEl pos attr alt onE src =>
    match incF? with
    | none => [.fail (.unsupportedElement (.includeEl pos attr alt onE src))]
    | some incF => [.inc (includeResult env? incF attr alt onE src)]
  | .inlineEl p a n f ns => [.fail (.unsupportedElement (.inlineEl p a n f ns))]
  | .otherwiseEl e => [.fail (.unexpectedElement (.otherwiseEl e))]
  | .removeEl _ _ _ => []
  | .rawData _ bytes => [.out bytes]
  | .tryEl _ _ att? exc? =>
    match att?, exc? with
    | some (.mk _ _ attNodes), some (.mk _ _ excNodes) =>
      let cs := processNodes env? incF? attNodes
      match collectChunks cs with
      | .ok datas => datas.map Chunk.out
      | .error _ => processNodes env? incF? excNodes
    | _, _ => [.fail .nilDeref]
  | .varsEl p a ns => [.fail (.unsupportedElement (.varsEl p a ns))]
  | .whenEl e => [.fail (.unexpectedElement (.whenEl e))]
  termination_by n => sizeOf n

/-- The `when` loop of the `ChooseElement` case: evaluate tests in order; an
evaluation error or non-boolean result fails; the first true test selects its
branch; otherwise fall through to `otherwise` (or nothing). -/
def processWhens (env? : Option Env) (incF? : Option IncludeFunc) (env : Env)
    (oth : Option OtherwiseEl) : List WhenEl → List Chunk
  | [] =>
    match oth with
    | none => []
    | some (.mk _ _ othNodes) => processNodes env? incF? othNodes
  | .mk wp wa wt wns :: ws =>
    match env.eval wt with
    | .error e => [.fail (.external e)]
    | .ok (.boolV true) => processNodes env? incF? wns
    | .ok (.boolV false) => processWhens env? incF? env oth ws
    | .ok (.otherV t) =>
      [.fail (.invalidExpressionResult (.mk wp wa wt wns) wt (.otherV t))]
  termination_by ws => sizeOf oth + sizeOf ws

/-- Go `Processor.processNodes`. -/
def processNodes (env? : Option Env) (incF? : Option IncludeFunc) : List ENode → List Chunk
  | [] => []
  | n :: ns => processNode env? incF? n ++ processNodes env? incF? ns
  termination_by ns => sizeOf ns

end

/-- Go `Processor.processNodesIter`: a streaming node source; a stream error
is forwarded as an error chunk and stops production. -/
def processNodesIter (env? : Option Env) (incF? : Option IncludeFunc) :
    List (Except PErr ENode) → List Chunk
  | [] => []
  | .error e :: _ => [.fail (.iterErr e)]
  | .ok n :: rest => processNode env? incF? n ++ processNodesIter env? incF? rest

/-- The writer loop of Go `Processor.Process`: await each chunk in order and
append its data; the first error stops the loop.  Returns the chunk data
written, and the error if any. -/
def consumeChunks : List Chunk → List (List Nat) × Option ProcErr
  | [] => ([], none)
  | c :: cs =>
    match chunkRes c with
    | .error e => ([], some e)
    | .ok d =>
      let r := consumeChunks cs
      (d :: r.1, r.2)

/-- `Processor` options (`processorOptions`): `incConcurrency` bounds the
number of concurrent include fetches (default 1); it only affects scheduling,
never values, which the theorems below make precise. -/
structure ProcessorOpts where
  env : Option Env := none
  incConcurrency : Nat := 1
  incFunc : Option IncludeFunc := none

/-- Go `Processor.Process` (with the context plumbing erased): the bytes
written to `w`, in order, and the returned error.  On an error the Go method
reports a written count of 0, but the bytes already written to `w` stay
written; the first component is exactly those bytes. -/
def Processor.process (o : ProcessorOpts) (nodes : List (Except PErr ENode)) :
    List Nat × Option ProcErr :=
  let r := consumeChunks (processNodesIter o.env o.incFunc nodes)
  (r.1.flatten, r.2)

end Esiproc

namespace Esiproc

open Esixml Esi

/-! ## Specification-side model: strict left-to-right synchronous evaluation

Modelled from the spec: "final output byte sequence is identical to strict
left-to-right synchronous evaluation"; the per-node semantics follow §4.3 of
the spec (choose / include / try / comment / remove / vars / inline /
stray-container rules).  Includes are fetched synchronously at their position
in the walk; each node's output bytes are appended before the next node is
evaluated; the first error stops the walk. -/

mutual

def specProcessNode (env? : Option Env) (incF? : Option IncludeFunc) :
    ENode → List Nat × Option ProcErr
  | .attemptEl e => ([], some (.unexpectedElement (.attemptEl e)))
  | .commentEl _ _ _ => ([], none)
  | .chooseEl pos attr whens oth =>
    match env? with
    | none => ([], some (.unsupportedElement (.chooseEl pos attr whens oth)))
    | some env => specWhens env? incF? env oth whens
  | .exceptEl e => ([], some (.unexpectedElement (.exceptEl e)))
  | .includeEl pos attr alt onE src =>
    match incF? with
    | none => ([], some (.unsupportedElement (.includeEl pos attr alt onE src)))
    | some incF =>
      match includeResult env? incF attr alt onE src with
      | .ok d => (d, none)
      | .error e => ([], some e)
  | .inlineEl p a n f ns => ([], some (.unsupportedElement (.inlineEl p a n f ns)))
  | .otherwiseEl e => ([], some (.unexpectedElement (.otherwiseEl e)))
  | .removeEl _ _ _ => ([], none)
  | .rawData _ bytes => (bytes, none)
  | .tryEl _ _ att? exc? =>
    match att?, exc? with
    | some (.mk _ _ attNodes), some (.mk _ _ excNodes) =>
      let r := specProcessNodes env? incF? attNodes
      match r.2 with
      | some _ => specProcessNodes env? incF? excNodes
      | none => r
    | _, _ => ([], some .nilDeref)
  | .varsEl p a ns => ([], some (.unsupportedElement (.varsEl p a ns)))
  | .whenEl e => ([], some (.unexpectedElement (.whenEl e)))
  termination_by n => sizeOf n

def specWhens (env? : Option Env) (incF? : Option IncludeFunc) (env : Env)
    (oth : Option OtherwiseEl) : List WhenEl → List Nat × Option ProcErr
  | [] =>
    match oth with
    | none => ([], none)
    | some (.mk _ _ othNodes) => specProcessNodes env? incF? othNodes
  | .mk wp wa wt wns :: ws =>
    match env.eval wt with
    | .error e => ([], some (.external e))
    | .ok (.boolV true) => specProcessNodes env? incF? wns
    | .ok (.boolV false) => specWhens env? incF? env oth ws
    | .ok (.otherV t) =>
      ([], some (.invalidExpressionResult (.mk wp wa wt wns) wt (.otherV t)))
  termination_by ws => sizeOf oth + sizeOf ws

def specProcessNodes (env? : Option Env) (incF? : Option IncludeFunc) :
    List ENode → List Nat × Option ProcErr
  | [] => ([], none)
  | n :: ns =>
    let r := specProcessNode env? incF? n
    match r.2 with
    | some e => (r.1, some e)
    | none =>
      let q := specProcessNodes env? incF? ns
      (r.1 ++ q.1, q.2)
  termination_by ns => sizeOf ns

end

/-! ## Concurrent execution as a transition system

The writer walks the chunk sequence strictly in order; include fetches,
launched eagerly by the producer, complete in an arbitrary order.  A state
records the data written so far, the index of the next chunk to be consumed,
the set of completed fetches and whether the walk aborted with an error.
`TStep` has one transition for an arbitrary fetch completing and one for each
way the writer can consume its next chunk; consuming a pending include
requires that include's own fetch (and only that one) to have completed. -/

structure TState where
  written : List (List Nat)
  pos : Nat
  done : List Nat
  aborted : Option ProcErr

def TState.init : TState := ⟨[], 0, [], none⟩

inductive TStep (chunks : List Chunk) : TState → TState → Prop where
  | fetch (s : TState) (i : Nat) (r : Except ProcErr (List Nat))
      (hi : chunks.get? i = some (.inc r)) (hnd : i ∉ s.done) :
      TStep chunks s { s with done := i :: s.done }
  | writeData (s : TState) (d : List Nat)
      (hab : s.aborted = none) (hc : chunks.get? s.pos = some (.out d)) :
      TStep chunks s { s with written := s.written ++ [d], pos := s.pos + 1 }
  | writeInc (s : TState) (d : List Nat)
      (hab : s.aborted = none) (hc : chunks.get? s.pos = some (.inc (.ok d)))
      (hdone : s.pos ∈ s.done) :
      TStep chunks s { s with written := s.written ++ [d], pos := s.pos + 1 }
  | abortInc (s : TState) (e : ProcErr)
      (hab : s.aborted = none) (hc : chunks.get? s.pos = some (.inc (.error e)))
      (hdone : s.pos ∈ s.done) :
      TStep chunks s { s with aborted := some e }
  | abortFail (s : TState) (e : ProcErr)
      (hab : s.aborted = none) (hc : chunks.get? s.pos = some (.fail e)) :
      TStep chunks s { s with aborted := some e }

/-- Reachability: any interleaving of fetch completions and writer steps. -/
def TReach (chunks : List Chunk) : TState → TState → Prop :=
  Relation.ReflTransGen (TStep chunks)

/-- A complete execution: the writer aborted, or it consumed every chunk. -/
def TFinal (chunks : List Chunk) (s : TState) : Prop :=
  s.aborted.isSome ∨ s.pos = chunks.length

end Esiproc

namespace Esiproc

open Esixml Esi

/-! ## Refinement: the chunk pipeline computes the sequential semantics -/

theorem consumeChunks_append (cs ds : List Chunk) :
    consumeChunks (cs ++ ds) =
      match (consumeChunks cs).2 with
      | some _ => consumeChunks cs
      | none => ((consumeChunks cs).1 ++ (consumeChunks ds).1, (consumeChunks ds).2) := by
  induction cs with
  | nil => simp [consumeChunks]
  | cons c cs ih =>
    simp only [List.cons_append, consumeChunks]
    cases chunkRes c with
    | error e => simp
    | ok d =>
      simp only [List.append_eq]
      rw [ih]
      cases h : (consumeChunks cs).2 <;> simp [h]

theorem consumeChunks_outs (ds : List (List Nat)) :
    consumeChunks (ds.map Chunk.out) = (ds, none) := by
  induction ds with
  | nil => rfl
  | cons d ds ih => simp [consumeChunks, chunkRes, ih]

theorem collectChunks_eq (cs : List Chunk) :
    collectChunks cs =
      match (consumeChunks cs).2 with
      | none => .ok (consumeChunks cs).1
      | some e => .error e := by
  induction cs with
  | nil => rfl
  | cons c cs ih =>
    simp only [collectChunks, consumeChunks]
    cases chunkRes c with
    | error e => simp
    | ok d =>
      simp only []
      rw [ih]
      cases h : (consumeChunks cs).2 <;> simp [h]

mutual

theorem processNode_refines (env? : Option Env) (incF? : Option IncludeFunc) (n : ENode) :
    ((consumeChunks (processNode env? incF? n)).1.flatten,
      (consumeChunks (processNode env? incF? n)).2) = specProcessNode env? incF? n := by
  cases n with
  | attemptEl e => simp [processNode, specProcessNode, consumeChunks, chunkRes]
  | commentEl p a t => simp [processNode, specProcessNode, consumeChunks]
  | chooseEl pos attr whens oth =>
    cases env? with
    | none => simp [processNode, specProcessNode, consumeChunks, chunkRes]
    | some env =>
      simpa [processNode, specProcessNode] using
        processWhens_refines (some env) incF? env oth whens
  | exceptEl e => simp [processNode, specProcessNode, consumeChunks, chunkRes]
  | includeEl pos attr alt onE src =>
    cases incF? with
    | none => simp [processNode, specProcessNode, consumeChunks, chunkRes]
    | some incF =>
      simp only [processNode, specProcessNode]
      cases h : includeResult env? incF attr alt onE src with
      | ok d => simp [consumeChunks, chunkRes, h]
      | error e => simp [consumeChunks, chunkRes, h]
  | inlineEl p a nm f ns => simp [processNode, specProcessNode, consumeChunks, chunkRes]
  | otherwiseEl e => simp [processNode, specProcessNode, consumeChunks, chunkRes]
  | removeEl p a ns => simp [processNode, specProcessNode, consumeChunks]
  | rawData p bytes => simp [processNode, specProcessNode, consumeChunks, chunkRes]
  | varsEl p a ns => simp [processNode, specProcessNode, consumeChunks, chunkRes]
  | whenEl e => simp [processNode, specProcessNode, consumeChunks, chunkRes]
  | tryEl pos attr att? exc? =>
    cases att? with
    | none => simp [processNode, specProcessNode, consumeChunks, chunkRes]
    | some att =>
      cases exc? with
      | none =>
        cases att
        simp [processNode, specProcessNode, consumeChunks, chunkRes]
      | some exc =>
        cases att with
        | mk ap aa attNodes =>
          cases exc with
          | mk ep ea excNodes =>
            have hatt := processNodes_refines env? incF? attNodes
            have hexc := processNodes_refines env? incF? excNodes
            simp only [processNode, specProcessNode]
            rw [collectChunks_eq]
            cases h : (consumeChunks (processNodes env? incF? attNodes)).2 with
            | none =>
              simp only [h]
              rw [consumeChunks_outs]
              have h1 : (specProcessNodes env? incF? attNodes).2 = none := by
                rw [← hatt]; exact h
              have h2 : (specProcessNodes env? incF? attNodes).1 =
                  (consumeChunks (processNodes env? incF? attNodes)).1.flatten := by
                rw [← hatt]
              cases hs : specProcessNodes env? incF? attNodes with
              | mk w e? =>
                simp [hs] at h1 h2
                subst h1
                simp [h2]
            | some e =>
              simp only [h]
              have h1 : (specProcessNodes env? incF? attNodes).2 = some e := by
                rw [← hatt]; exact h
              simp only [h1]
              exact hexc
  termination_by sizeOf n

theorem processWhens_refines (env? : Option Env) (incF? : Option IncludeFunc) (env : Env)
    (oth : Option OtherwiseEl) (ws : List WhenEl) :
    ((consumeChunks (processWhens env? incF? env oth ws)).1.flatten,
      (consumeChunks (processWhens env? incF? env oth ws)).2) = specWhens env? incF? env oth ws := by
  cases ws with
  | nil =>
    cases oth with
    | none => simp [processWhens, specWhens, consumeChunks]
    | some o =>
      cases o with
      | mk op oa othNodes =>
        simpa [processWhens, specWhens] using processNodes_refines env? incF? othNodes
  | cons w ws =>
    cases w with
    | mk wp wa wt wns =>
      simp only [processWhens, specWhens]
      cases h : env.eval wt with
      | error e => simp [consumeChunks, chunkRes]
      | ok v =>
        cases v with
        | boolV b =>
          cases b with
          | true => exact processNodes_refines env? incF? wns
          | false => exact processWhens_refines env? incF? env oth ws
        | otherV t => simp [consumeChunks, chunkRes]
  termination_by sizeOf oth + sizeOf ws

theorem processNodes_refines (env? : Option Env) (incF? : Option IncludeFunc) (ns : List ENode) :
    ((consumeChunks (processNodes env? incF? ns)).1.flatten,
      (consumeChunks (processNodes env? incF? ns)).2) = specProcessNodes env? incF? ns := by
  cases ns with
  | nil => simp [processNodes, specProcessNodes, consumeChunks]
  | cons n ns =>
    have hn := processNode_refines env? incF? n
    have hns := processNodes_refines env? incF? ns
    simp only [processNodes, specProcessNodes]
    rw [consumeChunks_append]
    cases h : (consumeChunks (processNode env? incF? n)).2 with
    | some e =>
      simp only [h]
      have : (specProcessNode env? incF? n).2 = some e := by rw [← hn]; exact h
      cases hs : specProcessNode env? incF? n with
      | mk w e? =>
        simp [hs] at this hn
        simp [this, ← hn.1, hs, h]
    | none =>
      simp only [h]
      cases hs : specProcessNode env? incF? n with
      | mk w e? =>
        have h1 : e? = none := by
          have := congrArg Prod.snd hn
          simp [hs, h] at this
          exact this.symm
        have h2 : w = (consumeChunks (processNode env? incF? n)).1.flatten := by
          have := congrArg Prod.fst hn
          simpa [hs] using this.symm
        subst h1
        simp only []
        rw [← hns, h2]
        simp
  termination_by sizeOf ns

end

end Esiproc

namespace Esiproc

open Esixml Esi

/-! ## Correctness of every complete concurrent execution -/

/-- The data of the first `k` chunks, provided they all resolve successfully. -/
def okPrefix : List Chunk → Nat → Option (List (List Nat))
  | _, 0 => some []
  | [], _ + 1 => none
  | c :: cs, k + 1 =>
    match chunkRes c with
    | .ok d => (okPrefix cs k).map (fun w => d :: w)
    | .error _ => none

theorem okPrefix_extend (chunks : List Chunk) (k : Nat) (w : List (List Nat)) (c : Chunk)
    (d : List Nat) (hpre : okPrefix chunks k = some w) (hc : chunks.get? k = some c)
    (hres : chunkRes c = .ok d) : okPrefix chunks (k + 1) = some (w ++ [d]) := by
  induction chunks generalizing k w with
  | nil => simp at hc
  | cons c0 cs ih =>
    cases k with
    | zero =>
      simp [okPrefix] at hpre
      simp at hc
      subst hpre hc
      simp [okPrefix, hres]
    | succ k =>
      simp only [okPrefix] at hpre ⊢
      cases hr : chunkRes c0 with
      | error e0 => simp [hr] at hpre
      | ok d0 =>
        simp only [hr] at hpre ⊢
        cases h2 : okPrefix cs k with
        | none => simp [h2] at hpre
        | some w' =>
          simp [h2] at hpre
          simp only [List.get?_cons_succ] at hc
          rw [ih k w' h2 hc]
          simp [← hpre]

/-- A fully successful prefix covering the whole list determines the writer's
deterministic result. -/
theorem consume_of_okPrefix_full (chunks : List Chunk) (w : List (List Nat))
    (h : okPrefix chunks chunks.length = some w) : consumeChunks chunks = (w, none) := by
  induction chunks generalizing w with
  | nil => simp [okPrefix] at h; simp [consumeChunks, h]
  | cons c cs ih =>
    rw [List.length_cons] at h
    simp only [okPrefix] at h
    cases hr : chunkRes c with
    | error e => simp [hr] at h
    | ok d =>
      simp only [hr] at h
      cases h2 : okPrefix cs cs.length with
      | none => simp [h2] at h
      | some w' =>
        simp [h2] at h
        subst h
        simp [consumeChunks, hr, ih w' h2]

/-- A successful prefix followed by a failing chunk determines the writer's
deterministic result. -/
theorem consume_of_okPrefix_err (chunks : List Chunk) (k : Nat) (w : List (List Nat))
    (c : Chunk) (e : ProcErr) (hpre : okPrefix chunks k = some w)
    (hc : chunks.get? k = some c) (hres : chunkRes c = .error e) :
    consumeChunks chunks = (w, some e) := by
  induction chunks generalizing k w with
  | nil => simp at hc
  | cons c0 cs ih =>
    cases k with
    | zero =>
      simp [okPrefix] at hpre
      simp at hc
      subst hpre hc
      simp [consumeChunks, hres]
    | succ k =>
      simp only [okPrefix] at hpre
      cases hr : chunkRes c0 with
      | error e0 => simp [hr] at hpre
      | ok d =>
        simp only [hr] at hpre
        cases h2 : okPrefix cs k with
        | none => simp [h2] at hpre
        | some w' =>
          simp [h2] at hpre
          simp only [List.get?_cons_succ] at hc
          rw [← hpre]
          simp [consumeChunks, hr, ih k w' h2 hc]

/-- Invariant of the transition system: the writer has written exactly the
data of the chunks before `pos` (all of which resolved successfully), and an
aborted state's error is the resolution of the chunk at `pos`. -/
def TInv (chunks : List Chunk) (s : TState) : Prop :=
  okPrefix chunks s.pos = some s.written ∧
    (∀ e, s.aborted = some e → ∃ c, chunks.get? s.pos = some c ∧ chunkRes c = .error e)

theorem tinv_init (chunks : List Chunk) : TInv chunks TState.init := by
  constructor
  · show okPrefix chunks 0 = some []
    cases chunks <;> rfl
  · intro e h; simp [TState.init] at h

theorem tinv_step (chunks : List Chunk) (s s' : TState) (hstep : TStep chunks s s')
    (hinv : TInv chunks s) : TInv chunks s' := by
  obtain ⟨hpre, habort⟩ := hinv
  cases hstep with
  | fetch i r hi hnd => exact ⟨hpre, habort⟩
  | writeData d hab hc =>
    refine ⟨okPrefix_extend chunks s.pos s.written _ d hpre hc rfl, ?_⟩
    intro e h
    simp only [hab] at h
    cases h
  | writeInc d hab hc hdone =>
    refine ⟨okPrefix_extend chunks s.pos s.written _ d hpre hc rfl, ?_⟩
    intro e h
    simp only [hab] at h
    cases h
  | abortInc e hab hc hdone =>
    refine ⟨hpre, ?_⟩
    intro e' h
    simp at h
    subst h
    exact ⟨_, hc, rfl⟩
  | abortFail e hab hc =>
    refine ⟨hpre, ?_⟩
    intro e' h
    simp at h
    subst h
    exact ⟨_, hc, rfl⟩

theorem tinv_reach (chunks : List Chunk) (s : TState)
    (h : TReach chunks TState.init s) : TInv chunks s := by
  induction h with
  | refl => exact tinv_init chunks
  | tail _ hstep ih => exact tinv_step chunks _ _ hstep ih

/-- Every complete execution of the transition system produces exactly the
deterministic writer result, regardless of the order in which fetches
completed along the way. -/
theorem treach_final_eq (chunks : List Chunk) (s : TState)
    (hreach : TReach chunks TState.init s) (hfin : TFinal chunks s) :
    s.written = (consumeChunks chunks).1 ∧ s.aborted = (consumeChunks chunks).2 := by
  obtain ⟨hpre, habort⟩ := tinv_reach chunks s hreach
  cases hab : s.aborted with
  | some e =>
    obtain ⟨c, hc, hres⟩ := habort e hab
    rw [consume_of_okPrefix_err chunks s.pos s.written c e hpre hc hres]
    exact ⟨rfl, rfl⟩
  | none =>
    cases hfin with
    | inl h => simp [hab] at h
    | inr h =>
      rw [h] at hpre
      rw [consume_of_okPrefix_full chunks s.written hpre]
      exact ⟨rfl, rfl⟩

theorem processNodesIter_map_ok (env? : Option Env) (incF? : Option IncludeFunc)
    (ns : List ENode) :
    processNodesIter env? incF? (ns.map Except.ok) = processNodes env? incF? ns := by
  induction ns with
  | nil => simp [processNodesIter, processNodes]
  | cons n ns ih => simp [processNodesIter, processNodes, ih]

end Esiproc

namespace Esiproc

open Esixml Esi

/-- C1: For every node sequence and every configured include-concurrency
limit n ≥ 1, the byte sequence `Process` writes is identical to a strict
left-to-right synchronous evaluation of the sequence.  Formally: every
complete execution of the concurrent writer/fetcher transition system over
the produced chunk sequence — whatever order the include fetches complete
in — writes exactly the bytes (and returns exactly the error) of the
sequential specification-side evaluation, and the result of `Process` does
not depend on the configured concurrency limit, so limits 1 and N give
byte-identical output. -/
theorem c1_process_deterministic (o o' : ProcessorOpts)
    (hn : 1 ≤ o.incConcurrency) (hn' : 1 ≤ o'.incConcurrency)
    (henv : o.env = o'.env) (hincf : o.incFunc = o'.incFunc)
    (nodes : List ENode) (s : TState)
    (hreach : TReach (processNodes o.env o.incFunc nodes) TState.init s)
    (hfin : TFinal (processNodes o.env o.incFunc nodes) s) :
    s.written.flatten = (specProcessNodes o.env o.incFunc nodes).1 ∧
      s.aborted = (specProcessNodes o.env o.incFunc nodes).2 ∧
      Processor.process o (nodes.map Except.ok) = Processor.process o' (nodes.map Except.ok) := by
  obtain ⟨hw, ha⟩ := treach_final_eq _ _ hreach hfin
  have href := processNodes_refines o.env o.incFunc nodes
  refine ⟨?_, ?_, ?_⟩
  · rw [hw]; exact congrArg Prod.fst href
  · rw [ha]; exact congrArg Prod.snd href
  · simp [Processor.process, henv, hincf]

/-- Echo fetcher used by the C1 witness. -/
def c1wFetch : IncludeFunc := fun url _ => .ok url

def c1wNodes : List ENode :=
  [.includeEl ⟨0, 0⟩ [] [] [] (bytesOf "A"), .includeEl ⟨0, 0⟩ [] [] [] (bytesOf "B")]

def c1wOpts : ProcessorOpts := ⟨none, 1, some c1wFetch⟩

def c1wOpts' : ProcessorOpts := ⟨none, 2, some c1wFetch⟩

theorem c1wChunks_eq : processNodes c1wOpts.env c1wOpts.incFunc c1wNodes =
    [.inc (.ok (bytesOf "A")), .inc (.ok (bytesOf "B"))] := by
  simp [c1wOpts, c1wNodes, processNodes, processNode, includeResult, includeURL,
    attrsToMap, c1wFetch, bytesOf]

/-- A complete concurrent execution of the two-include witness in which the
second include's fetch completes before the first one's. -/
theorem c1w_trace :
    TReach (processNodes c1wOpts.env c1wOpts.incFunc c1wNodes) TState.init
        ⟨[bytesOf "A", bytesOf "B"], 2, [0, 1], none⟩ ∧
      TFinal (processNodes c1wOpts.env c1wOpts.incFunc c1wNodes)
        ⟨[bytesOf "A", bytesOf "B"], 2, [0, 1], none⟩ := by
  rw [c1wChunks_eq]
  constructor
  · refine Relation.ReflTransGen.tail (Relation.ReflTransGen.tail
      (Relation.ReflTransGen.tail (Relation.ReflTransGen.tail Relation.ReflTransGen.refl
        (TStep.fetch TState.init 1 (.ok (bytesOf "B")) rfl (by simp [TState.init])))
        (TStep.fetch ⟨[], 0, [1], none⟩ 0 (.ok (bytesOf "A")) rfl (by simp)))
      (TStep.writeInc ⟨[], 0, [0, 1], none⟩ (bytesOf "A") rfl rfl (by simp)))
      (TStep.writeInc ⟨[bytesOf "A"], 1, [0, 1], none⟩ (bytesOf "B") rfl rfl (by simp))
  · right; rfl

theorem c1_process_deterministic_witness :
    [bytesOf "A", bytesOf "B"].flatten =
        (specProcessNodes c1wOpts.env c1wOpts.incFunc c1wNodes).1 ∧
      (none : Option ProcErr) = (specProcessNodes c1wOpts.env c1wOpts.incFunc c1wNodes).2 ∧
      Processor.process c1wOpts (c1wNodes.map Except.ok) =
        Processor.process c1wOpts' (c1wNodes.map Except.ok) := by
  obtain ⟨hreach, hfin⟩ := c1w_trace
  exact c1_process_deterministic c1wOpts c1wOpts' (by simp [c1wOpts]) (by simp [c1wOpts'])
    rfl rfl c1wNodes ⟨[bytesOf "A", bytesOf "B"], 2, [0, 1], none⟩ hreach hfin

end Esiproc

namespace Esiproc

open Esixml Esi

/-- C2: `try` is all-or-nothing.  If processing the `attempt` subtree fails
anywhere, the try node's chunks are exactly the chunks of processing the
`except` branch — so the bytes reaching the caller's writer for the try node
are exactly the except branch's output and none of the attempt branch's
buffered output (including output of siblings processed before the failure)
is among them; if every node in `attempt` succeeds, exactly the attempt
branch's buffered data is flushed, in order. -/
theorem c2_try_all_or_nothing (env? : Option Env) (incF? : Option IncludeFunc)
    (pos ap ep : Position) (attr aa ea : List Attr) (attNodes excNodes : List ENode) :
    ((∃ e, (consumeChunks (processNodes env? incF? attNodes)).2 = some e) →
        processNode env? incF?
            (.tryEl pos attr (some (.mk ap aa attNodes)) (some (.mk ep ea excNodes))) =
          processNodes env? incF? excNodes ∧
        ((consumeChunks (processNode env? incF?
            (.tryEl pos attr (some (.mk ap aa attNodes)) (some (.mk ep ea excNodes))))).1.flatten,
          (consumeChunks (processNode env? incF?
            (.tryEl pos attr (some (.mk ap aa attNodes)) (some (.mk ep ea excNodes))))).2) =
          specProcessNodes env? incF? excNodes) ∧
    ((consumeChunks (processNodes env? incF? attNodes)).2 = none →
        processNode env? incF?
            (.tryEl pos attr (some (.mk ap aa attNodes)) (some (.mk ep ea excNodes))) =
          ((consumeChunks (processNodes env? incF? attNodes)).1).map Chunk.out) := by
  constructor
  · rintro ⟨e, he⟩
    have hchunks : processNode env? incF?
        (.tryEl pos attr (some (.mk ap aa attNodes)) (some (.mk ep ea excNodes))) =
        processNodes env? incF? excNodes := by
      simp only [processNode]
      rw [collectChunks_eq, he]
    refine ⟨hchunks, ?_⟩
    rw [hchunks]
    exact processNodes_refines env? incF? excNodes
  · intro he
    simp only [processNode]
    rw [collectChunks_eq, he]

def c2wFetch : IncludeFunc := fun url _ => if url = bytesOf "bad" then .error 7 else .ok url

def c2wAttempt : List ENode :=
  [.rawData ⟨0, 0⟩ (bytesOf "sibling-output"), .includeEl ⟨0, 0⟩ [] [] [] (bytesOf "bad")]

def c2wExcept : List ENode := [.rawData ⟨0, 0⟩ (bytesOf "E")]

theorem c2w_attempt_fails :
    (consumeChunks (processNodes none (some c2wFetch) c2wAttempt)).2 = some (.external 7) := by
  simp [c2wAttempt, processNodes, processNode, includeResult, includeURL, attrsToMap,
    c2wFetch, consumeChunks, chunkRes, bytesOf]

theorem c2_try_all_or_nothing_witness :
    processNode none (some c2wFetch)
        (.tryEl ⟨0, 0⟩ [] (some (.mk ⟨0, 0⟩ [] c2wAttempt)) (some (.mk ⟨0, 0⟩ [] c2wExcept))) =
      processNodes none (some c2wFetch) c2wExcept ∧
    ((consumeChunks (processNode none (some c2wFetch)
        (.tryEl ⟨0, 0⟩ [] (some (.mk ⟨0, 0⟩ [] c2wAttempt))
          (some (.mk ⟨0, 0⟩ [] c2wExcept))))).1.flatten,
      (consumeChunks (processNode none (some c2wFetch)
        (.tryEl ⟨0, 0⟩ [] (some (.mk ⟨0, 0⟩ [] c2wAttempt))
          (some (.mk ⟨0, 0⟩ [] c2wExcept))))).2) =
      specProcessNodes none (some c2wFetch) c2wExcept :=
  (c2_try_all_or_nothing none (some c2wFetch) ⟨0, 0⟩ ⟨0, 0⟩ ⟨0, 0⟩ [] [] [] c2wAttempt
    c2wExcept).1 ⟨.external 7, c2w_attempt_fails⟩

end Esiproc

namespace Esiproc

open Esixml Esi

/-- C3: include semantics.  The `src` URL is used verbatim when no
environment collaborator is configured and is interpolated through it
otherwise; a successful fetch is used as-is; on failure the fetch is retried
exactly once against the (equally interpolated) `alt` when it is non-empty;
when everything failed the error is suppressed — resolving to no output —
exactly when `onerror="continue"`, and otherwise the error propagates and
aborts the `Process` call; with no fetch collaborator the include is a hard
unsupported-element failure. -/
theorem c3_include_semantics (env? : Option Env) (incF : IncludeFunc)
    (pos : Position) (attr : List Attr) (alt onE src : List Nat) :
    (∀ d, incF src (attrsToMap attr) = .ok d →
        includeURL none incF src (attrsToMap attr) = .ok d) ∧
    (∀ ec, incF src (attrsToMap attr) = .error ec →
        includeURL none incF src (attrsToMap attr) = .error (.external ec)) ∧
    (∀ env s', env.interpolate src = .ok s' →
        includeURL (some env) incF src (attrsToMap attr) =
          includeURL none incF s' (attrsToMap attr)) ∧
    (∀ env ec, env.interpolate src = .error ec →
        includeURL (some env) incF src (attrsToMap attr) = .error (.external ec)) ∧
    (∀ d, includeURL env? incF src (attrsToMap attr) = .ok d →
        includeResult env? incF attr alt onE src = .ok d) ∧
    (∀ e1, includeURL env? incF src (attrsToMap attr) = .error e1 → alt ≠ [] →
        includeResult env? incF attr alt onE src =
          (match includeURL env? incF alt (attrsToMap attr) with
            | .ok d => .ok d
            | .error e2 => if onE = bytesOf "continue" then .ok [] else .error e2)) ∧
    (∀ e1, includeURL env? incF src (attrsToMap attr) = .error e1 → alt = [] →
        includeResult env? incF attr alt onE src =
          (if onE = bytesOf "continue" then .ok [] else .error e1)) ∧
    (∀ e, includeResult env? incF attr alt onE src = .error e →
        Processor.process ⟨env?, 1, some incF⟩ [.ok (.includeEl pos attr alt onE src)] =
          ([], some e)) ∧
    (∀ d, includeResult env? incF attr alt onE src = .ok d →
        Processor.process ⟨env?, 1, some incF⟩ [.ok (.includeEl pos attr alt onE src)] =
          (d, none)) ∧
    (∀ n : Nat,
        Processor.process ⟨env?, n, none⟩ [.ok (.includeEl pos attr alt onE src)] =
          ([], some (.unsupportedElement (.includeEl pos attr alt onE src)))) := by
  refine ⟨?_, ?_, ?_, ?_, ?_, ?_, ?_, ?_, ?_, ?_⟩
  · intro d h; simp [includeURL, h]
  · intro ec h; simp [includeURL, h]
  · intro env s' h; simp [includeURL, h]
  · intro env ec h; simp [includeURL, h]
  · intro d h; simp [includeResult, h]
  · intro e1 h halt
    simp [includeResult, h, halt]
  · intro e1 h halt
    simp [includeResult, h, halt]
  · intro e h
    simp [Processor.process, processNodesIter, processNode, h, consumeChunks, chunkRes]
  · intro d h
    simp [Processor.process, processNodesIter, processNode, h, consumeChunks, chunkRes]
  · intro n
    simp [Processor.process, processNodesIter, processNode, consumeChunks, chunkRes]

def c3wFetch : IncludeFunc := fun _ _ => .error 3

theorem c3_include_semantics_witness :
    includeURL none c3wFetch (bytesOf "s") (attrsToMap []) = .error (.external 3) ∧
    includeResult none c3wFetch [] (bytesOf "a") (bytesOf "continue") (bytesOf "s") =
      (match includeURL none c3wFetch (bytesOf "a") (attrsToMap []) with
        | .ok d => .ok d
        | .error e2 =>
          if bytesOf "continue" = bytesOf "continue" then .ok [] else .error e2) ∧
    Processor.process ⟨none, 1, some c3wFetch⟩
        [.ok (.includeEl ⟨0, 0⟩ [] (bytesOf "a") (bytesOf "continue") (bytesOf "s"))] =
      ([], none) ∧
    Processor.process ⟨none, 3, none⟩
        [.ok (.includeEl ⟨0, 0⟩ [] (bytesOf "a") (bytesOf "continue") (bytesOf "s"))] =
      ([], some (.unsupportedElement (.includeEl ⟨0, 0⟩ []
        (bytesOf "a") (bytesOf "continue") (bytesOf "s")))) := by
  have h := c3_include_semantics none c3wFetch ⟨0, 0⟩ [] (bytesOf "a") (bytesOf "continue")
    (bytesOf "s")
  have hfail : includeURL none c3wFetch (bytesOf "s") (attrsToMap []) = .error (.external 3) :=
    h.2.1 3 rfl
  have hres : includeResult none c3wFetch [] (bytesOf "a") (bytesOf "continue") (bytesOf "s") =
      .ok [] := by
    rw [h.2.2.2.2.2.1 (.external 3) hfail (by simp [bytesOf])]
    simp [includeURL, c3wFetch]
  refine ⟨hfail, ?_, ?_, ?_⟩
  · rw [h.2.2.2.2.2.1 (.external 3) hfail (by simp [bytesOf])]
  · exact h.2.2.2.2.2.2.2.2.1 [] hres
  · exact h.2.2.2.2.2.2.2.2.2 3

end Esiproc

namespace Esiproc

open Esixml Esi

theorem processWhens_prefix_false (env? : Option Env) (incF? : Option IncludeFunc) (env : Env)
    (oth : Option OtherwiseEl) (ws₁ ws₂ : List WhenEl)
    (h : ∀ w' ∈ ws₁, env.eval w'.test = .ok (.boolV false)) :
    processWhens env? incF? env oth (ws₁ ++ ws₂) = processWhens env? incF? env oth ws₂ := by
  induction ws₁ with
  | nil => rfl
  | cons w ws ih =>
    cases w with
    | mk wp wa wt wns =>
      have hw := h _ (List.mem_cons_self _ _)
      simp only [WhenEl.test] at hw
      simp only [List.cons_append, processWhens, hw]
      exact ih fun w' hm => h w' (List.mem_cons_of_mem _ hm)

/-- C4: choose semantics.  With an evaluation collaborator configured, the
`when` tests are evaluated in document order: after any prefix of false
tests, a test evaluating to a non-boolean yields an invalid-expression-result
error, and the first true test selects exactly its branch — the trailing
`when`s (and hence their tests) are irrelevant to the result; if every test
is false, the `otherwise` branch is processed when present and nothing is
emitted otherwise; with no evaluation collaborator, processing any choose
node fails with an unsupported-element error. -/
theorem c4_choose_semantics (incF? : Option IncludeFunc) (env : Env)
    (pos : Position) (attr : List Attr) (oth : Option OtherwiseEl) :
    (∀ (ws₁ : List WhenEl) (w : WhenEl) (ws₂ ws₂' : List WhenEl),
        (∀ w' ∈ ws₁, env.eval w'.test = .ok (.boolV false)) →
        env.eval w.test = .ok (.boolV true) →
        processNode (some env) incF? (.chooseEl pos attr (ws₁ ++ w :: ws₂) oth) =
            processNodes (some env) incF? w.nodes ∧
          processNode (some env) incF? (.chooseEl pos attr (ws₁ ++ w :: ws₂) oth) =
            processNode (some env) incF? (.chooseEl pos attr (ws₁ ++ w :: ws₂') oth)) ∧
    (∀ (ws₁ : List WhenEl) (w : WhenEl) (ws₂ : List WhenEl) (t : Nat),
        (∀ w' ∈ ws₁, env.eval w'.test = .ok (.boolV false)) →
        env.eval w.test = .ok (.otherV t) →
        processNode (some env) incF? (.chooseEl pos attr (ws₁ ++ w :: ws₂) oth) =
          [.fail (.invalidExpressionResult w w.test (.otherV t))]) ∧
    (∀ ws : List WhenEl, (∀ w' ∈ ws, env.eval w'.test = .ok (.boolV false)) →
        processNode (some env) incF? (.chooseEl pos attr ws oth) =
          (match oth with
            | some o => processNodes (some env) incF? o.nodes
            | none => [])) ∧
    (∀ (ws : List WhenEl) (n : Nat),
        Processor.process ⟨none, n, incF?⟩ [.ok (.chooseEl pos attr ws oth)] =
          ([], some (.unsupportedElement (.chooseEl pos attr ws oth)))) := by
  refine ⟨?_, ?_, ?_, ?_⟩
  · intro ws₁ w ws₂ ws₂' h hw
    cases w with
    | mk wp wa wt wns =>
      simp only [WhenEl.test] at hw
      constructor
      · simp only [processNode]
        rw [processWhens_prefix_false (some env) incF? env oth ws₁ _ h]
        simp [processWhens, hw, WhenEl.nodes]
      · simp only [processNode]
        rw [processWhens_prefix_false (some env) incF? env oth ws₁ _ h,
          processWhens_prefix_false (some env) incF? env oth ws₁ _ h]
        simp [processWhens, hw]
  · intro ws₁ w ws₂ t h hw
    cases w with
    | mk wp wa wt wns =>
      simp only [WhenEl.test] at hw ⊢
      simp only [processNode]
      rw [processWhens_prefix_false (some env) incF? env oth ws₁ _ h]
      simp [processWhens, hw]
  · intro ws h
    simp only [processNode]
    have := processWhens_prefix_false (some env) incF? env oth ws [] h
    rw [List.append_nil] at this
    rw [this]
    cases oth with
    | none => simp [processWhens]
    | some o => cases o with | mk op oa ons => simp [processWhens, OtherwiseEl.nodes]
  · intro ws n
    simp [Processor.process, processNodesIter, processNode, consumeChunks, chunkRes]

def c4wEnv : Env :=
  { eval := fun e =>
      if e = bytesOf "t" then .ok (.boolV true)
      else if e = bytesOf "f" then .ok (.boolV false)
      else .ok (.otherV 9),
    interpolate := fun s => .ok s }

theorem c4_choose_semantics_witness :
    processNode (some c4wEnv) none
        (.chooseEl ⟨0, 0⟩ [] ([.mk ⟨0, 0⟩ [] (bytesOf "f") [.rawData ⟨0, 0⟩ (bytesOf "a")]] ++
          .mk ⟨0, 0⟩ [] (bytesOf "t") [.rawData ⟨0, 0⟩ (bytesOf "b")] ::
            [.mk ⟨0, 0⟩ [] (bytesOf "f") [.rawData ⟨0, 0⟩ (bytesOf "c")]]) none) =
      processNodes (some c4wEnv) none
        (WhenEl.mk ⟨0, 0⟩ [] (bytesOf "t") [.rawData ⟨0, 0⟩ (bytesOf "b")]).nodes := by
  have h := (c4_choose_semantics none c4wEnv ⟨0, 0⟩ [] none).1
    [.mk ⟨0, 0⟩ [] (bytesOf "f") [.rawData ⟨0, 0⟩ (bytesOf "a")]]
    (.mk ⟨0, 0⟩ [] (bytesOf "t") [.rawData ⟨0, 0⟩ (bytesOf "b")])
    [.mk ⟨0, 0⟩ [] (bytesOf "f") [.rawData ⟨0, 0⟩ (bytesOf "c")]] []
    (by intro w' hm; simp at hm; subst hm; simp [c4wEnv, WhenEl.test, bytesOf])
    (by simp [c4wEnv, WhenEl.test, bytesOf])
  exact h.1

end Esiproc

namespace Esi

open Esixml

/-- C5 (evaluating the code at the failing inputs): the byte content of
`remove` and `inline` elements is NOT captured verbatim — the parser pushes a
scope and keeps tokenizing, so the body is re-parsed as nested ESI.  A
`remove` body containing an `esi:include` yields a `RemoveElement` whose
children are parsed nodes (raw data, a typed `IncludeElement`, raw data)
rather than one raw byte span, and the `inline` input from the package's own
test suite (whose expected result is a verbatim raw span) fails to parse
because the `<esi:choose>` inside the body is tokenized and opens a scope. -/
theorem c5_bodies_are_reparsed :
    esiParse (bytesOf "<esi:remove>a<esi:include src=\"/x\"/>b</esi:remove>") =
      .ok [.removeEl ⟨0, 50⟩ []
        [.rawData ⟨12, 13⟩ (bytesOf "a"),
          .includeEl ⟨13, 36⟩ [] [] [] (bytesOf "/x"),
          .rawData ⟨36, 37⟩ (bytesOf "b")]] ∧
    esiParse
        (bytesOf "<esi:inline name=\"/extra\" fetchable=\"no\">extra <esi:choose> content</esi:inline>") =
      .error (.unexpectedEndElement ⟨67, 80⟩ (esiName "inline") (some (esiName "choose"))) :=
  ⟨rfl, rfl⟩

def notChooseChild (n : ENode) : Bool :=
  match n with
  | .whenEl _ => false
  | .otherwiseEl _ => false
  | _ => true

def notTryChild (n : ENode) : Bool :=
  match n with
  | .attemptEl _ => false
  | .exceptEl _ => false
  | _ => true

theorem chooseFold_skip (c₁ : List ENode) (h : ∀ n ∈ c₁, notChooseChild n = true)
    (whens : List WhenEl) (oth : Option OtherwiseEl) (rest : List ENode) :
    chooseFold whens oth (c₁ ++ rest) = chooseFold whens oth rest := by
  induction c₁ generalizing whens oth with
  | nil => rfl
  | cons n c₁ ih =>
    have hn := h n (List.mem_cons_self _ _)
    have hrest : ∀ n' ∈ c₁, notChooseChild n' = true :=
      fun n' hm => h n' (List.mem_cons_of_mem _ hm)
    cases n <;> simp_all [notChooseChild, chooseFold] <;> exact ih hrest _ _

theorem tryFold_skip (c₁ : List ENode) (h : ∀ n ∈ c₁, notTryChild n = true)
    (att : Option AttemptEl) (exc : Option ExceptEl) (rest : List ENode) :
    tryFold att exc (c₁ ++ rest) = tryFold att exc rest := by
  induction c₁ generalizing att exc with
  | nil => rfl
  | cons n c₁ ih =>
    have hn := h n (List.mem_cons_self _ _)
    have hrest : ∀ n' ∈ c₁, notTryChild n' = true :=
      fun n' hm => h n' (List.mem_cons_of_mem _ hm)
    cases n <;> simp_all [notTryChild, tryFold] <;> exact ih hrest _ _

theorem chooseFold_clean (c : List ENode) (h : ∀ n ∈ c, notChooseChild n = true)
    (whens : List WhenEl) (oth : Option OtherwiseEl) :
    chooseFold whens oth c = .ok (whens, oth) := by
  have := chooseFold_skip c h whens oth []
  rw [List.append_nil] at this
  rw [this]
  rfl

theorem tryFold_clean (c : List ENode) (h : ∀ n ∈ c, notTryChild n = true)
    (att : Option AttemptEl) (exc : Option ExceptEl) :
    tryFold att exc c = .ok (att, exc) := by
  have := tryFold_skip c h att exc []
  rw [List.append_nil] at this
  rw [this]
  rfl

theorem chooseFold_cons_otherwise_none (whens : List WhenEl) (o : OtherwiseEl)
    (rest : List ENode) :
    chooseFold whens none (.otherwiseEl o :: rest) = chooseFold whens (some o) rest := rfl

theorem chooseFold_cons_otherwise_some (whens : List WhenEl) (o₀ o : OtherwiseEl)
    (rest : List ENode) :
    chooseFold whens (some o₀) (.otherwiseEl o :: rest) =
      .error (.duplicateElement o.pos (esiName "otherwise")) := by
  cases o; rfl

theorem tryFold_cons_attempt_none (exc : Option ExceptEl) (a : AttemptEl) (rest : List ENode) :
    tryFold none exc (.attemptEl a :: rest) = tryFold (some a) exc rest := rfl

theorem tryFold_cons_attempt_some (a₀ : AttemptEl) (exc : Option ExceptEl) (a : AttemptEl)
    (rest : List ENode) :
    tryFold (some a₀) exc (.attemptEl a :: rest) =
      .error (.duplicateElement a.pos (esiName "attempt")) := by
  cases a; rfl

theorem tryFold_cons_except_none (att : Option AttemptEl) (e : ExceptEl) (rest : List ENode) :
    tryFold att none (.exceptEl e :: rest) = tryFold att (some e) rest := by
  cases att <;> rfl

theorem tryFold_cons_except_some (att : Option AttemptEl) (e₀ e : ExceptEl)
    (rest : List ENode) :
    tryFold att (some e₀) (.exceptEl e :: rest) =
      .error (.duplicateElement e.pos (esiName "except")) := by
  cases att <;> (cases e; rfl)

/-- C6: structural occurrence rules are enforced when the scope closes, i.e.
at parse time.  Over arbitrary stray content (anything that is not a
`when`/`otherwise` resp. `attempt`/`except` child, which the drain loop
discards): a `choose` without a `when` child fails with a missing-element
error, a second `otherwise` fails with a duplicate-element error at the
second occurrence, a `try` without an `attempt` or without an `except` fails
with the corresponding missing-element error, and a second
`attempt`/`except` fails with a duplicate-element error; four end-to-end
parses witness the same behaviour through the full scanner/parser pipeline
(a parse-time error, not a processing-time no-op). -/
theorem c6_occurrence_rules (endPos : Position) :
    (∀ children, (∀ n ∈ children, notChooseChild n = true) →
        chooseFinish endPos children = .error (.missingElement endPos (esiName "when"))) ∧
    (∀ c₁ c₂ (o : OtherwiseEl), (∀ n ∈ c₁, notChooseChild n = true) →
        (∀ n ∈ c₂, notChooseChild n = true) →
        chooseFinish endPos (c₁ ++ .otherwiseEl o :: c₂) =
          .error (.missingElement endPos (esiName "when"))) ∧
    (∀ c₁ c₂ c₃ (o₁ o₂ : OtherwiseEl), (∀ n ∈ c₁, notChooseChild n = true) →
        (∀ n ∈ c₂, notChooseChild n = true) →
        chooseFinish endPos (c₁ ++ (.otherwiseEl o₁ :: (c₂ ++ (.otherwiseEl o₂ :: c₃)))) =
          .error (.duplicateElement o₂.pos (esiName "otherwise"))) ∧
    (∀ children, (∀ n ∈ children, notTryChild n = true) →
        tryFinish endPos children = .error (.missingElement endPos (esiName "attempt"))) ∧
    (∀ c₁ c₂ (e : ExceptEl), (∀ n ∈ c₁, notTryChild n = true) →
        (∀ n ∈ c₂, notTryChild n = true) →
        tryFinish endPos (c₁ ++ .exceptEl e :: c₂) =
          .error (.missingElement endPos (esiName "attempt"))) ∧
    (∀ c₁ c₂ (a : AttemptEl), (∀ n ∈ c₁, notTryChild n = true) →
        (∀ n ∈ c₂, notTryChild n = true) →
        tryFinish endPos (c₁ ++ .attemptEl a :: c₂) =
          .error (.missingElement endPos (esiName "except"))) ∧
    (∀ c₁ c₂ c₃ (a₁ a₂ : AttemptEl), (∀ n ∈ c₁, notTryChild n = true) →
        (∀ n ∈ c₂, notTryChild n = true) →
        tryFinish endPos (c₁ ++ (.attemptEl a₁ :: (c₂ ++ (.attemptEl a₂ :: c₃)))) =
          .error (.duplicateElement a₂.pos (esiName "attempt"))) ∧
    (∀ c₁ c₂ c₃ (e₁ e₂ : ExceptEl), (∀ n ∈ c₁, notTryChild n = true) →
        (∀ n ∈ c₂, notTryChild n = true) →
        tryFinish endPos (c₁ ++ (.exceptEl e₁ :: (c₂ ++ (.exceptEl e₂ :: c₃)))) =
          .error (.duplicateElement e₂.pos (esiName "except"))) ∧
    esiParse (bytesOf "<esi:choose></esi:choose>") =
      .error (.missingElement ⟨12, 25⟩ (esiName "when")) ∧
    esiParse
        (bytesOf "<esi:choose><esi:otherwise>c</esi:otherwise><esi:otherwise>d</esi:otherwise></esi:choose>") =
      .error (.duplicateElement ⟨44, 76⟩ (esiName "otherwise")) ∧
    esiParse (bytesOf "<esi:try><esi:attempt>a</esi:attempt></esi:try>") =
      .error (.missingElement ⟨37, 47⟩ (esiName "except")) ∧
    esiParse (bytesOf "<esi:try><esi:except>b</esi:except></esi:try>") =
      .error (.missingElement ⟨35, 45⟩ (esiName "attempt")) := by
  refine ⟨?_, ?_, ?_, ?_, ?_, ?_, ?_, ?_, rfl, rfl, rfl, rfl⟩
  · intro children h
    simp [chooseFinish, chooseFold_clean children h]
  · intro c₁ c₂ o h₁ h₂
    have heq : chooseFold [] none (c₁ ++ .otherwiseEl o :: c₂) = .ok ([], some o) := by
      rw [chooseFold_skip c₁ h₁, chooseFold_cons_otherwise_none, chooseFold_clean c₂ h₂]
    simp [chooseFinish, heq]
  · intro c₁ c₂ c₃ o₁ o₂ h₁ h₂
    have heq : chooseFold [] none (c₁ ++ (.otherwiseEl o₁ :: (c₂ ++ (.otherwiseEl o₂ :: c₃)))) =
        .error (.duplicateElement o₂.pos (esiName "otherwise")) := by
      rw [chooseFold_skip c₁ h₁, chooseFold_cons_otherwise_none, chooseFold_skip c₂ h₂,
        chooseFold_cons_otherwise_some]
    simp [chooseFinish, heq]
  · intro children h
    simp [tryFinish, tryFold_clean children h]
  · intro c₁ c₂ e h₁ h₂
    have heq : tryFold none none (c₁ ++ .exceptEl e :: c₂) = .ok (none, some e) := by
      rw [tryFold_skip c₁ h₁, tryFold_cons_except_none, tryFold_clean c₂ h₂]
    simp [tryFinish, heq]
  · intro c₁ c₂ a h₁ h₂
    have heq : tryFold none none (c₁ ++ .attemptEl a :: c₂) = .ok (some a, none) := by
      rw [tryFold_skip c₁ h₁, tryFold_cons_attempt_none, tryFold_clean c₂ h₂]
    simp [tryFinish, heq]
  · intro c₁ c₂ c₃ a₁ a₂ h₁ h₂
    have heq : tryFold none none (c₁ ++ (.attemptEl a₁ :: (c₂ ++ (.attemptEl a₂ :: c₃)))) =
        .error (.duplicateElement a₂.pos (esiName "attempt")) := by
      rw [tryFold_skip c₁ h₁, tryFold_cons_attempt_none, tryFold_skip c₂ h₂,
        tryFold_cons_attempt_some]
    simp [tryFinish, heq]
  · intro c₁ c₂ c₃ e₁ e₂ h₁ h₂
    have heq : tryFold none none (c₁ ++ (.exceptEl e₁ :: (c₂ ++ (.exceptEl e₂ :: c₃)))) =
        .error (.duplicateElement e₂.pos (esiName "except")) := by
      rw [tryFold_skip c₁ h₁, tryFold_cons_except_none, tryFold_skip c₂ h₂,
        tryFold_cons_except_some]
    simp [tryFinish, heq]

theorem c6_occurrence_rules_witness :
    chooseFinish ⟨12, 25⟩ [.rawData ⟨0, 0⟩ (bytesOf "x")] =
      .error (.missingElement ⟨12, 25⟩ (esiName "when")) ∧
    tryFinish ⟨37, 47⟩ [.attemptEl (.mk ⟨9, 37⟩ [] [])] =
      .error (.missingElement ⟨37, 47⟩ (esiName "except")) :=
  ⟨((c6_occurrence_rules ⟨12, 25⟩).1 [.rawData ⟨0, 0⟩ (bytesOf "x")]
      (by intro n hm; simp at hm; subst hm; rfl)),
    (((c6_occurrence_rules ⟨37, 47⟩).2.2.2.2.2.1 [] [] (.mk ⟨9, 37⟩ [] []))
      (by intro n hm; simp at hm) (by intro n hm; simp at hm))⟩

end Esi

namespace Esi

open Esixml

/-! ## The parsed-tree invariant for include elements (claim C7)

`goodNode` expresses, recursively, that every `IncludeElement` in a tree has
`OnError ∈ {"", "continue"}`. -/

mutual

def goodNode : ENode → Bool
  | .rawData _ _ => true
  | .includeEl _ _ _ onE _ => decide (onE = [] ∨ onE = bytesOf "continue")
  | .commentEl _ _ _ => true
  | .inlineEl _ _ _ _ ns => goodNodes ns
  | .removeEl _ _ ns => goodNodes ns
  | .varsEl _ _ ns => goodNodes ns
  | .chooseEl _ _ whens oth => goodWhens whens && goodOth oth
  | .tryEl _ _ att exc => goodAtt att && goodExc exc
  | .attemptEl (.mk _ _ ns) => goodNodes ns
  | .exceptEl (.mk _ _ ns) => goodNodes ns
  | .whenEl (.mk _ _ _ ns) => goodNodes ns
  | .otherwiseEl (.mk _ _ ns) => goodNodes ns
  termination_by n => sizeOf n

def goodNodes : List ENode → Bool
  | [] => true
  | n :: ns => goodNode n && goodNodes ns
  termination_by ns => sizeOf ns

def goodWhens : List WhenEl → Bool
  | [] => true
  | .mk _ _ _ ns :: ws => goodNodes ns && goodWhens ws
  termination_by ws => sizeOf ws

def goodOth : Option OtherwiseEl → Bool
  | none => true
  | some (.mk _ _ ns) => goodNodes ns
  termination_by o => sizeOf o

def goodAtt : Option AttemptEl → Bool
  | none => true
  | some (.mk _ _ ns) => goodNodes ns
  termination_by a => sizeOf a

def goodExc : Option ExceptEl → Bool
  | none => true
  | some (.mk _ _ ns) => goodNodes ns
  termination_by e => sizeOf e

end

def goodOptNode : Option ENode → Bool
  | none => true
  | some n => goodNode n

/-- All nodes on the parser stack (ignoring scope markers) are good. -/
def goodStack (st : List (Option ENode)) : Bool := st.all goodOptNode

theorem takeAttr_not_found (attrs : List Attr) (nm : List Nat)
    (h : (takeAttr attrs nm).1.2 = false) :
    (takeAttr attrs nm).1.1 = ⟨⟨0, 0⟩, ⟨[], []⟩, []⟩ := by
  induction attrs with
  | nil => rfl
  | cons a rest ih =>
    by_cases hc : a.name.space = [] ∧ a.name.localName = nm
    · simp [takeAttr, hc] at h
    · simp only [takeAttr, if_neg hc] at h ⊢
      exact ih h

/-- Every include node the parser builds has a good `onError`. -/
theorem includeFromToken_good (tok : Token) (n : ENode)
    (h : includeFromToken tok = .ok n) : goodNode n = true := by
  simp only [includeFromToken] at h
  split at h
  · exact absurd h (by simp)
  · split at h
    · exact absurd h (by simp)
    · split at h
      · exact absurd h (by simp)
      · rename_i h1 h2
        simp only [Except.ok.injEq] at h
        subst h
        simp only [goodNode, decide_eq_true_eq]
        by_cases hf : (takeAttr (takeAttr tok.attr (bytesOf "alt")).2 (bytesOf "onerror")).1.2
        · right
          by_contra hne
          exact h1 ⟨hf, hne⟩
        · left
          rw [takeAttr_not_found _ _ (by simpa using hf)]

theorem nextToken_stack (p : PState) : (nextToken p).2.stack = p.stack := by
  unfold nextToken
  cases p.unread with
  | some t => rfl
  | none => cases h : (Reader.next p.rdr).1 <;> simp [h]

theorem mustNextToken_stack (p : PState) : (mustNextToken p).2.stack = p.stack := by
  unfold mustNextToken
  split <;> rename_i heq <;>
    (have h := nextToken_stack p; rw [heq] at h; exact h)

theorem mustNextTyped_stack (typ : TokenType) (p : PState) :
    (mustNextTyped typ p).2.stack = p.stack := by
  unfold mustNextTyped
  split <;> rename_i heq
  · have h := mustNextToken_stack p; rw [heq] at h; exact h
  · have h := mustNextToken_stack p; rw [heq] at h
    split <;> exact h

theorem mustNextStartElement_stack (l : List Nat) (p : PState) :
    (mustNextStartElement l p).2.stack = p.stack := by
  unfold mustNextStartElement
  split <;> rename_i heq
  · have h := mustNextTyped_stack .startElement p; rw [heq] at h; exact h
  · have h := mustNextTyped_stack .startElement p; rw [heq] at h
    split <;> exact h

theorem mustNextEndElement_stack (l : List Nat) (p : PState) :
    (mustNextEndElement l p).2.stack = p.stack := by
  unfold mustNextEndElement
  split <;> rename_i heq
  · have h := mustNextTyped_stack .endElement p; rw [heq] at h; exact h
  · have h := mustNextTyped_stack .endElement p; rw [heq] at h
    split <;> exact h

end Esi

namespace Esi

open Esixml

theorem goodNodes_iff (ns : List ENode) : goodNodes ns = true ↔ ∀ n ∈ ns, goodNode n = true := by
  induction ns with
  | nil => simp [goodNodes]
  | cons n ns ih => simp [goodNodes, ih]

theorem goodWhens_append (ws : List WhenEl) (w : WhenEl) :
    goodWhens (ws ++ [w]) = (goodWhens ws && goodWhens [w]) := by
  induction ws with
  | nil => simp [goodWhens]
  | cons x ws ih =>
    cases x with
    | mk p a t ns => simp [goodWhens, ih, Bool.and_assoc]

theorem getLast?_mem_list {α : Type} : ∀ {l : List α} {a : α}, l.getLast? = some a → a ∈ l := by
  intro l
  induction l with
  | nil => intro a h; simp at h
  | cons x xs ih =>
    intro a h
    cases xs with
    | nil =>
      simp [List.getLast?_singleton] at h
      simp [h]
    | cons y ys =>
      rw [List.getLast?_cons_cons] at h
      exact List.mem_cons_of_mem _ (ih h)

theorem goodStack_iff (st : List (Option ENode)) :
    goodStack st = true ↔ ∀ x ∈ st, goodOptNode x = true := by
  simp [goodStack, List.all_eq_true]

theorem current_good (st : List (Option ENode)) (h : goodStack st = true) (n : ENode)
    (hc : current st = some n) : goodNode n = true := by
  unfold current at hc
  split at hc
  · rename_i e heq
    subst hc
    exact (goodStack_iff st).mp h _ (getLast?_mem_list heq)
  · cases hc

theorem exitScopeAux_good (rev : List (Option ENode)) (acc : List ENode)
    (hrev : ∀ x ∈ rev, goodOptNode x = true) (hacc : ∀ n ∈ acc, goodNode n = true)
    (children : List ENode) (below : List (Option ENode))
    (h : exitScopeAux acc rev = some (children, below)) :
    (∀ n ∈ children, goodNode n = true) ∧ ∀ x ∈ below, goodOptNode x = true := by
  induction rev generalizing acc with
  | nil => cases h
  | cons x rest ih =>
    cases x with
    | none =>
      simp [exitScopeAux] at h
      obtain ⟨h1, h2⟩ := h
      subst h1 h2
      exact ⟨hacc, fun x hx => hrev x (List.mem_cons_of_mem _ (List.mem_reverse.mp hx))⟩
    | some n =>
      apply ih (n :: acc) (fun x hx => hrev x (List.mem_cons_of_mem _ hx)) ?_ h
      intro m hm
      rcases List.mem_cons.mp hm with h' | h'
      · subst h'
        exact hrev (some m) (List.mem_cons_self _ _)
      · exact hacc m h'

theorem exitScope_good (st : List (Option ENode)) (h : goodStack st = true)
    (children : List ENode) (below : List (Option ENode))
    (hex : exitScope st = some (children, below)) :
    goodNodes children = true ∧ goodStack below = true := by
  have hrev : ∀ x ∈ st.reverse, goodOptNode x = true := by
    intro x hx
    exact (goodStack_iff st).mp h x (List.mem_reverse.mp hx)
  obtain ⟨h1, h2⟩ := exitScopeAux_good st.reverse [] hrev (by simp) children below hex
  exact ⟨(goodNodes_iff children).mpr h1, (goodStack_iff below).mpr h2⟩

theorem goodStack_dropLast (st : List (Option ENode)) (h : goodStack st = true) :
    goodStack st.dropLast = true := by
  rw [goodStack_iff] at h ⊢
  exact fun x hx => h x (List.mem_of_mem_dropLast hx)

theorem goodStack_append_one (st : List (Option ENode)) (x : Option ENode)
    (h : goodStack st = true) (hx : goodOptNode x = true) : goodStack (st ++ [x]) = true := by
  rw [goodStack_iff] at h ⊢
  intro y hy
  rcases List.mem_append.mp hy with h' | h'
  · exact h y h'
  · simp at h'
    subst h'
    exact hx

/-- One parser step is good: the new stack is good and any produced node is
good. -/
def stepGood (r : PStepResult) : Prop :=
  goodStack r.2.2.stack = true ∧ ∀ n, r.1 = some n → goodNode n = true

theorem stepGood_err (e : PErr) (p : PState) (h : goodStack p.stack = true) :
    stepGood (none, some e, p) :=
  ⟨h, fun _ hn => Option.noConfusion hn⟩

theorem stepGood_none (e? : Option PErr) (p : PState) (h : goodStack p.stack = true) :
    stepGood (none, e?, p) :=
  ⟨h, fun _ hn => Option.noConfusion hn⟩

theorem stepGood_pushNested (p : PState) (node : ENode)
    (h : goodStack p.stack = true) (hn : goodNode node = true) :
    stepGood ((pushNestedOrReturn p node).1, none, (pushNestedOrReturn p node).2) := by
  unfold pushNestedOrReturn
  split
  · exact ⟨h, fun n' hn' => by cases hn'; exact hn⟩
  · refine ⟨goodStack_append_one _ _ h hn, fun n' hn' => Option.noConfusion hn'⟩

theorem goodStack_pushScope (p : PState) (node : ENode)
    (h : goodStack p.stack = true) (hn : goodNode node = true) :
    goodStack (pushScope p node).stack = true := by
  unfold pushScope
  show goodStack (p.stack ++ [some node, none]) = true
  have : p.stack ++ [some node, none] = (p.stack ++ [some node]) ++ [none] := by simp
  rw [this]
  exact goodStack_append_one _ _ (goodStack_append_one _ _ h hn) rfl

theorem popIfRoot_good (p : PState) (h : goodStack p.stack = true) :
    goodStack (popIfRoot p).2.stack = true ∧
      ∀ n, (popIfRoot p).1 = some n → goodNode n = true := by
  unfold popIfRoot
  split
  · refine ⟨rfl, fun n hn => current_good p.stack h n hn⟩
  · exact ⟨h, fun _ hn => Option.noConfusion hn⟩

end Esi

namespace Esi

open Esixml

theorem chooseFold_good (children : List ENode) :
    ∀ whens oth whens' oth', (∀ n ∈ children, goodNode n = true) →
      goodWhens whens = true → goodOth oth = true →
      chooseFold whens oth children = .ok (whens', oth') →
      goodWhens whens' = true ∧ goodOth oth' = true := by
  induction children with
  | nil =>
    intro whens oth whens' oth' _ hw ho h
    simp [chooseFold] at h
    obtain ⟨h1, h2⟩ := h
    subst h1 h2
    exact ⟨hw, ho⟩
  | cons n rest ih =>
    intro whens oth whens' oth' hch hw ho h
    have hn : goodNode n = true := hch n (List.mem_cons_self _ _)
    have hrest : ∀ m ∈ rest, goodNode m = true :=
      fun m hm => hch m (List.mem_cons_of_mem _ hm)
    cases n with
    | whenEl w =>
      cases w with
      | mk wp wa wt wns =>
        refine ih _ _ _ _ hrest ?_ ho h
        rw [goodWhens_append]
        simp only [goodWhens, Bool.and_true]
        simp only [goodNode] at hn
        simp [hw, hn]
    | otherwiseEl o =>
      cases o with
      | mk op oa ons =>
        simp only [chooseFold] at h
        cases oth with
        | some o₀ => cases h
        | none =>
          refine ih _ _ _ _ hrest hw ?_ h
          simpa [goodNode, goodOth] using hn
    | rawData p b => exact ih _ _ _ _ hrest hw ho h
    | includeEl p a al oe sr => exact ih _ _ _ _ hrest hw ho h
    | inlineEl p a nm f ns => exact ih _ _ _ _ hrest hw ho h
    | commentEl p a t => exact ih _ _ _ _ hrest hw ho h
    | removeEl p a ns => exact ih _ _ _ _ hrest hw ho h
    | varsEl p a ns => exact ih _ _ _ _ hrest hw ho h
    | chooseEl p a ws oth2 => exact ih _ _ _ _ hrest hw ho h
    | tryEl p a att exc => exact ih _ _ _ _ hrest hw ho h
    | attemptEl e => cases e; exact ih _ _ _ _ hrest hw ho h
    | exceptEl e => cases e; exact ih _ _ _ _ hrest hw ho h

theorem tryFold_good (children : List ENode) :
    ∀ att exc att' exc', (∀ n ∈ children, goodNode n = true) →
      goodAtt att = true → goodExc exc = true →
      tryFold att exc children = .ok (att', exc') →
      goodAtt att' = true ∧ goodExc exc' = true := by
  induction children with
  | nil =>
    intro att exc att' exc' _ ha he h
    simp [tryFold] at h
    obtain ⟨h1, h2⟩ := h
    subst h1 h2
    exact ⟨ha, he⟩
  | cons n rest ih =>
    intro att exc att' exc' hch ha he h
    have hn : goodNode n = true := hch n (List.mem_cons_self _ _)
    have hrest : ∀ m ∈ rest, goodNode m = true :=
      fun m hm => hch m (List.mem_cons_of_mem _ hm)
    cases n with
    | attemptEl a =>
      cases a with
      | mk ap aa ans =>
        simp only [tryFold] at h
        cases att with
        | some a₀ => cases h
        | none =>
          refine ih _ _ _ _ hrest ?_ he h
          simpa [goodNode, goodAtt] using hn
    | exceptEl e =>
      cases e with
      | mk ep ea ens =>
        simp only [tryFold] at h
        cases exc with
        | some e₀ => cases h
        | none =>
          refine ih _ _ _ _ hrest ha ?_ h
          simpa [goodNode, goodExc] using hn
    | rawData p b => exact ih _ _ _ _ hrest ha he h
    | includeEl p a al oe sr => exact ih _ _ _ _ hrest ha he h
    | inlineEl p a nm f ns => exact ih _ _ _ _ hrest ha he h
    | commentEl p a t => exact ih _ _ _ _ hrest ha he h
    | removeEl p a ns => exact ih _ _ _ _ hrest ha he h
    | varsEl p a ns => exact ih _ _ _ _ hrest ha he h
    | chooseEl p a ws oth2 => exact ih _ _ _ _ hrest ha he h
    | tryEl p a att2 exc2 => exact ih _ _ _ _ hrest ha he h
    | whenEl w => cases w; exact ih _ _ _ _ hrest ha he h
    | otherwiseEl o => cases o; exact ih _ _ _ _ hrest ha he h

end Esi

namespace Esi

open Esixml

theorem chooseFinish_good (endPos : Position) (children : List ENode)
    (whens : List WhenEl) (oth : Option OtherwiseEl) (hch : goodNodes children = true)
    (h : chooseFinish endPos children = .ok (whens, oth)) :
    goodWhens whens = true ∧ goodOth oth = true := by
  unfold chooseFinish at h
  split at h
  · cases h
  · rename_i whens0 oth0 hfold
    split at h
    · cases h
    · simp only [Except.ok.injEq, Prod.mk.injEq] at h
      obtain ⟨h1, h2⟩ := h
      subst h1 h2
      exact chooseFold_good children [] none whens0 oth0 ((goodNodes_iff children).mp hch)
        (by simp [goodWhens]) (by simp [goodOth]) hfold

theorem tryFinish_good (endPos : Position) (children : List ENode)
    (att : AttemptEl) (exc : ExceptEl) (hch : goodNodes children = true)
    (h : tryFinish endPos children = .ok (att, exc)) :
    goodAtt (some att) = true ∧ goodExc (some exc) = true := by
  unfold tryFinish at h
  split at h
  · cases h
  · rename_i att0 exc0 hfold
    have hg := tryFold_good children none none att0 exc0 ((goodNodes_iff children).mp hch)
      (by simp [goodAtt]) (by simp [goodExc]) hfold
    split at h
    · cases h
    · rename_i a
      split at h
      · cases h
      · rename_i e
        simp only [Except.ok.injEq, Prod.mk.injEq] at h
        obtain ⟨h1, h2⟩ := h
        subst h1 h2
        exact hg

theorem closeScope_good (p : PState) (tok : Token)
    (update : ENode → List ENode → Nat → Option ENode)
    (hupd : ∀ el children stop el', goodNode el = true → goodNodes children = true →
        update el children stop = some el' → goodNode el' = true)
    (h : goodStack p.stack = true) (p'' : PState)
    (hc : closeScope p tok update = .ok p'') : goodStack p''.stack = true := by
  unfold closeScope at hc
  split at hc
  · cases hc
  · rename_i children below hex
    split at hc
    · cases hc
    · rename_i el hcur
      split at hc
      · cases hc
      · rename_i el' hupd'
        simp only [Except.ok.injEq] at hc
        subst hc
        obtain ⟨hch, hbel⟩ := exitScope_good p.stack h children below hex
        have hel : goodNode el = true := current_good below hbel el hcur
        exact goodStack_append_one _ _ (goodStack_dropLast _ hbel)
          (hupd el children tok.pos.stop el' hel hch hupd')

end Esi

namespace Esi

open Esixml

theorem runPFn_good (fn : PFn) (p : PState) (h : goodStack p.stack = true) :
    stepGood (runPFn fn p) := by
  cases fn with
  | dataOrElement =>
    show stepGood (parseDataOrElementFn p)
    unfold parseDataOrElementFn
    split <;> rename_i heq
    · have hs := nextToken_stack p
      rw [heq] at hs
      exact stepGood_err _ _ (by rw [hs]; exact h)
    · have hs := nextToken_stack p
      rw [heq] at hs
      exact stepGood_none _ _ (by rw [show (_ : PState).stack = _ from rfl, hs]; exact h)
  | data =>
    show stepGood (parseDataFn p)
    unfold parseDataFn
    split <;> rename_i heq
    · have hs := mustNextTyped_stack .data p
      rw [heq] at hs
      exact stepGood_err _ _ (by rw [hs]; exact h)
    · have hs := mustNextTyped_stack .data p
      rw [heq] at hs
      exact stepGood_pushNested _ _ (by rw [show (_ : PState).stack = _ from rfl, hs]; exact h)
        (by simp [goodNode])
  | element =>
    show stepGood (parseElementFn p)
    unfold parseElementFn
    split <;> rename_i heq
    · have hs := mustNextTyped_stack .startElement p
      rw [heq] at hs
      exact stepGood_err _ _ (by rw [hs]; exact h)
    · have hs := mustNextTyped_stack .startElement p
      rw [heq] at hs
      dsimp only
      repeat' split
      all_goals
        first
          | exact stepGood_err _ _ (by rw [hs]; exact h)
          | exact stepGood_none _ _ (by rw [show (_ : PState).stack = _ from rfl, hs]; exact h)
  | endElement =>
    show stepGood (parseEndElementFn p)
    unfold parseEndElementFn
    split <;> rename_i heq
    · have hs := mustNextTyped_stack .endElement p
      rw [heq] at hs
      exact stepGood_err _ _ (by rw [hs]; exact h)
    · have hs := mustNextTyped_stack .endElement p
      rw [heq] at hs
      dsimp only
      repeat' split
      all_goals
        first
          | exact stepGood_err _ _ (by rw [hs]; exact h)
          | exact stepGood_none _ _ (by rw [show (_ : PState).stack = _ from rfl, hs]; exact h)
  | attemptStart =>
    show stepGood (parseAttemptElementFn p)
    unfold parseAttemptElementFn
    split <;> rename_i heq
    · have hs := mustNextStartElement_stack (bytesOf "attempt") p
      rw [heq] at hs
      exact stepGood_err _ _ (by rw [hs]; exact h)
    · have hs := mustNextStartElement_stack (bytesOf "attempt") p
      rw [heq] at hs
      split
      · exact stepGood_none _ _
          (goodStack_pushScope _ _ (by rw [hs]; exact h) (by simp [goodNode, goodNodes]))
      · exact stepGood_err _ _ (by rw [hs]; exact h)
  | exceptStart =>
    show stepGood (parseExceptElementFn p)
    unfold parseExceptElementFn
    split <;> rename_i heq
    · have hs := mustNextStartElement_stack (bytesOf "except") p
      rw [heq] at hs
      exact stepGood_err _ _ (by rw [hs]; exact h)
    · have hs := mustNextStartElement_stack (bytesOf "except") p
      rw [heq] at hs
      split
      · exact stepGood_none _ _
          (goodStack_pushScope _ _ (by rw [hs]; exact h) (by simp [goodNode, goodNodes]))
      · exact stepGood_err _ _ (by rw [hs]; exact h)
  | whenStart =>
    show stepGood (parseWhenElementFn p)
    unfold parseWhenElementFn
    split <;> rename_i heq
    · have hs := mustNextStartElement_stack (bytesOf "when") p
      rw [heq] at hs
      exact stepGood_err _ _ (by rw [hs]; exact h)
    · have hs := mustNextStartElement_stack (bytesOf "when") p
      rw [heq] at hs
      dsimp only
      repeat' split
      all_goals
        first
          | exact stepGood_err _ _ (by rw [hs]; exact h)
          | exact stepGood_none _ _
              (goodStack_pushScope _ _ (by rw [hs]; exact h) (by simp [goodNode, goodNodes]))
  | otherwiseStart =>
    show stepGood (parseOtherwiseElementFn p)
    unfold parseOtherwiseElementFn
    split <;> rename_i heq
    · have hs := mustNextStartElement_stack (bytesOf "otherwise") p
      rw [heq] at hs
      exact stepGood_err _ _ (by rw [hs]; exact h)
    · have hs := mustNextStartElement_stack (bytesOf "otherwise") p
      rw [heq] at hs
      split
      · exact stepGood_none _ _
          (goodStack_pushScope _ _ (by rw [hs]; exact h) (by simp [goodNode, goodNodes]))
      · exact stepGood_err _ _ (by rw [hs]; exact h)
  | chooseStart =>
    show stepGood (parseChooseElementFn p)
    unfold parseChooseElementFn
    split <;> rename_i heq
    · have hs := mustNextStartElement_stack (bytesOf "choose") p
      rw [heq] at hs
      exact stepGood_err _ _ (by rw [hs]; exact h)
    · have hs := mustNextStartElement_stack (bytesOf "choose") p
      rw [heq] at hs
      split
      · exact stepGood_err _ _ (by rw [hs]; exact h)
      · exact stepGood_none _ _
          (goodStack_pushScope _ _ (by rw [hs]; exact h)
            (by simp [goodNode, goodWhens, goodOth]))
  | tryStart =>
    show stepGood (parseTryElementFn p)
    unfold parseTryElementFn
    split <;> rename_i heq
    · have hs := mustNextStartElement_stack (bytesOf "try") p
      rw [heq] at hs
      exact stepGood_err _ _ (by rw [hs]; exact h)
    · have hs := mustNextStartElement_stack (bytesOf "try") p
      rw [heq] at hs
      split
      · exact stepGood_err _ _ (by rw [hs]; exact h)
      · exact stepGood_none _ _
          (goodStack_pushScope _ _ (by rw [hs]; exact h) (by simp [goodNode, goodAtt, goodExc]))
  | removeStart =>
    show stepGood (parseRemoveElementFn p)
    unfold parseRemoveElementFn
    split <;> rename_i heq
    · have hs := mustNextStartElement_stack (bytesOf "remove") p
      rw [heq] at hs
      exact stepGood_err _ _ (by rw [hs]; exact h)
    · have hs := mustNextStartElement_stack (bytesOf "remove") p
      rw [heq] at hs
      split
      · exact stepGood_err _ _ (by rw [hs]; exact h)
      · exact stepGood_none _ _
          (goodStack_pushScope _ _ (by rw [hs]; exact h) (by simp [goodNode, goodNodes]))
  | varsStart =>
    show stepGood (parseVarsElementFn p)
    unfold parseVarsElementFn
    split <;> rename_i heq
    · have hs := mustNextStartElement_stack (bytesOf "vars") p
      rw [heq] at hs
      exact stepGood_err _ _ (by rw [hs]; exact h)
    · have hs := mustNextStartElement_stack (bytesOf "vars") p
      rw [heq] at hs
      split
      · exact stepGood_err _ _ (by rw [hs]; exact h)
      · exact stepGood_none _ _
          (goodStack_pushScope _ _ (by rw [hs]; exact h) (by simp [goodNode, goodNodes]))
  | inlineStart =>
    show stepGood (parseInlineElementFn p)
    unfold parseInlineElementFn
    split <;> rename_i heq
    · have hs := mustNextStartElement_stack (bytesOf "inline") p
      rw [heq] at hs
      exact stepGood_err _ _ (by rw [hs]; exact h)
    · have hs := mustNextStartElement_stack (bytesOf "inline") p
      rw [heq] at hs
      dsimp only
      repeat' split
      all_goals
        first
          | exact stepGood_err _ _ (by rw [hs]; exact h)
          | exact stepGood_none _ _
              (goodStack_pushScope _ _ (by rw [hs]; exact h) (by simp [goodNode, goodNodes]))
  | commentStart =>
    show stepGood (parseCommentElementFn p)
    unfold parseCommentElementFn
    split <;> rename_i heq
    · have hs := mustNextStartElement_stack (bytesOf "comment") p
      rw [heq] at hs
      exact stepGood_err _ _ (by rw [hs]; exact h)
    · have hs := mustNextStartElement_stack (bytesOf "comment") p
      rw [heq] at hs
      dsimp only
      repeat' split
      all_goals
        first
          | exact stepGood_err _ _ (by rw [hs]; exact h)
          | exact stepGood_pushNested _ _
              (by rw [show (_ : PState).stack = _ from rfl, hs]; exact h) (by simp [goodNode])
  | includeStart =>
    show stepGood (parseIncludeElementFn p)
    unfold parseIncludeElementFn
    split <;> rename_i heq
    · have hs := mustNextStartElement_stack (bytesOf "include") p
      rw [heq] at hs
      exact stepGood_err _ _ (by rw [hs]; exact h)
    · have hs := mustNextStartElement_stack (bytesOf "include") p
      rw [heq] at hs
      split <;> rename_i heq2
      · exact stepGood_err _ _ (by rw [hs]; exact h)
      · exact stepGood_pushNested _ _
          (by rw [show (_ : PState).stack = _ from rfl, hs]; exact h)
          (includeFromToken_good _ _ heq2)
  | attemptEnd =>
    show stepGood (parseAttemptElementEndFn p)
    unfold parseAttemptElementEndFn
    split <;> rename_i heq
    · have hs := mustNextEndElement_stack (bytesOf "attempt") p
      rw [heq] at hs
      exact stepGood_err _ _ (by rw [hs]; exact h)
    · have hs := mustNextEndElement_stack (bytesOf "attempt") p
      rw [heq] at hs
      split <;> rename_i heq2
      · exact stepGood_err _ _ (by rw [hs]; exact h)
      · refine stepGood_none _ _ (closeScope_good _ _ _ ?_ (by rw [hs]; exact h) _ heq2)
        intro el children stop el' hel hch hu
        cases el <;> try exact Option.noConfusion hu
        rename_i a
        cases a
        simp only [Option.some.injEq] at hu
        subst hu
        simpa [goodNode] using hch
  | exceptEnd =>
    show stepGood (parseExceptElementEndFn p)
    unfold parseExceptElementEndFn
    split <;> rename_i heq
    · have hs := mustNextEndElement_stack (bytesOf "except") p
      rw [heq] at hs
      exact stepGood_err _ _ (by rw [hs]; exact h)
    · have hs := mustNextEndElement_stack (bytesOf "except") p
      rw [heq] at hs
      split <;> rename_i heq2
      · exact stepGood_err _ _ (by rw [hs]; exact h)
      · refine stepGood_none _ _ (closeScope_good _ _ _ ?_ (by rw [hs]; exact h) _ heq2)
        intro el children stop el' hel hch hu
        cases el <;> try exact Option.noConfusion hu
        rename_i a
        cases a
        simp only [Option.some.injEq] at hu
        subst hu
        simpa [goodNode] using hch
  | whenEnd =>
    show stepGood (parseWhenElementEndFn p)
    unfold parseWhenElementEndFn
    split <;> rename_i heq
    · have hs := mustNextEndElement_stack (bytesOf "when") p
      rw [heq] at hs
      exact stepGood_err _ _ (by rw [hs]; exact h)
    · have hs := mustNextEndElement_stack (bytesOf "when") p
      rw [heq] at hs
      split <;> rename_i heq2
      · exact stepGood_err _ _ (by rw [hs]; exact h)
      · refine stepGood_none _ _ (closeScope_good _ _ _ ?_ (by rw [hs]; exact h) _ heq2)
        intro el children stop el' hel hch hu
        cases el <;> try exact Option.noConfusion hu
        rename_i a
        cases a
        simp only [Option.some.injEq] at hu
        subst hu
        simpa [goodNode] using hch
  | otherwiseEnd =>
    show stepGood (parseOtherwiseElementEndFn p)
    unfold parseOtherwiseElementEndFn
    split <;> rename_i heq
    · have hs := mustNextEndElement_stack (bytesOf "otherwise") p
      rw [heq] at hs
      exact stepGood_err _ _ (by rw [hs]; exact h)
    · have hs := mustNextEndElement_stack (bytesOf "otherwise") p
      rw [heq] at hs
      split <;> rename_i heq2
      · exact stepGood_err _ _ (by rw [hs]; exact h)
      · refine stepGood_none _ _ (closeScope_good _ _ _ ?_ (by rw [hs]; exact h) _ heq2)
        intro el children stop el' hel hch hu
        cases el <;> try exact Option.noConfusion hu
        rename_i a
        cases a
        simp only [Option.some.injEq] at hu
        subst hu
        simpa [goodNode] using hch
  | inlineEnd =>
    show stepGood (parseInlineElementEndFn p)
    unfold parseInlineElementEndFn
    split <;> rename_i heq
    · have hs := mustNextEndElement_stack (bytesOf "inline") p
      rw [heq] at hs
      exact stepGood_err _ _ (by rw [hs]; exact h)
    · have hs := mustNextEndElement_stack (bytesOf "inline") p
      rw [heq] at hs
      split <;> rename_i heq2
      · exact stepGood_err _ _ (by rw [hs]; exact h)
      · have hg : goodStack _ = true := closeScope_good _ _ _ ?_ (by rw [hs]; exact h) _ heq2
        · obtain ⟨h1, h2⟩ := popIfRoot_good _ hg
          exact ⟨h1, h2⟩
        · intro el children stop el' hel hch hu
          cases el <;> try exact Option.noConfusion hu
          simp only [Option.some.injEq] at hu
          subst hu
          simpa [goodNode] using hch
  | removeEnd =>
    show stepGood (parseRemoveElementEndFn p)
    unfold parseRemoveElementEndFn
    split <;> rename_i heq
    · have hs := mustNextEndElement_stack (bytesOf "remove") p
      rw [heq] at hs
      exact stepGood_err _ _ (by rw [hs]; exact h)
    · have hs := mustNextEndElement_stack (bytesOf "remove") p
      rw [heq] at hs
      split <;> rename_i heq2
      · exact stepGood_err _ _ (by rw [hs]; exact h)
      · have hg : goodStack _ = true := closeScope_good _ _ _ ?_ (by rw [hs]; exact h) _ heq2
        · obtain ⟨h1, h2⟩ := popIfRoot_good _ hg
          exact ⟨h1, h2⟩
        · intro el children stop el' hel hch hu
          cases el <;> try exact Option.noConfusion hu
          simp only [Option.some.injEq] at hu
          subst hu
          simpa [goodNode] using hch
  | varsEnd =>
    show stepGood (parseVarsElementEndFn p)
    unfold parseVarsElementEndFn
    split <;> rename_i heq
    · have hs := mustNextEndElement_stack (bytesOf "vars") p
      rw [heq] at hs
      exact stepGood_err _ _ (by rw [hs]; exact h)
    · have hs := mustNextEndElement_stack (bytesOf "vars") p
      rw [heq] at hs
      split <;> rename_i heq2
      · exact stepGood_err _ _ (by rw [hs]; exact h)
      · have hg : goodStack _ = true := closeScope_good _ _ _ ?_ (by rw [hs]; exact h) _ heq2
        · obtain ⟨h1, h2⟩ := popIfRoot_good _ hg
          exact ⟨h1, h2⟩
        · intro el children stop el' hel hch hu
          cases el <;> try exact Option.noConfusion hu
          simp only [Option.some.injEq] at hu
          subst hu
          simpa [goodNode] using hch
  | chooseEnd =>
    show stepGood (parseChooseElementEndFn p)
    unfold parseChooseElementEndFn
    split <;> rename_i heq
    · have hs := mustNextEndElement_stack (bytesOf "choose") p
      rw [heq] at hs
      exact stepGood_err _ _ (by rw [hs]; exact h)
    · have hs := mustNextEndElement_stack (bytesOf "choose") p
      rw [heq] at hs
      split <;> rename_i heq2
      · exact stepGood_err _ _ (by rw [hs]; exact h)
      · split <;> rename_i heq3
        · split <;> rename_i heq4
          · exact stepGood_err _ _ (by rw [hs]; exact h)
          · obtain ⟨hch, hbel⟩ := exitScope_good _ (by rw [hs]; exact h) _ _ heq2
            obtain ⟨hw, ho⟩ := chooseFinish_good _ _ _ _ hch heq4
            suffices hg : _ by exact ⟨(popIfRoot_good _ hg).1, (popIfRoot_good _ hg).2⟩
            exact goodStack_append_one _ _ (goodStack_dropLast _ hbel)
              (by simp [goodOptNode, goodNode, hw, ho])
        · exact stepGood_err _ _ (by rw [hs]; exact h)
  | tryEnd =>
    show stepGood (parseTryElementEndFn p)
    unfold parseTryElementEndFn
    split <;> rename_i heq
    · have hs := mustNextEndElement_stack (bytesOf "try") p
      rw [heq] at hs
      exact stepGood_err _ _ (by rw [hs]; exact h)
    · have hs := mustNextEndElement_stack (bytesOf "try") p
      rw [heq] at hs
      split <;> rename_i heq2
      · exact stepGood_err _ _ (by rw [hs]; exact h)
      · split <;> rename_i heq3
        · split <;> rename_i heq4
          · exact stepGood_err _ _ (by rw [hs]; exact h)
          · obtain ⟨hch, hbel⟩ := exitScope_good _ (by rw [hs]; exact h) _ _ heq2
            obtain ⟨ha, he⟩ := tryFinish_good _ _ _ _ hch heq4
            suffices hg : _ by exact ⟨(popIfRoot_good _ hg).1, (popIfRoot_good _ hg).2⟩
            exact goodStack_append_one _ _ (goodStack_dropLast _ hbel)
              (by simp [goodOptNode, goodNode, ha, he])
        · exact stepGood_err _ _ (by rw [hs]; exact h)

end Esi

namespace Esi

open Esixml

/-! ## Driver-level goodness (claim C7)

`Parser.next` preserves the stack invariant and only ever returns good nodes;
hence every successful `esiParse` yields a list of good nodes. -/

theorem finishNext_stack (e : PErr) (p : PState) : (finishNext e p).2 = p := by
  unfold finishNext
  split
  · split <;> rfl
  · rfl

theorem finishNext_no_ok (e : PErr) (p : PState) (n : ENode) :
    (finishNext e p).1 ≠ .ok n := by
  unfold finishNext
  split
  · split <;> simp
  · simp

theorem parserNext_good (fuel : Nat) (p : PState) (h : goodStack p.stack = true) :
    goodStack (Parser.next fuel p).2.stack = true ∧
      ∀ n, (Parser.next fuel p).1 = .ok n → goodNode n = true := by
  induction fuel generalizing p with
  | zero =>
    unfold Parser.next
    cases hp : p.err with
    | some e =>
      refine ⟨?_, fun n hn => absurd hn (finishNext_no_ok _ _ _)⟩
      rw [finishNext_stack]
      exact h
    | none => exact ⟨h, fun n hn => Except.noConfusion hn⟩
  | succ fuel ih =>
    unfold Parser.next
    cases hp : p.err with
    | some e =>
      refine ⟨?_, fun n hn => absurd hn (finishNext_no_ok _ _ _)⟩
      rw [finishNext_stack]
      exact h
    | none =>
      dsimp only
      split
      · rename_i n hr1
        exact ⟨(runPFn_good p.state p h).1,
          fun n' hn => by cases hn; exact (runPFn_good p.state p h).2 n hr1⟩
      · rename_i hr1
        split
        · rename_i e hr2
          refine ⟨?_, fun n hn => absurd hn (finishNext_no_ok _ _ _)⟩
          rw [finishNext_stack]
          exact (runPFn_good p.state p h).1
        · rename_i hr2
          exact ih _ (runPFn_good p.state p h).1

theorem parseAllAux_good (fuel : Nat) (p : PState) (h : goodStack p.stack = true) :
    ∀ n ∈ (parseAllAux fuel p).1, goodNode n = true := by
  induction fuel generalizing p with
  | zero => intro n hn; cases hn
  | succ fuel ih =>
    intro n hn
    unfold parseAllAux at hn
    dsimp only at hn
    split at hn
    · cases hn
    · cases hn
    · rename_i n0 p' hr
      rcases List.mem_cons.mp hn with hEq | hmem
      · subst hEq
        exact (parserNext_good (p.rdr.rest.length * 4 + 16) p h).2 n (by rw [hr])
      · have hstk := (parserNext_good (p.rdr.rest.length * 4 + 16) p h).1
        rw [hr] at hstk
        exact ih p' hstk n hmem

end Esi

namespace Esi

open Esixml

/-! ## `takeAttr` facts shared by the include invariants and the
namespace-sensitivity analysis -/

/-- The residual attribute list after `takeAttr` is a subset of the input. -/
theorem takeAttr_sub (attrs : List Attr) (nm : List Nat) :
    ∀ a ∈ (takeAttr attrs nm).2, a ∈ attrs := by
  induction attrs with
  | nil => intro a ha; cases ha
  | cons b rest ih =>
    intro a ha
    by_cases hc : b.name.space = [] ∧ b.name.localName = nm
    · simp only [takeAttr, if_pos hc] at ha
      exact List.mem_cons_of_mem _ ha
    · simp only [takeAttr, if_neg hc] at ha
      rcases List.mem_cons.mp ha with h1 | h1
      · exact h1 ▸ List.mem_cons_self _ _
      · exact List.mem_cons_of_mem _ (ih a h1)

/-- A found attribute comes from the list, has an empty namespace and the
requested local name. -/
theorem takeAttr_found_mem (attrs : List Attr) (nm : List Nat)
    (h : (takeAttr attrs nm).1.2 = true) :
    (takeAttr attrs nm).1.1 ∈ attrs ∧ (takeAttr attrs nm).1.1.name.space = [] ∧
      (takeAttr attrs nm).1.1.name.localName = nm := by
  induction attrs with
  | nil => simp [takeAttr] at h
  | cons b rest ih =>
    by_cases hc : b.name.space = [] ∧ b.name.localName = nm
    · simp only [takeAttr, if_pos hc]
      exact ⟨List.mem_cons_self _ _, hc.1, hc.2⟩
    · simp only [takeAttr, if_neg hc] at h ⊢
      obtain ⟨h1, h2, h3⟩ := ih h
      exact ⟨List.mem_cons_of_mem _ h1, h2, h3⟩

/-- If no attribute with empty namespace and the requested name is present,
`takeAttr` reports not-found and leaves the list unchanged. -/
theorem takeAttr_none_of_absent (attrs : List Attr) (nm : List Nat)
    (h : ∀ a ∈ attrs, ¬(a.name.space = [] ∧ a.name.localName = nm)) :
    (takeAttr attrs nm).1.2 = false ∧ (takeAttr attrs nm).2 = attrs := by
  induction attrs with
  | nil => exact ⟨rfl, rfl⟩
  | cons b rest ih =>
    have hb := h b (List.mem_cons_self _ _)
    simp only [takeAttr, if_neg hb]
    obtain ⟨h1, h2⟩ := ih (fun a ha => h a (List.mem_cons_of_mem _ ha))
    exact ⟨h1, by rw [h2]⟩

/-- A namespaced attribute is never removed by `takeAttr`. -/
theorem takeAttr_keeps_namespaced (attrs : List Attr) (nm : List Nat) (a : Attr)
    (ha : a ∈ attrs) (hns : a.name.space ≠ []) : a ∈ (takeAttr attrs nm).2 := by
  induction attrs with
  | nil => cases ha
  | cons b rest ih =>
    by_cases hc : b.name.space = [] ∧ b.name.localName = nm
    · simp only [takeAttr, if_pos hc]
      rcases List.mem_cons.mp ha with h1 | h1
      · exact absurd (h1 ▸ hc.1) hns
      · exact h1
    · simp only [takeAttr, if_neg hc]
      rcases List.mem_cons.mp ha with h1 | h1
      · exact h1 ▸ List.mem_cons_self _ _
      · exact List.mem_cons_of_mem _ (ih h1)

end Esi

namespace Esi

open Esixml

/-- C7: in every successfully parsed tree, each include element's `OnError`
is `""` or `"continue"`; an include start tag carrying no empty-namespace
`src` attribute fails with a missing-attribute error, and one whose `onerror`
value is not `"continue"` fails with an invalid-attribute-value error.  The
claim's remaining conjunct — that `Source` is non-empty — is refuted
separately: `src=""` is accepted. -/
theorem c7_include_invariants :
    (∀ (input : List Nat) (nodes : List ENode), esiParse input = .ok nodes →
      goodNodes nodes = true) ∧
    (∀ tok : Token, tok.closed = true →
      (∀ a ∈ tok.attr, ¬(a.name.space = [] ∧ a.name.localName = bytesOf "src")) →
      (∀ a ∈ tok.attr, a.name.space = [] → a.name.localName = bytesOf "onerror" →
        a.value = bytesOf "continue") →
      includeFromToken tok = .error (.missingAttribute tok.pos tok.name ⟨[], bytesOf "src"⟩)) ∧
    (∀ tok : Token, tok.closed = true →
      ∀ a rest, takeAttr (takeAttr tok.attr (bytesOf "alt")).2 (bytesOf "onerror") = ((a, true), rest) →
      a.value ≠ bytesOf "continue" →
      includeFromToken tok = .error (.invalidAttributeValue ⟨a.pos.start, a.pos.stop⟩ tok.name
        ⟨[], bytesOf "onerror"⟩ a.value [bytesOf "continue"])) := by
  refine ⟨fun input nodes hp => ?_, fun tok hc hnosrc honer => ?_,
    fun tok hc a rest hfound hne => ?_⟩
  · unfold esiParse at hp
    dsimp only at hp
    split at hp
    · exact Except.noConfusion hp
    · injection hp with hp
      subst hp
      rw [goodNodes_iff]
      exact parseAllAux_good _ _ rfl
  · have hguard : ¬((takeAttr (takeAttr tok.attr (bytesOf "alt")).2 (bytesOf "onerror")).1.2 = true ∧
        ¬(takeAttr (takeAttr tok.attr (bytesOf "alt")).2 (bytesOf "onerror")).1.1.value =
          bytesOf "continue") := by
      rintro ⟨hf, hv⟩
      obtain ⟨hmem, hsp, hln⟩ := takeAttr_found_mem _ _ hf
      exact hv (honer _ (takeAttr_sub _ _ _ hmem) hsp hln)
    have hnof : (takeAttr (takeAttr (takeAttr tok.attr (bytesOf "alt")).2 (bytesOf "onerror")).2
        (bytesOf "src")).1.2 = false :=
      (takeAttr_none_of_absent _ _ (fun a ha =>
        hnosrc a (takeAttr_sub _ _ _ (takeAttr_sub _ _ _ ha)))).1
    unfold includeFromToken
    rw [hc]
    split
    · rename_i hfalse
      simp at hfalse
    · dsimp only
      split
      · rename_i hcond
        exact absurd hcond hguard
      · split
        · rfl
        · rename_i hcond2
          rw [hnof] at hcond2
          simp at hcond2
  · unfold includeFromToken
    rw [hc]
    split
    · rename_i hfalse
      simp at hfalse
    · dsimp only
      rw [hfound]
      split
      · rfl
      · rename_i hcond
        exact absurd ⟨rfl, hne⟩ hcond

/-- C7 witness: a parse whose include has `onerror="continue"`-free output
satisfying the invariant, a closed include tag lacking `src`, and one whose
`onerror` value is `"abort"`. -/
theorem c7_include_invariants_witness :
    goodNodes [ENode.includeEl ⟨0, 21⟩ [] [] [] []] = true ∧
    includeFromToken ⟨⟨0, 10⟩, .startElement, esiName "include", [], [], true⟩ =
      .error (.missingAttribute ⟨0, 10⟩ (esiName "include") ⟨[], bytesOf "src"⟩) ∧
    includeFromToken ⟨⟨0, 30⟩, .startElement, esiName "include",
        [⟨⟨13, 28⟩, ⟨[], bytesOf "onerror"⟩, bytesOf "abort"⟩], [], true⟩ =
      .error (.invalidAttributeValue ⟨13, 28⟩ (esiName "include") ⟨[], bytesOf "onerror"⟩
        (bytesOf "abort") [bytesOf "continue"]) :=
  ⟨c7_include_invariants.1 (bytesOf "<esi:include src=\"\"/>") _ rfl,
   c7_include_invariants.2.1 _ rfl (by simp) (by simp),
   c7_include_invariants.2.2 _ rfl ⟨⟨13, 28⟩, ⟨[], bytesOf "onerror"⟩, bytesOf "abort"⟩ [] rfl
     (by decide)⟩

/-- C7 counterexample: `<esi:include src=""/>` parses successfully into an
include element whose `Source` is empty, refuting the claimed non-emptiness
of `Source` in successfully parsed trees. -/
theorem c7_empty_source_counterexample :
    esiParse (bytesOf "<esi:include src=\"\"/>") =
      .ok [.includeEl ⟨0, 21⟩ [] [] [] []] := rfl

end Esi

namespace Esixml

/-! ## Scanner passthrough (claim C8)

`noEsiOpen` states the claim's side condition: no `<` in the input is
followed by `esi:` or `/esi:`. -/

def noEsiOpen : List Nat → Bool
  | [] => true
  | b :: rest =>
    if b == 0x3C && (hasEsiPrefix rest || hasSlashEsiPrefix rest) then false
    else noEsiOpen rest

theorem findTag_of_noEsiOpen (s : List Nat) (h : noEsiOpen s = true) :
    findTag s = (s, none) := by
  induction s with
  | nil => rfl
  | cons b rest ih =>
    unfold noEsiOpen at h
    split at h
    · exact absurd h (by simp)
    · rename_i hcond
      have ih' := ih h
      unfold findTag
      by_cases hb : (b == 0x3C) = true
      · rw [if_pos hb]
        have h1 : hasEsiPrefix rest = false := by
          cases he : hasEsiPrefix rest
          · rfl
          · exact absurd (by rw [Bool.and_eq_true, Bool.or_eq_true]; exact ⟨hb, Or.inl he⟩) hcond
        have h2 : hasSlashEsiPrefix rest = false := by
          cases he : hasSlashEsiPrefix rest
          · rfl
          · exact absurd (by rw [Bool.and_eq_true, Bool.or_eq_true]; exact ⟨hb, Or.inr he⟩) hcond
        rw [if_neg (by rw [h1]; exact Bool.false_ne_true),
          if_neg (by rw [h2]; exact Bool.false_ne_true)]
        dsimp only
        rw [ih']
      · rw [if_neg hb]
        dsimp only
        rw [ih']

theorem findTag_tag (s : List Nat) :
    ∀ isStart rest', (findTag s).2 = some (isStart, rest') →
      (isStart = true → hasEsiPrefix rest' = true) ∧
      (isStart = false → hasSlashEsiPrefix rest' = true) := by
  induction s with
  | nil => intro a b h; cases h
  | cons b rest ih =>
    intro isStart rest' h
    unfold findTag at h
    by_cases hb : (b == 0x3C) = true
    · rw [if_pos hb] at h
      by_cases he : hasEsiPrefix rest = true
      · rw [if_pos he] at h
        simp only [Option.some.injEq, Prod.mk.injEq] at h
        obtain ⟨h1, h2⟩ := h
        subst h1
        subst h2
        exact ⟨fun _ => he, fun hf => absurd hf (by decide)⟩
      · rw [if_neg he] at h
        by_cases hs : hasSlashEsiPrefix rest = true
        · rw [if_pos hs] at h
          simp only [Option.some.injEq, Prod.mk.injEq] at h
          obtain ⟨h1, h2⟩ := h
          subst h1
          subst h2
          exact ⟨fun ht => absurd ht (by decide), fun _ => hs⟩
        · rw [if_neg hs] at h
          exact ih isStart rest' h
    · rw [if_neg hb] at h
      exact ih isStart rest' h

theorem parseElementOrData_noEsi (off : Nat) (input : List Nat)
    (h : noEsiOpen input = true) (hne : input ≠ []) :
    parseElementOrData off input =
      (some ⟨⟨off, off + input.length⟩, .data, ⟨[], []⟩, [], input, false⟩,
        some .eof, off + input.length, [], .elementOrData) := by
  unfold parseElementOrData
  rw [findTag_of_noEsiOpen input h]
  dsimp only
  rw [if_neg (by simp [List.isEmpty_iff, hne])]
  simp [Nat.add_sub_cancel]

theorem hasEsiPrefix_shape (rest : List Nat) (h : hasEsiPrefix rest = true) :
    ∃ tl, rest = 0x65 :: 0x73 :: 0x69 :: 0x3A :: tl := by
  unfold hasEsiPrefix at h
  split at h
  · rename_i tl
    exact ⟨tl, rfl⟩
  · cases h

theorem hasSlashEsiPrefix_shape (rest : List Nat) (h : hasSlashEsiPrefix rest = true) :
    ∃ tl, rest = 0x2F :: 0x65 :: 0x73 :: 0x69 :: 0x3A :: tl := by
  unfold hasSlashEsiPrefix at h
  split at h
  · rename_i tl
    exact ⟨tl, rfl⟩
  · cases h

theorem takeWhile_name_esi (tl : List Nat) :
    List.takeWhile (fun c => !(c < 0x80 && !isNameByte c)) (0x73 :: 0x69 :: 0x3A :: tl) =
      0x73 :: 0x69 :: 0x3A :: List.takeWhile (fun c => !(c < 0x80 && !isNameByte c)) tl := rfl

theorem readName_esi_space (off : Nat) (tl : List Nat) (nm : Name) (o : Nat) (r : List Nat)
    (h : readName false off (0x65 :: 0x73 :: 0x69 :: 0x3A :: tl) = .ok (nm, o, r)) :
    nm.space = bytesOf "esi" := by
  unfold readName at h
  dsimp only at h
  rw [if_neg (by decide)] at h
  rw [takeWhile_name_esi] at h
  split at h
  · exact absurd h (by simp)
  · split at h
    · exact absurd h (by simp)
    · injection h with h
      injection h with h1 h2
      subst h1
      unfold bytesToName
      split
      · dsimp only
        rw [show List.takeWhile (fun c => c != 0x3A) (0x65 :: 0x73 :: 0x69 :: 0x3A ::
            List.takeWhile (fun c => !(c < 0x80 && !isNameByte c)) tl) =
            [0x65, 0x73, 0x69] from rfl]
        decide
      · rename_i hc
        exact absurd rfl hc

/-- One scanner step is good: any produced start/end token carries the `esi`
namespace, and the next state function's entry condition holds. -/
def stepOkR (r : StepResult) : Prop :=
  (∀ t, r.1 = some t →
    ((t.type = .startElement ∨ t.type = .endElement) → t.name.space = bytesOf "esi")) ∧
  (r.2.2.2.2 = .startElement → hasEsiPrefix r.2.2.2.1 = true) ∧
  (r.2.2.2.2 = .endElement → hasSlashEsiPrefix r.2.2.2.1 = true)

theorem parseElementOrData_stepOk (off : Nat) (rest : List Nat) :
    stepOkR (parseElementOrData off rest) := by
  unfold parseElementOrData
  dsimp only
  split
  · split
    · exact ⟨fun t ht => Option.noConfusion ht,
        fun hh => RFn.noConfusion hh, fun hh => RFn.noConfusion hh⟩
    · refine ⟨fun t ht => ?_, fun hh => RFn.noConfusion hh, fun hh => RFn.noConfusion hh⟩
      injection ht with ht
      subst ht
      intro hty
      rcases hty with hty | hty <;> exact TokenType.noConfusion hty
  · rename_i isStart rest' heq
    have htag := findTag_tag rest isStart rest' heq
    split
    · refine ⟨fun t ht => Option.noConfusion ht, ?_, ?_⟩
      · intro hh
        cases isStart with
        | true => exact htag.1 rfl
        | false => exact RFn.noConfusion hh
      · intro hh
        cases isStart with
        | true => exact RFn.noConfusion hh
        | false => exact htag.2 rfl
    · refine ⟨fun t ht => ?_, ?_, ?_⟩
      · injection ht with ht
        subst ht
        intro hty
        rcases hty with hty | hty <;> exact TokenType.noConfusion hty
      · intro hh
        cases isStart with
        | true => exact htag.1 rfl
        | false => exact RFn.noConfusion hh
      · intro hh
        cases isStart with
        | true => exact RFn.noConfusion hh
        | false => exact htag.2 rfl

theorem parseStartElement_stepOk (off0 : Nat) (rest0 : List Nat)
    (h : hasEsiPrefix rest0 = true) : stepOkR (parseStartElement off0 rest0) := by
  obtain ⟨tl, rfl⟩ := hasEsiPrefix_shape rest0 h
  unfold parseStartElement
  split
  · exact ⟨fun t ht => Option.noConfusion ht, fun _ => rfl, fun hh => RFn.noConfusion hh⟩
  · rename_i nm off1 rest1 heq
    split
    · exact ⟨fun t ht => Option.noConfusion ht, fun _ => rfl, fun hh => RFn.noConfusion hh⟩
    · rename_i closed attrs off2 rest2 heq2
      refine ⟨fun t ht => ?_, fun hh => RFn.noConfusion hh, fun hh => RFn.noConfusion hh⟩
      injection ht with ht
      subst ht
      intro hty
      exact readName_esi_space _ _ _ _ _ heq

theorem parseEndElement_stepOk (off0 : Nat) (rest0 : List Nat)
    (h : hasSlashEsiPrefix rest0 = true) : stepOkR (parseEndElement off0 rest0) := by
  obtain ⟨tl, rfl⟩ := hasSlashEsiPrefix_shape rest0 h
  unfold parseEndElement
  rw [show consumeOrError 0x2F off0 (0x2F :: 0x65 :: 0x73 :: 0x69 :: 0x3A :: tl) =
      .ok (off0 + 1, 0x65 :: 0x73 :: 0x69 :: 0x3A :: tl) from rfl]
  dsimp only
  split
  · exact ⟨fun t ht => Option.noConfusion ht, fun hh => RFn.noConfusion hh, fun _ => rfl⟩
  · rename_i nm off2 rest2 heq
    split
    · exact ⟨fun t ht => Option.noConfusion ht, fun hh => RFn.noConfusion hh, fun _ => rfl⟩
    · rename_i off4 rest4 heq2
      refine ⟨fun t ht => ?_, fun hh => RFn.noConfusion hh, fun hh => RFn.noConfusion hh⟩
      injection ht with ht
      subst ht
      intro hty
      exact readName_esi_space _ _ _ _ _ heq

theorem runStateFn_stepOk (fn : RFn) (off : Nat) (rest : List Nat)
    (h1 : fn = .startElement → hasEsiPrefix rest = true)
    (h2 : fn = .endElement → hasSlashEsiPrefix rest = true) :
    stepOkR (runStateFn fn off rest) := by
  cases fn with
  | elementOrData => exact parseElementOrData_stepOk off rest
  | startElement => exact parseStartElement_stepOk off rest (h1 rfl)
  | endElement => exact parseEndElement_stepOk off rest (h2 rfl)

/-- The reachable-state invariant: a pending tag state function was installed
with the matching prefix still in the input. -/
def goodRState (s : RState) : Prop :=
  (s.state = .startElement → hasEsiPrefix s.rest = true) ∧
  (s.state = .endElement → hasSlashEsiPrefix s.rest = true)

theorem readerNext_good (s : RState) (h : goodRState s) :
    goodRState (Reader.next s).2 ∧
      ∀ t, (Reader.next s).1 = .ok t →
        ((t.type = .startElement ∨ t.type = .endElement) → t.name.space = bytesOf "esi") := by
  unfold Reader.next
  cases hse : s.err with
  | some e => exact ⟨h, fun t ht => Except.noConfusion ht⟩
  | none =>
    dsimp only
    have hA := runStateFn_stepOk s.state s.offset s.rest h.1 h.2
    split
    · rename_i t e? off rest fn heq
      rw [heq] at hA
      refine ⟨⟨hA.2.1, hA.2.2⟩, fun t' ht' => ?_⟩
      injection ht' with ht'
      subst ht'
      exact hA.1 t rfl
    · rename_i e off rest fn heq
      rw [heq] at hA
      exact ⟨⟨hA.2.1, hA.2.2⟩, fun t ht => Except.noConfusion ht⟩
    · rename_i off rest fn heq
      rw [heq] at hA
      have hB := runStateFn_stepOk fn off rest hA.2.1 hA.2.2
      split
      · rename_i t e? off2 rest2 fn2 heq2
        rw [heq2] at hB
        refine ⟨⟨hB.2.1, hB.2.2⟩, fun t' ht' => ?_⟩
        injection ht' with ht'
        subst ht'
        exact hB.1 t rfl
      · rename_i x e off2 rest2 fn2 heq2
        rw [heq2] at hB
        exact ⟨⟨hB.2.1, hB.2.2⟩, fun t ht => Except.noConfusion ht⟩
      · rename_i x off2 rest2 fn2 heq2
        rw [heq2] at hB
        exact ⟨⟨hB.2.1, hB.2.2⟩, fun t ht => Except.noConfusion ht⟩

theorem scanAll_names (fuel : Nat) (s : RState) (h : goodRState s) :
    ∀ t ∈ (scanAll fuel s).1, (t.type = .startElement ∨ t.type = .endElement) →
      t.name.space = bytesOf "esi" := by
  induction fuel generalizing s with
  | zero => intro t ht; cases ht
  | succ fuel ih =>
    intro t ht hty
    unfold scanAll at ht
    dsimp only at ht
    split at ht
    · cases ht
    · rename_i t0 s' hr
      rcases List.mem_cons.mp ht with hEq | hmem
      · subst hEq
        exact (readerNext_good s h).2 t (by rw [hr]) hty
      · have hgood := (readerNext_good s h).1
        rw [hr] at hgood
        exact ih s' hgood t hmem hty

end Esixml

namespace Esixml

/-! ## General passthrough facts, for arbitrary (mixed) inputs -/

/-- `findTag` decomposition: when no tag is found the accumulated data is the
whole input; when a tag is found the data is a verbatim prefix ending in the
tag-opening `<`, and the input splits verbatim around that `<`. -/
theorem findTag_decomp (s : List Nat) :
    ((findTag s).2 = none → (findTag s).1 = s) ∧
    (∀ isStart rest', (findTag s).2 = some (isStart, rest') →
      ∃ d, (findTag s).1 = d ++ [0x3C] ∧ s = d ++ 0x3C :: rest') := by
  induction s with
  | nil => exact ⟨fun _ => rfl, fun a b h => by cases h⟩
  | cons b rest ih =>
    by_cases hb : (b == 0x3C) = true
    · by_cases he : hasEsiPrefix rest = true
      · have heq : findTag (b :: rest) = ([b], some (true, rest)) := by
          unfold findTag
          rw [if_pos hb, if_pos he]
        rw [heq]
        refine ⟨fun h => Option.noConfusion h, fun iS r' h => ?_⟩
        simp only [Option.some.injEq, Prod.mk.injEq] at h
        obtain ⟨h1, h2⟩ := h
        subst h2
        have hbe : b = 0x3C := by simpa using hb
        subst hbe
        exact ⟨[], rfl, rfl⟩
      · by_cases hs : hasSlashEsiPrefix rest = true
        · have heq : findTag (b :: rest) = ([b], some (false, rest)) := by
            unfold findTag
            rw [if_pos hb, if_neg he, if_pos hs]
          rw [heq]
          refine ⟨fun h => Option.noConfusion h, fun iS r' h => ?_⟩
          simp only [Option.some.injEq, Prod.mk.injEq] at h
          obtain ⟨h1, h2⟩ := h
          subst h2
          have hbe : b = 0x3C := by simpa using hb
          subst hbe
          exact ⟨[], rfl, rfl⟩
        · have heq : findTag (b :: rest) = (b :: (findTag rest).1, (findTag rest).2) := by
            conv_lhs => rw [findTag]
            rw [if_pos hb, if_neg he, if_neg hs]
          rw [heq]
          refine ⟨fun h => ?_, fun iS r' h => ?_⟩
          · rw [ih.1 h]
          · obtain ⟨d, hd1, hd2⟩ := ih.2 iS r' h
            exact ⟨b :: d, by rw [hd1]; rfl, by rw [hd2]; rfl⟩
    · have heq : findTag (b :: rest) = (b :: (findTag rest).1, (findTag rest).2) := by
        conv_lhs => rw [findTag]
        rw [if_neg hb]
      rw [heq]
      refine ⟨fun h => ?_, fun iS r' h => ?_⟩
      · rw [ih.1 h]
      · obtain ⟨d, hd1, hd2⟩ := ih.2 iS r' h
        exact ⟨b :: d, by rw [hd1]; rfl, by rw [hd2]; rfl⟩

/-- Every `<` inside the accumulated data — except the tag-opening `<` itself
when a tag was found — is an ordinary data byte: the bytes after it match
neither `esi:` nor `/esi:`. -/
theorem findTag_lt (s : List Nat) :
    ∀ i, (findTag s).1[i]? = some 0x3C →
      (i + 1 < (findTag s).1.length ∨ (findTag s).2 = none) →
      hasEsiPrefix (s.drop (i + 1)) = false ∧
        hasSlashEsiPrefix (s.drop (i + 1)) = false := by
  induction s with
  | nil => intro i hb; simp [findTag] at hb
  | cons b rest ih =>
    intro i hb hnl
    by_cases hbeq : (b == 0x3C) = true
    · by_cases he : hasEsiPrefix rest = true
      · have heq : findTag (b :: rest) = ([b], some (true, rest)) := by
          unfold findTag
          rw [if_pos hbeq, if_pos he]
        rw [heq] at hb hnl
        rcases hnl with h | h
        · simp at h
        · cases h
      · by_cases hs : hasSlashEsiPrefix rest = true
        · have heq : findTag (b :: rest) = ([b], some (false, rest)) := by
            unfold findTag
            rw [if_pos hbeq, if_neg he, if_pos hs]
          rw [heq] at hb hnl
          rcases hnl with h | h
          · simp at h
          · cases h
        · have heq : findTag (b :: rest) = (b :: (findTag rest).1, (findTag rest).2) := by
            conv_lhs => rw [findTag]
            rw [if_pos hbeq, if_neg he, if_neg hs]
          rw [heq] at hb hnl
          cases i with
          | zero =>
            exact ⟨Bool.eq_false_iff.mpr he, Bool.eq_false_iff.mpr hs⟩
          | succ j =>
            rw [List.getElem?_cons_succ] at hb
            have hnl' : j + 1 < (findTag rest).1.length ∨ (findTag rest).2 = none := by
              rcases hnl with h | h
              · left
                simp only [List.length_cons] at h
                omega
              · exact Or.inr h
            rw [List.drop_succ_cons]
            exact ih j hb hnl'
    · have heq : findTag (b :: rest) = (b :: (findTag rest).1, (findTag rest).2) := by
        conv_lhs => rw [findTag]
        rw [if_neg hbeq]
      rw [heq] at hb hnl
      cases i with
      | zero =>
        rw [List.getElem?_cons_zero] at hb
        injection hb with hb
        exact absurd (by simp [hb]) hbeq
      | succ j =>
        rw [List.getElem?_cons_succ] at hb
        have hnl' : j + 1 < (findTag rest).1.length ∨ (findTag rest).2 = none := by
          rcases hnl with h | h
          · left
            simp only [List.length_cons] at h
            omega
          · exact Or.inr h
        rw [List.drop_succ_cons]
        exact ih j hb hnl'

/-- Full characterization of one data-state scan step on an arbitrary input:
it never produces an error other than end-of-stream (and that only at the
true end of the input), and any token it emits is a data token covering the
span `[off, off + len)` whose bytes are a verbatim prefix of the remaining
input in which every `<` is a non-ESI `<`. -/
theorem parseElementOrData_spec (off : Nat) (rest : List Nat) :
    ((parseElementOrData off rest).2.1 = none ∨
      ((parseElementOrData off rest).2.1 = some .eof ∧ (findTag rest).2 = none)) ∧
    (∀ t, (parseElementOrData off rest).1 = some t →
      t.type = .data ∧ t.pos.start = off ∧ t.pos.stop = off + t.data.length ∧
      (∃ suffix, rest = t.data ++ suffix) ∧
      ∀ i, t.data[i]? = some 0x3C →
        hasEsiPrefix (rest.drop (i + 1)) = false ∧
        hasSlashEsiPrefix (rest.drop (i + 1)) = false) := by
  unfold parseElementOrData
  dsimp only
  split
  · rename_i htag
    split
    · exact ⟨Or.inr ⟨rfl, htag⟩, fun t ht => Option.noConfusion ht⟩
    · refine ⟨Or.inr ⟨rfl, htag⟩, fun t ht => ?_⟩
      injection ht with ht
      subst ht
      have hdr : (findTag rest).1 = rest := (findTag_decomp rest).1 htag
      refine ⟨rfl, by dsimp only; omega, rfl, ⟨[], by rw [hdr, List.append_nil]⟩, ?_⟩
      intro i hbi
      exact findTag_lt rest i hbi (Or.inr htag)
  · rename_i isStart rest' htag
    split
    · exact ⟨Or.inl rfl, fun t ht => Option.noConfusion ht⟩
    · rename_i hlen
      refine ⟨Or.inl rfl, fun t ht => ?_⟩
      injection ht with ht
      subst ht
      obtain ⟨d, hd1, hd2⟩ := (findTag_decomp rest).2 isStart rest' htag
      refine ⟨rfl, by dsimp only; omega, ?_, ?_, ?_⟩
      · dsimp only
        rw [hd1, List.dropLast_concat]
        simp only [List.length_append, List.length_singleton]
        omega
      · exact ⟨0x3C :: rest', by rw [hd1, List.dropLast_concat]; exact hd2⟩
      · intro i hbi
        rw [hd1, List.dropLast_concat] at hbi
        have hilt : i < d.length := by
          by_contra hge
          rw [List.getElem?_eq_none (Nat.le_of_not_lt hge)] at hbi
          cases hbi
        have hb' : (findTag rest).1[i]? = some 0x3C := by
          rw [hd1, List.getElem?_append_left hilt]
          exact hbi
        have hnl : i + 1 < (findTag rest).1.length ∨ (findTag rest).2 = none := by
          left
          rw [hd1, List.length_append]
          simp only [List.length_singleton]
          omega
        exact findTag_lt rest i hb' hnl

/-- C8: on every input byte sequence, a data-state scan step never errors
except with end-of-stream at the true end of the input (so non-ESI markup,
however malformed, never causes a scan error), and any token it emits there
is a data token covering exactly the bytes `[start, stop)` which are a
verbatim prefix of the remaining input in which every `<` is followed by
neither `esi:` nor `/esi:` — such `<`s pass through inside the data token
exactly as they appeared.  Moreover an input with no ESI tag open at all
scans to a single verbatim data token (none when empty) terminated by
end-of-stream, and every start/end element token the scanner ever produces
carries the `esi` namespace. -/
theorem c8_scanner_passthrough :
    (∀ input : List Nat, noEsiOpen input = true →
      scanAll (input.length + 2) (Reader.reset input) =
        ((if input.isEmpty then [] else
          [⟨⟨0, input.length⟩, .data, ⟨[], []⟩, [], input, false⟩]), some .eof)) ∧
    (∀ (fuel : Nat) (s : RState), goodRState s →
      ∀ t ∈ (scanAll fuel s).1,
        (t.type = .startElement ∨ t.type = .endElement) → t.name.space = bytesOf "esi") ∧
    (∀ (off : Nat) (rest : List Nat),
      (parseElementOrData off rest).2.1 = none ∨
        ((parseElementOrData off rest).2.1 = some .eof ∧ (findTag rest).2 = none)) ∧
    (∀ (off : Nat) (rest : List Nat) (t : Token), (parseElementOrData off rest).1 = some t →
      t.type = .data ∧ t.pos.start = off ∧ t.pos.stop = off + t.data.length ∧
      (∃ suffix, rest = t.data ++ suffix) ∧
      ∀ i, t.data[i]? = some 0x3C →
        hasEsiPrefix (rest.drop (i + 1)) = false ∧
        hasSlashEsiPrefix (rest.drop (i + 1)) = false) := by
  refine ⟨fun input h => ?_, fun fuel s hgood t ht hty => scanAll_names fuel s hgood t ht hty,
    fun off rest => (parseElementOrData_spec off rest).1,
    fun off rest t ht => (parseElementOrData_spec off rest).2 t ht⟩
  by_cases hne : input = []
  · subst hne
    rfl
  · rw [if_neg (by simp [List.isEmpty_iff, hne])]
    have hped := parseElementOrData_noEsi 0 input h hne
    have hnext : Reader.next (Reader.reset input) =
        (.ok ⟨⟨0, 0 + input.length⟩, .data, ⟨[], []⟩, [], input, false⟩,
          ⟨0 + input.length, [], some .eof, .elementOrData⟩) := by
      unfold Reader.next
      dsimp only [Reader.reset]
      rw [show runStateFn .elementOrData 0 input = parseElementOrData 0 input from rfl]
      rw [hped]
    rw [Nat.zero_add] at hnext
    have h2 : scanAll (input.length + 1)
        ⟨input.length, [], some RErr.eof, .elementOrData⟩ = ([], some .eof) := rfl
    show scanAll (input.length + 1 + 1) (Reader.reset input) = _
    unfold scanAll
    rw [hnext]
    dsimp only
    rw [h2]

/-- C8 witness: the malformed non-ESI fragment passes through verbatim with
only an end-of-stream signal; the tokens of a real ESI tag are all in the
`esi` namespace; and on the mixed input `x<p>y<esi:c/>` the data-state step
reports no error while the stray `<` at index 1 of the emitted data token is
followed by neither `esi:` nor `/esi:`. -/
theorem c8_scanner_passthrough_witness :
    scanAll ((bytesOf "<p>hi & </b>").length + 2) (Reader.reset (bytesOf "<p>hi & </b>")) =
      ((if (bytesOf "<p>hi & </b>").isEmpty then [] else
        [⟨⟨0, (bytesOf "<p>hi & </b>").length⟩, .data, ⟨[], []⟩, [],
          bytesOf "<p>hi & </b>", false⟩]), some .eof) ∧
    (∀ t ∈ (scanAll 5 (Reader.reset (bytesOf "<esi:include src=\"/x\"/>"))).1,
      (t.type = .startElement ∨ t.type = .endElement) → t.name.space = bytesOf "esi") ∧
    ((parseElementOrData 0 (bytesOf "x<p>y<esi:c/>")).2.1 = none ∨
      ((parseElementOrData 0 (bytesOf "x<p>y<esi:c/>")).2.1 = some .eof ∧
        (findTag (bytesOf "x<p>y<esi:c/>")).2 = none)) ∧
    (hasEsiPrefix ((bytesOf "x<p>y<esi:c/>").drop 2) = false ∧
      hasSlashEsiPrefix ((bytesOf "x<p>y<esi:c/>").drop 2) = false) :=
  ⟨c8_scanner_passthrough.1 _ (by decide),
   fun t ht hty => c8_scanner_passthrough.2.1 5 _
     ⟨(fun hh => by simp [Reader.reset] at hh), (fun hh => by simp [Reader.reset] at hh)⟩ t ht hty,
   c8_scanner_passthrough.2.2.1 0 (bytesOf "x<p>y<esi:c/>"),
   (c8_scanner_passthrough.2.2.2 0 (bytesOf "x<p>y<esi:c/>")
     ⟨⟨0, 5⟩, .data, ⟨[], []⟩, [], bytesOf "x<p>y", false⟩ rfl).2.2.2.2 1 rfl⟩

end Esixml

namespace Esixml

/-! ## Sticky errors (claim C9) -/

theorem readerNext_of_err (s : RState) (e0 : RErr) (hs : s.err = some e0) :
    Reader.next s = (.error e0, s) := by
  unfold Reader.next
  rw [hs]

theorem readerNext_err_state (s : RState) (e : RErr)
    (h : (Reader.next s).1 = .error e) : (Reader.next s).2.err = some e := by
  unfold Reader.next at h ⊢
  revert h
  cases hs : s.err with
  | some e0 =>
    intro h
    dsimp only at h ⊢
    injection h with h
    subst h
    exact hs
  | none =>
    intro h
    dsimp only at h ⊢
    rcases hrun : runStateFn s.state s.offset s.rest with ⟨t?, e?, off, rest, fn⟩
    rw [hrun] at h
    cases t? with
    | some t => simp at h
    | none =>
      cases e? with
      | some e1 =>
        injection h with h
        subst h
        rfl
      | none =>
        dsimp only at h ⊢
        rcases hrun2 : runStateFn fn off rest with ⟨t2?, e2?, off2, rest2, fn2⟩
        rw [hrun2] at h
        cases t2? with
        | some t2 => simp at h
        | none =>
          cases e2? with
          | some e2 =>
            injection h with h
            subst h
            rfl
          | none =>
            injection h with h
            subst h
            rfl

end Esixml

namespace Esi

open Esixml

theorem parserNext_of_err (fuel : Nat) (p : PState) (e0 : PErr) (hp : p.err = some e0) :
    Parser.next fuel p = finishNext e0 p := by
  cases fuel with
  | zero =>
    unfold Parser.next
    rw [hp]
  | succ fuel =>
    unfold Parser.next
    rw [hp]

theorem parserNext_err_spec (fuel : Nat) (p : PState) (e : PErr)
    (h : (Parser.next fuel p).1 = .error e) :
    ∃ e0, (Parser.next fuel p).2.err = some e0 ∧
      finishNext e0 ((Parser.next fuel p).2) = Parser.next fuel p := by
  induction fuel generalizing p with
  | zero =>
    unfold Parser.next at h ⊢
    revert h
    cases hp : p.err with
    | some e0 =>
      intro h
      dsimp only at h ⊢
      refine ⟨e0, ?_, ?_⟩
      · rw [finishNext_stack]
        exact hp
      · rw [finishNext_stack]
    | none =>
      intro h
      exact ⟨.deadCode, rfl, rfl⟩
  | succ fuel ih =>
    unfold Parser.next at h ⊢
    revert h
    cases hp : p.err with
    | some e0 =>
      intro h
      dsimp only at h ⊢
      refine ⟨e0, ?_, ?_⟩
      · rw [finishNext_stack]
        exact hp
      · rw [finishNext_stack]
    | none =>
      intro h
      dsimp only at h ⊢
      cases hr1 : (runPFn p.state p).1 with
      | some n =>
        rw [hr1] at h
        simp at h
      | none =>
        rw [hr1] at h
        dsimp only at h
        cases hr2 : (runPFn p.state p).2.1 with
        | some e1 =>
          rw [hr2] at h
          dsimp only at h ⊢
          refine ⟨e1, ?_, ?_⟩
          · rw [finishNext_stack]
          · rw [finishNext_stack]
        | none =>
          rw [hr2] at h
          exact ih _ h

end Esi

namespace Esi

open Esixml

/-- C9: both the scanner and the grammar parser have sticky failures: once
`next` returns an error, every later call returns the same error with the
state unchanged, and only `Reset` (modelled by `Reader.reset`, whose error
field is cleared) recovers. -/
theorem c9_sticky_errors :
    (∀ (s : RState) (e : RErr), (Reader.next s).1 = .error e →
      Reader.next (Reader.next s).2 = (.error e, (Reader.next s).2)) ∧
    (∀ input : List Nat, (Reader.reset input).err = none) ∧
    (∀ (fuel fuel' : Nat) (p : PState) (e : PErr), (Parser.next fuel p).1 = .error e →
      Parser.next fuel' (Parser.next fuel p).2 = (.error e, (Parser.next fuel p).2)) := by
  refine ⟨fun s e h => ?_, fun input => rfl, fun fuel fuel' p e h => ?_⟩
  · exact readerNext_of_err _ e (readerNext_err_state s e h)
  · obtain ⟨e0, hq, hfn⟩ := parserNext_err_spec fuel p e h
    calc Parser.next fuel' (Parser.next fuel p).2
        = finishNext e0 (Parser.next fuel p).2 := parserNext_of_err fuel' _ e0 hq
      _ = Parser.next fuel p := hfn
      _ = (.error e, (Parser.next fuel p).2) := by rw [← h]

/-- C9 witness: at the end of empty input, both the scanner and the parser
repeat their end-of-stream error on the next call without moving. -/
theorem c9_sticky_errors_witness :
    Reader.next (Reader.next (Reader.reset [])).2 =
      (.error .eof, (Reader.next (Reader.reset [])).2) ∧
    Parser.next 3 (Parser.next 16 (Parser.reset [])).2 =
      (.error (.readerErr .eof), (Parser.next 16 (Parser.reset [])).2) :=
  ⟨c9_sticky_errors.1 _ .eof rfl, c9_sticky_errors.2.2 16 3 _ _ rfl⟩

end Esi

namespace Esi

open Esixml

/-- C10: attribute consumption is namespace-sensitive: a found attribute
always has an empty namespace and the requested local name, a namespaced
attribute always survives into the residual list, a closed include tag whose
attributes are all namespaced fails with a missing-attribute error (so
`ns:src` does not satisfy the `src` requirement), and concretely
`<esi:include ns:src="/x"/>` fails while `<esi:include ns:foo="1" src="/x"/>`
keeps `ns:foo` in the node's residual attributes. -/
theorem c10_namespaced_attributes :
    (∀ (attrs : List Attr) (nm : List Nat), (takeAttr attrs nm).1.2 = true →
      (takeAttr attrs nm).1.1.name.space = [] ∧
        (takeAttr attrs nm).1.1.name.localName = nm) ∧
    (∀ (attrs : List Attr) (nm : List Nat) (a : Attr), a ∈ attrs → a.name.space ≠ [] →
      a ∈ (takeAttr attrs nm).2) ∧
    (∀ tok : Token, tok.closed = true → (∀ a ∈ tok.attr, a.name.space ≠ []) →
      includeFromToken tok = .error (.missingAttribute tok.pos tok.name ⟨[], bytesOf "src"⟩)) ∧
    esiParse (bytesOf "<esi:include ns:src=\"/x\"/>") =
      .error (.missingAttribute ⟨0, 26⟩ (esiName "include") ⟨[], bytesOf "src"⟩) ∧
    esiParse (bytesOf "<esi:include ns:foo=\"1\" src=\"/x\"/>") =
      .ok [.includeEl ⟨0, 34⟩ [⟨⟨13, 23⟩, ⟨bytesOf "ns", bytesOf "foo"⟩, bytesOf "1"⟩]
        [] [] (bytesOf "/x")] := by
  refine ⟨fun attrs nm h =>
      ⟨(takeAttr_found_mem attrs nm h).2.1, (takeAttr_found_mem attrs nm h).2.2⟩,
    fun attrs nm a ha hns => takeAttr_keeps_namespaced attrs nm a ha hns,
    fun tok hc hns => ?_, rfl, rfl⟩
  have habs : ∀ nm', ∀ a ∈ tok.attr, ¬(a.name.space = [] ∧ a.name.localName = nm') :=
    fun nm' a ha hcon => hns a ha hcon.1
  have hguard : ¬((takeAttr (takeAttr tok.attr (bytesOf "alt")).2 (bytesOf "onerror")).1.2 = true ∧
      ¬(takeAttr (takeAttr tok.attr (bytesOf "alt")).2 (bytesOf "onerror")).1.1.value =
        bytesOf "continue") := by
    rintro ⟨hf, _⟩
    obtain ⟨hmem, hsp, hln⟩ := takeAttr_found_mem _ _ hf
    exact hns _ (takeAttr_sub _ _ _ hmem) hsp
  have hnof : (takeAttr (takeAttr (takeAttr tok.attr (bytesOf "alt")).2 (bytesOf "onerror")).2
      (bytesOf "src")).1.2 = false :=
    (takeAttr_none_of_absent _ _ (fun a ha =>
      habs _ a (takeAttr_sub _ _ _ (takeAttr_sub _ _ _ ha)))).1
  unfold includeFromToken
  rw [hc]
  split
  · rename_i hfalse
    simp at hfalse
  · dsimp only
    split
    · rename_i hcond
      exact absurd hcond hguard
    · split
      · rfl
      · rename_i hcond2
        rw [hnof] at hcond2
        simp at hcond2

/-- C10 witness: a plain `src` attribute is found with empty namespace, a
namespaced `ns:src` survives `takeAttr` and leaves a closed include tag
missing its `src`. -/
theorem c10_namespaced_attributes_witness :
    ((takeAttr [⟨⟨0, 5⟩, ⟨[], bytesOf "src"⟩, bytesOf "/x"⟩] (bytesOf "src")).1.1.name.space = [] ∧
      (takeAttr [⟨⟨0, 5⟩, ⟨[], bytesOf "src"⟩, bytesOf "/x"⟩] (bytesOf "src")).1.1.name.localName =
        bytesOf "src") ∧
    (⟨⟨0, 5⟩, ⟨bytesOf "ns", bytesOf "src"⟩, bytesOf "/x"⟩ : Attr) ∈
      (takeAttr [⟨⟨0, 5⟩, ⟨bytesOf "ns", bytesOf "src"⟩, bytesOf "/x"⟩] (bytesOf "src")).2 ∧
    includeFromToken ⟨⟨0, 26⟩, .startElement, esiName "include",
        [⟨⟨13, 23⟩, ⟨bytesOf "ns", bytesOf "src"⟩, bytesOf "/x"⟩], [], true⟩ =
      .error (.missingAttribute ⟨0, 26⟩ (esiName "include") ⟨[], bytesOf "src"⟩) :=
  ⟨c10_namespaced_attributes.1 _ _ (by decide),
   c10_namespaced_attributes.2.1 _ _ _ (by decide) (by decide),
   c10_namespaced_attributes.2.2.1 _ rfl (by decide)⟩

end Esi
